import Mathlib

/-!
# Metad node: command orchestrators, header hash, secrets and genesis validators

A shallow embedding of the transaction orchestrators of the command line
(`command/sidechain/whitelist`, `command/bridge/deposit`), of the header hash
of the consensus layer, of the helpers of `secrets/helper`, of the uptime helper
of `contractsapi` and of the genesis validator of `polybft_config.go`, with the
properties stated about them.

Conventions of the embedding:

* `*big.Int` is `Int`, `uint64` is `Nat`, `[]byte` is `List Nat`;
* a Go result `(v, err)` whose value is only read when `err == nil` is an
  `Except`; where the code reads the value whatever the error is (the receipt of
  `SendTransaction`, the depositor key), both components are kept as `Option`s,
  `none` standing for `nil`;
* code of other packages (ABI encoding, address parsing, the transaction relayer,
  the secrets of the account) is a field of a record of dependencies, so every
  statement holds for each of their behaviours;
* a nil dereference or an index out of range ends the run with `panicked = true`.
-/

namespace Metad

/-! ## Shared data -/

/-- The type `types.Address` (20 bytes), kept as the number the bytes denote. -/
structure Address where
  val : Nat
deriving DecidableEq, Repr

/-- The zero value of an address, which a transaction gets when `From` is not set. -/
def ZeroAddress : Address := ⟨0⟩

/-- The type `ethgo.Log`. -/
structure Log where
  address : Address
  topics : List Nat
  data : List Nat
deriving DecidableEq, Repr

/-- The type `ethgo.Receipt`, with the fields the commands read. -/
structure Receipt where
  status : Nat
  blockNumber : Nat
  logs : List Log
deriving DecidableEq, Repr

/-- The type `ethgo.Transaction`, with the fields the commands set (`From` is
`sender`, `To` is `dest`). -/
structure Transaction where
  sender : Address := ZeroAddress
  dest : Option Address := none
  input : List Nat := []
  gasPrice : Nat := 0
deriving DecidableEq, Repr

/-- What `txRelayer.SendTransaction` returns: `(*ethgo.Receipt, error)`. -/
structure SendResult where
  receipt : Option Receipt
  err : Option String
deriving DecidableEq, Repr

/-- The transaction relayer: its answer may depend on the transaction and on all
the transactions it was given before. -/
abbrev TxRelayer := List Transaction → Transaction → SendResult

/-- The contract calls of `contractsapi` the commands encode. -/
inductive ContractCall where
  | mint (toAddr : Address) (amount : Int)
  | approve (spender : Address) (amount : Int)
  | depositTo (rootToken receiver : Address) (amount : Int)
  | addToWhitelist (whitelistAddreses : List Address)
deriving DecidableEq, Repr

/-- Code of other packages both commands use: `types.StringToAddress`, the
`EncodeAbi` methods of `contractsapi`, and the constant `types.ReceiptFailed`. -/
structure Deps where
  stringToAddress : String → Address
  encodeAbi : ContractCall → Except String (List Nat)
  receiptFailed : Nat

/-! ## command/sidechain/whitelist -/

/-- The flags of the command (`whitelistParams`). -/
structure WhitelistParams where
  accountDir : String
  accountConfig : String
  newValidatorAddress : String
  jsonRPC : String

/-- What `AddedToWhitelistEvent.ParseLog` returns, `(doesMatch, err)`, and the
`Validator` field the event holds after the call. -/
structure ParseLogResult where
  doesMatch : Bool
  err : Option String
  validator : Address
deriving DecidableEq, Repr

/-- The dependencies of the whitelist command: `sidechainHelper.GetAccount` (the
address of the ECDSA key of the account is what the command reads),
`txrelayer.NewTxRelayer`, `ParseLog`, `contracts.ValidatorSetContract` and
`sidechainHelper.DefaultGasPrice`. -/
structure WhitelistEnv extends Deps where
  getAccount : String → String → Except String Address
  newTxRelayer : String → Except String TxRelayer
  parseLog : Log → ParseLogResult
  validatorSetContract : Address
  defaultGasPrice : Nat

/-- The errors `runCommand` of the whitelist command returns. -/
inductive WhitelistError where
  | getAccount (e : String)
  | newTxRelayer (e : String)
  | encodeAbi (e : String)
  | sendTransaction (e : String)
  | txFailed (blockNumber : Nat)
  | parseLog (e : String)
  | logNotFound
deriving DecidableEq, Repr

/-- The type `enlistResult`; the address stands for its `String()`. -/
structure EnlistResult where
  newValidatorAddress : Address
deriving DecidableEq, Repr

/-- One run of the whitelist command: the returned error, the result given to
`outputter.WriteCommandResult`, the transactions handed to the relayer. -/
structure WhitelistRun where
  err : Option WhitelistError := none
  commandResult : Option EnlistResult := none
  sent : List Transaction := []
  panicked : Bool := false
deriving DecidableEq, Repr

/-- The loop over `receipt.Logs` of `runCommand` (lines 112-126): `.error e` is
`return err`, `.ok none` is the loop ending with `foundLog == false`, and
`.ok (some v)` is the `break` with `result.newValidatorAddress` set. -/
def scanLogs (parseLog : Log → ParseLogResult) : List Log → Except String (Option Address)
  | [] => .ok none
  | log :: rest =>
    let r := parseLog log
    if !r.doesMatch then scanLogs parseLog rest
    else
      match r.err with
      | some e => .error e
      | none => .ok (some r.validator)

/-- The transaction `runCommand` builds (lines 81-95) from the address of the
owner account and the encoded `addToWhitelist` call. -/
def whitelistTxn (env : WhitelistEnv) (owner : Address) (encoded : List Nat) : Transaction :=
  { sender := owner, input := encoded,
    dest := some env.validatorSetContract, gasPrice := env.defaultGasPrice }

/-- The function `runCommand` of `whitelist_validator.go`. -/
def whitelistRunCommand (env : WhitelistEnv) (params : WhitelistParams) : WhitelistRun :=
  match env.getAccount params.accountDir params.accountConfig with
  | .error e => { err := some (.getAccount e) }
  | .ok ownerAddress =>
    match env.newTxRelayer params.jsonRPC with
    | .error e => { err := some (.newTxRelayer e) }
    | .ok txRelayer =>
      match env.encodeAbi (.addToWhitelist [env.stringToAddress params.newValidatorAddress]) with
      | .error e => { err := some (.encodeAbi e) }
      | .ok encoded =>
        let txn := whitelistTxn env ownerAddress encoded
        let res := txRelayer [] txn
        match res.err with
        | some e => { err := some (.sendTransaction e), sent := [txn] }
        | none =>
          match res.receipt with
          | none => { sent := [txn], panicked := true }
          | some receipt =>
            if receipt.status = env.receiptFailed then
              { err := some (.txFailed receipt.blockNumber), sent := [txn] }
            else
              match scanLogs env.parseLog receipt.logs with
              | .error e => { err := some (.parseLog e), sent := [txn] }
              | .ok none => { err := some .logNotFound, sent := [txn] }
              | .ok (some v) => { commandResult := some ⟨v⟩, sent := [txn] }

/-! ### A concrete setting of the whitelist command -/

/-- A log counts as `AddedToWhitelist` when its first topic is 7; its data must
be one word, the validator. -/
def demoParseLog (log : Log) : ParseLogResult :=
  match log.topics with
  | 7 :: _ =>
    match log.data with
    | [v] => ⟨true, none, ⟨v⟩⟩
    | _ => ⟨true, some "bad data", ⟨0⟩⟩
  | _ => ⟨false, none, ⟨0⟩⟩

/-- A whitelist environment whose relayer answers every transaction with `res`. -/
def demoWhitelistEnv (res : SendResult) : WhitelistEnv :=
  { stringToAddress := fun s => ⟨s.length⟩
    encodeAbi := fun c =>
      match c with
      | .addToWhitelist l => .ok (4 :: l.map Address.val)
      | .mint a n => if n < 0 then .error "negative" else .ok [1, a.val, n.toNat]
      | .approve a n => if n < 0 then .error "negative" else .ok [2, a.val, n.toNat]
      | .depositTo t r n => if n < 0 then .error "negative" else .ok [3, t.val, r.val, n.toNat]
    receiptFailed := 0
    getAccount := fun _ _ => .ok ⟨99⟩
    newTxRelayer := fun _ => .ok (fun _ _ => res)
    parseLog := demoParseLog
    validatorSetContract := ⟨257⟩
    defaultGasPrice := 1 }

/-- The flags of the concrete whitelist run. -/
def demoWhitelistParams : WhitelistParams :=
  { accountDir := "dir", accountConfig := "", newValidatorAddress := "0xabc", jsonRPC := "rpc" }

/-! ## command/bridge/deposit -/

/-- The flags of the command (`depositERC20Params` with the embedded
`common.ERC20BridgeParams`). -/
structure DepositParams where
  senderKey : String
  receivers : List String
  amounts : List String
  rootTokenAddr : String
  rootPredicateAddr : String
  jsonRPCAddress : String
  testMode : Bool

/-- The type `ethgo.Key`; the command reads its `Address()` and hands it to the relayer. -/
structure Key where
  address : Address
deriving DecidableEq, Repr

/-- The dependencies of the deposit command: `helper.GetRootchainPrivateKey`
(both components of its result, as the command goes on after an error),
`txrelayer.NewTxRelayer` and `types.ParseUint256orHex`. -/
structure DepositEnv extends Deps where
  getRootchainPrivateKey : String → Option Key × Option String
  newTxRelayer : String → Except String TxRelayer
  parseUint256orHex : String → Except String Int

/-- The errors a deposit goroutine returns (lines 205-227). -/
inductive LegError where
  /-- `ctx.Err()` -/
  | ctxCanceled
  /-- "failed to create tx input: %w" -/
  | createTxInput (e : String)
  /-- "receiver: %s, amount: %s, error: %w" -/
  | sendFailed (receiver : String) (amount : Int) (e : String)
  /-- "receiver: %s, amount: %s" -/
  | receiptFailed (receiver : String) (amount : Int)
deriving DecidableEq, Repr

/-- The errors `runCommand` of the deposit command gives to `outputter.SetError`. -/
inductive DepositError where
  /-- "failed to initialize depositor private key: %w" -/
  | depositorKey (e : String)
  /-- "failed to initialize rootchain tx relayer: %w" -/
  | txRelayer (e : String)
  /-- "failed to decode provided amount %s: %w" -/
  | decodeAmount (e : String)
  /-- "mint transaction creation failed: %w" -/
  | mintCreate (e : String)
  /-- "failed to send mint transaction to depositor %s" -/
  | mintSend (depositor : Address)
  /-- "failed to mint tokens to depositor %s" -/
  | mintFailed (depositor : Address)
  /-- "failed to create root erc20 approve transaction: %w" -/
  | approveCreate (e : String)
  /-- "failed to send root erc20 approve transaction" -/
  | approveSend
  /-- "failed to approve root erc20 predicate" -/
  | approveFailed
  /-- "sending deposit transactions to the rootchain failed: %w" -/
  | deposits (e : LegError)
deriving DecidableEq, Repr

/-- The type `depositERC20Result`; the address stands for its `String()`. -/
structure DepositERC20Result where
  sender : Address
  receivers : List String
  amounts : List String
deriving DecidableEq, Repr

/-- The call site of `SendTransaction` a transaction was submitted from. -/
inductive TxKind where
  | mint
  | approve
  | deposit (leg : Nat)
deriving DecidableEq, Repr

/-- One call of `txRelayer.SendTransaction`: where from, what with, what came back. -/
structure Event where
  kind : TxKind
  txn : Transaction
  result : SendResult
deriving DecidableEq, Repr

/-- The pair a deposit goroutine captures: `receiver := dp.Receivers[i]` and
`amount := amounts[i]`. -/
structure Leg where
  receiver : String
  amount : Int
deriving DecidableEq, Repr

/-- Where a deposit goroutine stands. -/
inductive LegPc where
  /-- started by `g.Go`, the `select` not yet evaluated -/
  | spawned
  /-- took the `default` branch, `SendTransaction` not yet called -/
  | checked
  /-- `receipt, err = txRelayer.SendTransaction(...)` done; `err` is the local one -/
  | sent (err : Option String)
  /-- the closure has returned `r`, the group has not yet looked at it -/
  | returned (r : Option LegError)
  /-- the group has recorded the return value `r` -/
  | done (r : Option LegError)
deriving DecidableEq, Repr

/-- The state the deposit goroutines share: the variable `receipt` of
`runCommand` (declared on line 186 and assigned by each goroutine on line 216),
the context of the group, its first error, and the calls of the relayer so far. -/
structure LegsState where
  pcs : List LegPc
  receipt : Option Receipt
  ctxDone : Bool
  err : Option LegError
  trace : List Event
  panicked : Bool
deriving DecidableEq, Repr

/-- One run of the deposit command: the calls of the relayer in order, the last
error given to `SetError`, the value given to `SetCommandResult`, whether the
process died of a panic, and the goroutines started with their final places. -/
structure DepositRun where
  trace : List Event := []
  error : Option DepositError := none
  result : Option DepositERC20Result := none
  panicked : Bool := false
  legs : List Leg := []
  pcs : List LegPc := []
deriving DecidableEq, Repr

/-- The loop of lines 139-151: `amounts[i] = amount` and
`aggregateAmount.Add(aggregateAmount, amount)` for each raw amount, ending at
the first one that does not parse. -/
def parseAmounts (parse : String → Except String Int) :
    List String → List Int → Int → Except String (List Int × Int)
  | [], amounts, aggregateAmount => .ok (amounts, aggregateAmount)
  | amountRaw :: rest, amounts, aggregateAmount =>
    match parse amountRaw with
    | .error e => .error e
    | .ok amount => parseAmounts parse rest (amounts ++ [amount]) (aggregateAmount + amount)

/-- The transaction `createDepositTxn` returns for the encoded call `input`:
from the sender to the root predicate. -/
def depositTxnOf (env : DepositEnv) (dp : DepositParams) (sender : Address)
    (input : List Nat) : Transaction :=
  { sender := sender, dest := some (env.stringToAddress dp.rootPredicateAddr), input := input }

/-- The transaction `createMintTxn` returns for the encoded call `input`: from
the sender to the root token. -/
def mintTxnOf (env : DepositEnv) (dp : DepositParams) (sender : Address)
    (input : List Nat) : Transaction :=
  { sender := sender, dest := some (env.stringToAddress dp.rootTokenAddr), input := input }

/-- The transaction `createApproveERC20PredicateTxn` returns for the encoded call
`input`: to the root token, `From` left unset. -/
def approveTxnOf (rootERC20Token : Address) (input : List Nat) : Transaction :=
  { dest := some rootERC20Token, input := input }

/-- The function `createDepositTxn`. -/
def createDepositTxn (env : DepositEnv) (dp : DepositParams) (sender receiver : Address)
    (amount : Int) : Except String Transaction :=
  match env.encodeAbi (.depositTo (env.stringToAddress dp.rootTokenAddr) receiver amount) with
  | .error e => .error e
  | .ok input => .ok (depositTxnOf env dp sender input)

/-- The function `createMintTxn`. -/
def createMintTxn (env : DepositEnv) (dp : DepositParams) (sender receiver : Address)
    (amount : Int) : Except String Transaction :=
  match env.encodeAbi (.mint receiver amount) with
  | .error e => .error e
  | .ok input => .ok (mintTxnOf env dp sender input)

/-- The function `createApproveERC20PredicateTxn`; `From` is left unset. -/
def createApproveERC20PredicateTxn (env : DepositEnv) (amount : Int)
    (rootERC20Predicate rootERC20Token : Address) : Except String Transaction :=
  match env.encodeAbi (.approve rootERC20Predicate amount) with
  | .error e => .error e
  | .ok input => .ok (approveTxnOf rootERC20Token input)

/-- The loop header of lines 201-203 from index `i` on: the pairs the goroutines
are started with, and whether `amounts[i]` went out of range. -/
def spawnLegs (amounts : List Int) : List String → Nat → List Leg × Bool
  | [], _ => ([], false)
  | receiver :: rest, i =>
    match amounts[i]? with
    | none => ([], true)
    | some amount =>
      let r := spawnLegs amounts rest (i + 1)
      (⟨receiver, amount⟩ :: r.1, r.2)

/-- The goroutine of leg `i` moves to `pc`. -/
def LegsState.goto (st : LegsState) (i : Nat) (pc : LegPc) : LegsState :=
  { st with pcs := st.pcs.set i pc }

/-- One atomic step of the goroutine of leg `i` (lines 205-227 and the
bookkeeping of `errgroup.Group.Go`): the `select` on the context; the call of
`SendTransaction` with the assignment of its results to the shared `receipt`
and the local `err` (the trace lists the calls in the order they return); the
test of `err` and of `receipt.Status`, which reads the shared variable and
panics when it is nil; the recording of the returned error by the group, whose
first error cancels the context. Nothing moves once the process has panicked. -/
def legStep (env : DepositEnv) (dp : DepositParams) (txRelayer : TxRelayer)
    (depositorAddr : Address) (legs : List Leg) (st : LegsState) (i : Nat) : LegsState :=
  if st.panicked then st
  else
    match legs[i]?, st.pcs[i]? with
    | some leg, some pc =>
      match pc with
      | .spawned =>
        if st.ctxDone then st.goto i (.returned (some .ctxCanceled))
        else st.goto i .checked
      | .checked =>
        match createDepositTxn env dp depositorAddr (env.stringToAddress leg.receiver)
            leg.amount with
        | .error e => st.goto i (.returned (some (.createTxInput e)))
        | .ok depositTxn =>
          let res := txRelayer (st.trace.map Event.txn) depositTxn
          { st with
            pcs := st.pcs.set i (.sent res.err)
            receipt := res.receipt
            trace := st.trace ++ [⟨.deposit i, depositTxn, res⟩] }
      | .sent err =>
        match err with
        | some e => st.goto i (.returned (some (.sendFailed leg.receiver leg.amount e)))
        | none =>
          match st.receipt with
          | none => { st with panicked := true }
          | some receipt =>
            if receipt.status = env.receiptFailed then
              st.goto i (.returned (some (.receiptFailed leg.receiver leg.amount)))
            else st.goto i (.returned none)
      | .returned r =>
        match r with
        | none => st.goto i (.done none)
        | some e =>
          if st.err.isNone then
            { st with pcs := st.pcs.set i (.done r), err := some e, ctxDone := true }
          else st.goto i (.done r)
      | .done _ => st
    | _, _ => st

/-- The goroutines run the steps of a schedule, one leg index per step. -/
def runLegs (env : DepositEnv) (dp : DepositParams) (txRelayer : TxRelayer)
    (depositorAddr : Address) (legs : List Leg) (st : LegsState) (sched : List Nat) :
    LegsState :=
  sched.foldl (legStep env dp txRelayer depositorAddr legs) st

/-- The steps that let every goroutine among the first `n` finish, whatever was
run before: `g.Wait()` returns only then. -/
def joinSchedule : Nat → List Nat
  | 0 => []
  | n + 1 => joinSchedule n ++ [n, n, n, n]

/-- Lines 199-240 of `runCommand`: the goroutines are started, run interleaved as
`sched` says and then to their end, and `g.Wait()` gives the first error. When
`amounts[i]` is out of range the main goroutine panics while those started so
far have run the steps of `sched`. -/
def depositLegs (env : DepositEnv) (dp : DepositParams) (txRelayer : TxRelayer)
    (depositorAddr : Address) (amounts : List Int) (receipt : Receipt)
    (trace : List Event) (outErr : Option DepositError) (sched : List Nat) : DepositRun :=
  let spawn := spawnLegs amounts dp.receivers 0
  let legs := spawn.1
  let st0 : LegsState :=
    { pcs := List.replicate legs.length .spawned, receipt := some receipt,
      ctxDone := false, err := none, trace := trace, panicked := false }
  if spawn.2 then
    let st := runLegs env dp txRelayer depositorAddr legs st0 sched
    { trace := st.trace, error := outErr, panicked := true, legs := legs, pcs := st.pcs }
  else
    let st := runLegs env dp txRelayer depositorAddr legs st0
      (sched ++ joinSchedule legs.length)
    if st.panicked then
      { trace := st.trace, error := outErr, panicked := true, legs := legs, pcs := st.pcs }
    else
      match st.err with
      | some e =>
        { trace := st.trace, error := some (.deposits e), legs := legs, pcs := st.pcs }
      | none =>
        { trace := st.trace, error := outErr,
          result := some ⟨depositorAddr, dp.receivers, dp.amounts⟩,
          legs := legs, pcs := st.pcs }

/-- Lines 176-197 of `runCommand`: the approval, then the deposits. -/
def depositApprove (env : DepositEnv) (dp : DepositParams) (txRelayer : TxRelayer)
    (depositorAddr : Address) (amounts : List Int) (aggregateAmount : Int)
    (trace : List Event) (outErr : Option DepositError) (sched : List Nat) : DepositRun :=
  match createApproveERC20PredicateTxn env aggregateAmount
      (env.stringToAddress dp.rootPredicateAddr) (env.stringToAddress dp.rootTokenAddr) with
  | .error e => { trace := trace, error := some (.approveCreate e) }
  | .ok approveTxn =>
    let res := txRelayer (trace.map Event.txn) approveTxn
    let trace := trace ++ [⟨.approve, approveTxn, res⟩]
    match res.err with
    | some _ => { trace := trace, error := some .approveSend }
    | none =>
      match res.receipt with
      | none => { trace := trace, error := outErr, panicked := true }
      | some receipt =>
        if receipt.status = env.receiptFailed then
          { trace := trace, error := some .approveFailed }
        else
          depositLegs env dp txRelayer depositorAddr amounts receipt trace outErr sched

/-- Lines 153-174 of `runCommand`: the mint of test mode, then the rest. -/
def depositMint (env : DepositEnv) (dp : DepositParams) (txRelayer : TxRelayer)
    (depositorAddr : Address) (amounts : List Int) (aggregateAmount : Int)
    (outErr : Option DepositError) (sched : List Nat) : DepositRun :=
  if dp.testMode then
    match createMintTxn env dp depositorAddr depositorAddr aggregateAmount with
    | .error e => { error := some (.mintCreate e) }
    | .ok mintTxn =>
      let res := txRelayer [] mintTxn
      let trace : List Event := [⟨.mint, mintTxn, res⟩]
      match res.err with
      | some _ => { trace := trace, error := some (.mintSend depositorAddr) }
      | none =>
        match res.receipt with
        | none => { trace := trace, error := outErr, panicked := true }
        | some receipt =>
          if receipt.status = env.receiptFailed then
            { trace := trace, error := some (.mintFailed depositorAddr) }
          else
            depositApprove env dp txRelayer depositorAddr amounts aggregateAmount trace
              outErr sched
  else
    depositApprove env dp txRelayer depositorAddr amounts aggregateAmount [] outErr sched

/-- The function `runCommand` of `deposit_erc20.go`. The command context is the
background one (`root.Execute` calls `Execute()` without a context), so only the
group cancels it; `sched` is the interleaving of the deposit goroutines. After a
failed `GetRootchainPrivateKey` the error is set and the run goes on (there is
no `return` on line 125), calling `Address()` on the key it was given. -/
def depositRunCommand (env : DepositEnv) (dp : DepositParams) (sched : List Nat) :
    DepositRun :=
  let keyRes := env.getRootchainPrivateKey dp.senderKey
  let outErr : Option DepositError := keyRes.2.map .depositorKey
  match keyRes.1 with
  | none => { error := outErr, panicked := true }
  | some depositorKey =>
    let depositorAddr := depositorKey.address
    match env.newTxRelayer dp.jsonRPCAddress with
    | .error e => { error := some (.txRelayer e) }
    | .ok txRelayer =>
      match parseAmounts env.parseUint256orHex dp.amounts [] 0 with
      | .error e => { error := some (.decodeAmount e) }
      | .ok (amounts, aggregateAmount) =>
        depositMint env dp txRelayer depositorAddr amounts aggregateAmount outErr sched

/-- The event is a call of the relayer made by a deposit goroutine. -/
def Event.isDeposit (e : Event) : Bool :=
  match e.kind with
  | .deposit _ => true
  | _ => false

/-- The event is the approval, sent without error and mined with a receipt whose
status is not `failed`. -/
def Event.isApprovalOk (failed : Nat) (e : Event) : Bool :=
  match e.kind, e.result.err, e.result.receipt with
  | .approve, none, some r => r.status != failed
  | _, _, _ => false

/-- The event is the approval and it failed: the send returned an error, or the
receipt has the `failed` status. -/
def Event.isApprovalFailed (failed : Nat) (e : Event) : Bool :=
  match e.kind with
  | .approve =>
    e.result.err.isSome ||
      (match e.result.receipt with
       | some r => r.status == failed
       | none => false)
  | _ => false

/-- The event is the call of the relayer with the approval. -/
def Event.isApprove (e : Event) : Bool :=
  match e.kind with
  | .approve => true
  | _ => false

/-- The event is the call of the relayer with the mint of test mode. -/
def Event.isMint (e : Event) : Bool :=
  match e.kind with
  | .mint => true
  | _ => false

/-- The order property of a run: every deposit has a successful approval among
the events before it, and a failed approval means no deposit and an error set. -/
def ApprovalFirst (failed : Nat) (run : DepositRun) : Prop :=
  (∀ pre e post, run.trace = pre ++ e :: post → e.isDeposit = true →
      ∃ a ∈ pre, a.isApprovalOk failed = true)
    ∧ (∀ a ∈ run.trace, a.isApprovalFailed failed = true →
        (∀ e ∈ run.trace, e.isDeposit = false) ∧ run.error ≠ none)

/-- The event is the call of the relayer made by the goroutine of leg `i`. -/
def Event.isLeg (i : Nat) (e : Event) : Bool :=
  decide (e.kind = .deposit i)

/-- The goroutine is past its call of `SendTransaction`: it is at `sent`, or has
returned something else than the cancellation or the encoding error. -/
def LegPc.hasSent : LegPc → Bool
  | .spawned => false
  | .checked => false
  | .sent _ => true
  | .returned (some .ctxCanceled) => false
  | .returned (some (.createTxInput _)) => false
  | .returned _ => true
  | .done (some .ctxCanceled) => false
  | .done (some (.createTxInput _)) => false
  | .done _ => true

/-- How far a goroutine is, from 0 (`spawned`) to 4 (`done`). -/
def LegPc.rank : LegPc → Nat
  | .spawned => 0
  | .checked => 1
  | .sent _ => 2
  | .returned _ => 3
  | .done _ => 4

/-- The `depositTo` call of a leg. -/
def Leg.call (env : DepositEnv) (dp : DepositParams) (leg : Leg) : ContractCall :=
  .depositTo (env.stringToAddress dp.rootTokenAddr) (env.stringToAddress leg.receiver) leg.amount

/-- The moves of one goroutine: from `pc` to `pc2`, with the events `evs` added
to the trace. -/
def LegMove (env : DepositEnv) (dp : DepositParams) (d : Address) (i : Nat) (leg : Leg)
    (pc pc2 : LegPc) (evs : List Event) : Prop :=
  (pc = .spawned ∧ (pc2 = .checked ∨ pc2 = .returned (some .ctxCanceled)) ∧ evs = [])
  ∨ (pc = .checked ∧ ∃ e, env.encodeAbi (leg.call env dp) = .error e
      ∧ pc2 = .returned (some (.createTxInput e)) ∧ evs = [])
  ∨ (pc = .checked ∧ ∃ input res, env.encodeAbi (leg.call env dp) = .ok input
      ∧ pc2 = .sent res.err ∧ evs = [⟨.deposit i, depositTxnOf env dp d input, res⟩])
  ∨ ((∃ err, pc = .sent err) ∧ (∃ r, pc2 = .returned r) ∧ pc2.hasSent = true ∧ evs = [])
  ∨ (∃ r, pc = .returned r ∧ pc2 = .done r ∧ evs = [])

/-- What holds of leg `i` in a state of the goroutines: past the send, its call
encodes and the trace has exactly one event of the leg, with the transaction of
`createDepositTxn`; before the send, or after a cancellation or an encoding
error, the trace has none, and an encoding error is the one of the encoder. -/
def LegInv (env : DepositEnv) (dp : DepositParams) (d : Address) (i : Nat) (leg : Leg)
    (pc : LegPc) (trace : List Event) : Prop :=
  (pc.hasSent = true → ∃ input res, env.encodeAbi (leg.call env dp) = .ok input
      ∧ trace.filter (Event.isLeg i) = [⟨.deposit i, depositTxnOf env dp d input, res⟩])
  ∧ (pc.hasSent = false → trace.filter (Event.isLeg i) = [])
  ∧ (∀ e, pc = .returned (some (.createTxInput e)) ∨ pc = .done (some (.createTxInput e)) →
      env.encodeAbi (leg.call env dp) = .error e)

/-- The invariant of the goroutines: every leg has a place, `LegInv` holds of
each, and the trace has no event of an index that is not a leg. -/
def LegsInv (env : DepositEnv) (dp : DepositParams) (d : Address) (legs : List Leg)
    (st : LegsState) : Prop :=
  st.pcs.length = legs.length
  ∧ (∀ i leg pc, legs[i]? = some leg → st.pcs[i]? = some pc → LegInv env dp d i leg pc st.trace)
  ∧ (∀ i, legs[i]? = none → st.trace.filter (Event.isLeg i) = [])

/-! ### A concrete setting of the deposit command -/

/-- A parser that knows three amounts. -/
def demoParse (s : String) : Except String Int :=
  if s = "10" then .ok 10
  else if s = "20" then .ok 20
  else if s = "30" then .ok 30
  else .error "could not parse"

/-- A relayer that answers a `depositTo` for the receiver whose address is `bad`
with the receipt `r`, and every other transaction with a receipt of status 1. -/
def demoRelayer (bad : Nat) (r : SendResult) : TxRelayer := fun _ txn =>
  match txn.input with
  | [3, _, receiver, _] => if receiver = bad then r else ⟨some ⟨1, 5, []⟩, none⟩
  | _ => ⟨some ⟨1, 4, []⟩, none⟩

/-- A deposit environment around the relayer `txRelayer`: an address is the
length of its string, a call is encoded as a tag and its arguments. -/
def demoDepositEnv (txRelayer : TxRelayer) : DepositEnv :=
  { stringToAddress := fun s => ⟨s.length⟩
    encodeAbi := fun c =>
      match c with
      | .addToWhitelist l => .ok (4 :: l.map Address.val)
      | .mint a n => if n < 0 then .error "negative" else .ok [1, a.val, n.toNat]
      | .approve a n => if n < 0 then .error "negative" else .ok [2, a.val, n.toNat]
      | .depositTo t r n => if n < 0 then .error "negative" else .ok [3, t.val, r.val, n.toNat]
    receiptFailed := 0
    getRootchainPrivateKey := fun _ => (some ⟨⟨77⟩⟩, none)
    newTxRelayer := fun _ => .ok txRelayer
    parseUint256orHex := demoParse }

/-- Receivers `[A, BB, CCC]` with amounts `[10, 20, 30]`. -/
def demoDepositParams (testMode : Bool) : DepositParams :=
  { senderKey := "", receivers := ["A", "BB", "CCC"], amounts := ["10", "20", "30"],
    rootTokenAddr := "token", rootPredicateAddr := "predicate",
    jsonRPCAddress := "rpc", testMode := testMode }

/-! ## consensus/polybft: the header extension and the header hash

Only `hash_test.go` of this part is among the sources: the types `Extra`,
`Signature`, `ValidatorSetDelta`, `CheckpointData`, the codec and
`types.HeaderHash` are modelled from the specification (sections 3 and 4.1). -/

/-- The type `types.Hash`, as its bytes. -/
structure Hash where
  bytes : List Nat
deriving DecidableEq, Repr

/-- The constant `types.ZeroHash`: 32 zero bytes. -/
def ZeroHash : Hash := ⟨List.replicate 32 0⟩

/-- The type `types.Header`, with the fields `hash_test.go` sets. -/
structure Header where
  number : Nat
  gasLimit : Nat
  timestamp : Nat
  extraData : List Nat
deriving DecidableEq, Repr

/-- Modelled from the spec: `AggregatedSignature` (type `Signature`, missing from
the sources), "a bitmap identifying which validators contributed, plus one
aggregated BLS point". -/
structure Signature where
  aggregatedSignature : List Nat
  bitmap : List Nat
deriving DecidableEq, Repr

/-- Modelled from the spec: `ValidatorMetadata` (missing from the sources),
"address, BLS public key, voting power, active flag". -/
structure ValidatorMetadata where
  address : Address
  blsKey : List Nat
  votingPower : Nat
  isActive : Bool
deriving DecidableEq, Repr

/-- Modelled from the spec: `ValidatorSetDelta` (missing from the sources),
"Added: ordered sequence of ValidatorMetadata, Removed: set of indices into the
previous validator roster (bitmap)". -/
structure ValidatorSetDelta where
  added : List ValidatorMetadata
  removed : List Nat
deriving DecidableEq, Repr

/-- Modelled from the spec: `CheckpointData` (missing from the sources), "epoch
number, the child-chain block range covered, and a commitment (root) over the
state-sync events emitted in that range". -/
structure CheckpointData where
  epochNumber : Nat
  blockStart : Nat
  blockEnd : Nat
  eventRoot : List Nat
deriving DecidableEq, Repr

/-- Modelled from the spec: `Extra` (missing from the sources), the consensus
payload of a header: `Validators`, `Parent`, `Checkpoint`, `Committed`. -/
structure Extra where
  validators : ValidatorSetDelta
  parent : Signature
  checkpoint : CheckpointData
  committed : Signature
deriving DecidableEq, Repr

/-- The empty, structurally present signature (`&Signature{}` in `hash_test.go`). -/
def Signature.empty : Signature := ⟨[], []⟩

/-- Modelled from the spec: the length prefix of the codec (missing from the
sources; the spec asks for "a canonical, length-prefixed, deterministic binary
tree format" and gives no byte layout). A number is written in base 128, low
digits first, every byte but the last with its high bit set. -/
def encNat (n : Nat) : List Nat :=
  if n < 128 then [n] else (128 + n % 128) :: encNat (n / 128)
termination_by n
decreasing_by omega

/-- Modelled from the spec: reads a number written by `encNat` and gives the
rest of the input; `none` is the `DecodeError` of the spec. -/
def decNat : List Nat → Option (Nat × List Nat)
  | [] => none
  | b :: rest =>
    if b < 128 then some (b, rest)
    else if b < 256 then
      match decNat rest with
      | some (m, r) => some (b - 128 + 128 * m, r)
      | none => none
    else none

/-- Modelled from the spec: a byte string is its length, then its bytes. -/
def encBytes (b : List Nat) : List Nat :=
  encNat b.length ++ b

/-- Modelled from the spec: reads a byte string written by `encBytes`; a
truncated string is a `DecodeError`. -/
def decBytes (input : List Nat) : Option (List Nat × List Nat) :=
  match decNat input with
  | none => none
  | some (len, rest) =>
    if rest.length < len then none else some (rest.take len, rest.drop len)

/-- Modelled from the spec: the encoding of a `Signature`. -/
def encSignature (s : Signature) : List Nat :=
  encBytes s.aggregatedSignature ++ encBytes s.bitmap

/-- Modelled from the spec: the decoding of a `Signature`. -/
def decSignature (input : List Nat) : Option (Signature × List Nat) :=
  match decBytes input with
  | none => none
  | some (sig, r1) =>
    match decBytes r1 with
    | none => none
    | some (bitmap, r2) => some (⟨sig, bitmap⟩, r2)

/-- Modelled from the spec: the encoding of a `ValidatorMetadata`. -/
def encValidator (v : ValidatorMetadata) : List Nat :=
  encNat v.address.val ++ encBytes v.blsKey ++ encNat v.votingPower
    ++ [if v.isActive then 1 else 0]

/-- Modelled from the spec: the decoding of a `ValidatorMetadata`. -/
def decValidator (input : List Nat) : Option (ValidatorMetadata × List Nat) :=
  match decNat input with
  | none => none
  | some (addr, r1) =>
    match decBytes r1 with
    | none => none
    | some (key, r2) =>
      match decNat r2 with
      | none => none
      | some (power, r3) =>
        match r3 with
        | 0 :: r4 => some (⟨⟨addr⟩, key, power, false⟩, r4)
        | 1 :: r4 => some (⟨⟨addr⟩, key, power, true⟩, r4)
        | _ => none

/-- Modelled from the spec: the validators of a sequence, one after the other. -/
def encValidators : List ValidatorMetadata → List Nat
  | [] => []
  | v :: vs => encValidator v ++ encValidators vs

/-- Modelled from the spec: reads `n` validators. -/
def decValidators : Nat → List Nat → Option (List ValidatorMetadata × List Nat)
  | 0, input => some ([], input)
  | n + 1, input =>
    match decValidator input with
    | none => none
    | some (v, r1) =>
      match decValidators n r1 with
      | none => none
      | some (vs, r2) => some (v :: vs, r2)

/-- Modelled from the spec: the encoding of a `ValidatorSetDelta`: the number of
added validators, the validators, the bitmap of the removed ones. -/
def encDelta (d : ValidatorSetDelta) : List Nat :=
  encNat d.added.length ++ encValidators d.added ++ encBytes d.removed

/-- Modelled from the spec: the decoding of a `ValidatorSetDelta`. -/
def decDelta (input : List Nat) : Option (ValidatorSetDelta × List Nat) :=
  match decNat input with
  | none => none
  | some (n, r1) =>
    match decValidators n r1 with
    | none => none
    | some (added, r2) =>
      match decBytes r2 with
      | none => none
      | some (removed, r3) => some (⟨added, removed⟩, r3)

/-- Modelled from the spec: the encoding of a `CheckpointData`. -/
def encCheckpoint (c : CheckpointData) : List Nat :=
  encNat c.epochNumber ++ encNat c.blockStart ++ encNat c.blockEnd ++ encBytes c.eventRoot

/-- Modelled from the spec: the decoding of a `CheckpointData`. -/
def decCheckpoint (input : List Nat) : Option (CheckpointData × List Nat) :=
  match decNat input with
  | none => none
  | some (epoch, r1) =>
    match decNat r1 with
    | none => none
    | some (first, r2) =>
      match decNat r2 with
      | none => none
      | some (last, r3) =>
        match decBytes r3 with
        | none => none
        | some (root, r4) => some (⟨epoch, first, last, root⟩, r4)

/-- Modelled from the spec: `Encode(Extra) -> bytes` of the header extension
codec (`Extra.MarshalRLPTo`, missing from the sources): the four fields in order. -/
def encodeExtra (x : Extra) : List Nat :=
  encDelta x.validators ++ encSignature x.parent ++ encCheckpoint x.checkpoint
    ++ encSignature x.committed

/-- Modelled from the spec: `Decode(bytes) -> Extra | DecodeError` of the header
extension codec (`Extra.UnmarshalRLP`, missing from the sources); bytes left
over are an error as well. -/
def decodeExtra (input : List Nat) : Option Extra :=
  match decDelta input with
  | none => none
  | some (validators, r1) =>
    match decSignature r1 with
    | none => none
    | some (parent, r2) =>
      match decCheckpoint r2 with
      | none => none
      | some (checkpoint, r3) =>
        match decSignature r3 with
        | some (committed, []) => some ⟨validators, parent, checkpoint, committed⟩
        | _ => none

/-- Modelled from the spec: the "minimum valid structure size" of an encoded
`Extra` (the constant is missing from the sources): the size of the encoding
whose every field is empty or zero. -/
def ExtraMinSize : Nat := 10

/-- Modelled from the spec: `Hash(Header) -> Hash` (`types.HeaderHash` as the
consensus sets it up, missing from the sources): "a cryptographic digest over the
header with `Committed` stripped from the encoded extra payload. If the supplied
extra is shorter than the minimum valid structure size, Hash returns the all-zero
sentinel hash rather than failing". The digest is a parameter. An extra of
sufficient size that does not decode is given the sentinel as well; the spec
only says that malformed extra must not raise. -/
def HeaderHash (digest : Header → Hash) (h : Header) : Hash :=
  if h.extraData.length < ExtraMinSize then ZeroHash
  else
    match decodeExtra h.extraData with
    | none => ZeroHash
    | some extra =>
      digest { h with extraData := encodeExtra { extra with committed := Signature.empty } }

/-- The header of `hash_test.go` with the given extra data. -/
def testHeader (extraData : List Nat) : Header :=
  { number := 2, gasLimit := 10000003, timestamp := 18, extraData := extraData }

/-! ### Further concrete settings of the two commands -/

/-- A `ParseLog` that reports an error on the logs that do not match: a log
matches when its first topic is 7, and then parses when its data are one word. -/
def demoParseLogStrict (log : Log) : ParseLogResult :=
  match log.topics with
  | 7 :: _ =>
    match log.data with
    | [v] => ⟨true, none, ⟨v⟩⟩
    | _ => ⟨true, some "bad data", ⟨0⟩⟩
  | _ => ⟨false, some "wrong topic", ⟨0⟩⟩

/-- The whitelist environment of `demoWhitelistEnv` with `demoParseLogStrict`. -/
def demoWhitelistEnvStrict (res : SendResult) : WhitelistEnv :=
  { demoWhitelistEnv res with parseLog := demoParseLogStrict }

/-- The deposit environment of `demoDepositEnv` in which the depositor key cannot
be read: `GetRootchainPrivateKey` returns a nil key and an error. -/
def demoDepositEnvNoKey (txRelayer : TxRelayer) : DepositEnv :=
  { demoDepositEnv txRelayer with
    getRootchainPrivateKey := fun _ => (none, some "failed to decode private key string") }

/-! ## secrets/helper -/

/-- The `len` bytes of the big-endian writing of `n` (of `n` modulo `256 ^ len`). -/
def toBytesBE : Nat → Nat → List Nat
  | 0, _ => []
  | len + 1, n => toBytesBE len (n / 256) ++ [n % 256]

/-- The number a list of bytes writes, big end first. -/
def fromBytesBE (bytes : List Nat) : Nat :=
  bytes.foldl (fun acc b => acc * 256 + b) 0

/-- The call `abi.Encode([]interface{}{address, big.NewInt(chainID)},
abi.MustNewType("tuple(address, uint256)"))` of the library ethgo, after the
contract ABI: two words of 32 bytes, the address behind 12 zero bytes, the
number big-endian (a negative one in two's complement). It does not fail at
this type. -/
def abiEncodeAddressUint256 (address : Address) (n : Int) : Except String (List Nat) :=
  .ok (List.replicate 12 0 ++ toBytesBE 20 address.val ++ toBytesBE 32 (n % 2 ^ 256).toNat)

/-- One call of `bls.PrivateKey.Sign`: the message and the domain. -/
structure SignCall where
  message : List Nat
  domain : List Nat
deriving DecidableEq, Repr

/-- The function `MakeKOSKSignature`, with `Sign` of the BLS private key as a
parameter; the second component lists the calls of `Sign`. -/
def MakeKOSKSignature (sign : List Nat → List Nat → List Nat → Except String (List Nat))
    (privateKey : List Nat) (address : Address) (chainID : Int) (domain : List Nat) :
    Except String (List Nat) × List SignCall :=
  match abiEncodeAddressUint256 address chainID with
  | .error e => (.error e, [])
  | .ok message => (sign privateKey (message.drop 12) domain, [⟨message.drop 12, domain⟩])

/-- The interface `secrets.SecretsManager` over a store of type `σ`: `HasSecret`
and `GetSecret` read the store, `SetSecret` gives the store after the call and
its error. -/
structure SecretsManager (σ : Type) where
  hasSecret : σ → String → Bool
  getSecret : σ → String → Except String (List Nat)
  setSecret : σ → String → List Nat → σ × Option String

/-- Code of other packages the helpers call: the names of the secrets
(`secrets.ValidatorKey`, `secrets.ValidatorBLSKey`, `secrets.NetworkKey`,
`secrets.ValidatorBLSSignature`), the key generators of `crypto` and `network`
(a key is kept as bytes, the result is the key and its encoding), `Sign` and
`Marshal` of `bls`, `hex.EncodeToString` and `bls.DomainValidatorSet`. -/
structure SecretsDeps where
  validatorKey : String
  validatorBLSKey : String
  networkKey : String
  validatorBLSSignature : String
  generateAndEncodeECDSAPrivateKey : Except String (List Nat × List Nat)
  pubKeyToAddress : List Nat → Address
  generateAndEncodeBLSSecretKey : Except String (List Nat × List Nat)
  blsSecretKeyToPubkeyBytes : List Nat → Except String (List Nat)
  generateAndEncodeLibp2pKey : Except String (List Nat × List Nat)
  sign : List Nat → List Nat → List Nat → Except String (List Nat)
  marshal : List Nat → Except String (List Nat)
  hexEncodeToString : List Nat → List Nat
  domainValidatorSet : List Nat

/-- The errors of the helpers: the one they build themselves, and those they
pass on. -/
inductive SecretsError where
  /-- "secrets %s has been already initialized" -/
  | alreadyInitialized (name : String)
  | other (e : String)
deriving DecidableEq, Repr

/-- One call of an `Init...` helper: the value and the error returned, the store
afterwards, the calls of `SetSecret` and of `Sign` it made. -/
structure InitRun (σ α : Type) where
  value : α
  err : Option SecretsError
  state : σ
  setCalls : List (String × List Nat) := []
  signCalls : List SignCall := []

/-- The type `wallet.Account`: the BLS private key and the ECDSA key. -/
structure Account where
  bls : List Nat
  ecdsa : Key
deriving DecidableEq, Repr

/-- The function `InitECDSAValidatorKey`. -/
def InitECDSAValidatorKey {σ : Type} (deps : SecretsDeps) (secretsManager : SecretsManager σ)
    (st : σ) : InitRun σ Address :=
  if secretsManager.hasSecret st deps.validatorKey then
    { value := ZeroAddress, err := some (.alreadyInitialized deps.validatorKey), state := st }
  else
    match deps.generateAndEncodeECDSAPrivateKey with
    | .error e => { value := ZeroAddress, err := some (.other e), state := st }
    | .ok (validatorKey, validatorKeyEncoded) =>
      let address := deps.pubKeyToAddress validatorKey
      let r := secretsManager.setSecret st deps.validatorKey validatorKeyEncoded
      match r.2 with
      | some setErr =>
        { value := ZeroAddress, err := some (.other setErr), state := r.1,
          setCalls := [(deps.validatorKey, validatorKeyEncoded)] }
      | none =>
        { value := address, err := none, state := r.1,
          setCalls := [(deps.validatorKey, validatorKeyEncoded)] }

/-- The function `InitBLSValidatorKey`. -/
def InitBLSValidatorKey {σ : Type} (deps : SecretsDeps) (secretsManager : SecretsManager σ)
    (st : σ) : InitRun σ (Option (List Nat)) :=
  if secretsManager.hasSecret st deps.validatorBLSKey then
    { value := none, err := some (.alreadyInitialized deps.validatorBLSKey), state := st }
  else
    match deps.generateAndEncodeBLSSecretKey with
    | .error e => { value := none, err := some (.other e), state := st }
    | .ok (blsSecretKey, blsSecretKeyEncoded) =>
      let r := secretsManager.setSecret st deps.validatorBLSKey blsSecretKeyEncoded
      match r.2 with
      | some setErr =>
        { value := none, err := some (.other setErr), state := r.1,
          setCalls := [(deps.validatorBLSKey, blsSecretKeyEncoded)] }
      | none =>
        match deps.blsSecretKeyToPubkeyBytes blsSecretKey with
        | .error e =>
          { value := none, err := some (.other e), state := r.1,
            setCalls := [(deps.validatorBLSKey, blsSecretKeyEncoded)] }
        | .ok pubkeyBytes =>
          { value := some pubkeyBytes, err := none, state := r.1,
            setCalls := [(deps.validatorBLSKey, blsSecretKeyEncoded)] }

/-- The function `InitNetworkingPrivateKey`. -/
def InitNetworkingPrivateKey {σ : Type} (deps : SecretsDeps)
    (secretsManager : SecretsManager σ) (st : σ) : InitRun σ (Option (List Nat)) :=
  if secretsManager.hasSecret st deps.networkKey then
    { value := none, err := some (.alreadyInitialized deps.networkKey), state := st }
  else
    match deps.generateAndEncodeLibp2pKey with
    | .error keyErr => { value := none, err := some (.other keyErr), state := st }
    | .ok (libp2pKey, libp2pKeyEncoded) =>
      let r := secretsManager.setSecret st deps.networkKey libp2pKeyEncoded
      match r.2 with
      | some setErr =>
        { value := none, err := some (.other setErr), state := r.1,
          setCalls := [(deps.networkKey, libp2pKeyEncoded)] }
      | none =>
        { value := some libp2pKey, err := none, state := r.1,
          setCalls := [(deps.networkKey, libp2pKeyEncoded)] }

/-- The function `InitValidatorBLSSignature`. -/
def InitValidatorBLSSignature {σ : Type} (deps : SecretsDeps)
    (secretsManager : SecretsManager σ) (st : σ) (account : Account) (chainID : Int) :
    InitRun σ (Option (List Nat)) :=
  if secretsManager.hasSecret st deps.validatorBLSSignature then
    { value := none, err := some (.alreadyInitialized deps.validatorBLSSignature), state := st }
  else
    let k := MakeKOSKSignature deps.sign account.bls account.ecdsa.address chainID
      deps.domainValidatorSet
    match k.1 with
    | .error e => { value := none, err := some (.other e), state := st, signCalls := k.2 }
    | .ok s =>
      match deps.marshal s with
      | .error e => { value := none, err := some (.other e), state := st, signCalls := k.2 }
      | .ok sb =>
        let r := secretsManager.setSecret st deps.validatorBLSSignature
          (deps.hexEncodeToString sb)
        match r.2 with
        | some e =>
          { value := none, err := some (.other e), state := r.1,
            setCalls := [(deps.validatorBLSSignature, deps.hexEncodeToString sb)],
            signCalls := k.2 }
        | none =>
          { value := some sb, err := none, state := r.1,
            setCalls := [(deps.validatorBLSSignature, deps.hexEncodeToString sb)],
            signCalls := k.2 }

/-! ### A concrete setting of the secrets helpers -/

/-- A secrets manager over a list of named secrets; setting a name that is
there is refused. -/
def demoSecretsManager : SecretsManager (List (String × List Nat)) :=
  { hasSecret := fun st name => st.any (fun p => p.1 == name)
    getSecret := fun st name =>
      match st.find? (fun p => p.1 == name) with
      | some p => .ok p.2
      | none => .error "not found"
    setSecret := fun st name value =>
      if st.any (fun p => p.1 == name) then (st, some "already exists")
      else (st ++ [(name, value)], none) }

/-- Helpers whose generators give fixed keys and whose `Sign` puts the domain
before the message. -/
def demoSecretsDeps : SecretsDeps :=
  { validatorKey := "validator-key"
    validatorBLSKey := "validator-bls-key"
    networkKey := "network-key"
    validatorBLSSignature := "validator-bls-signature"
    generateAndEncodeECDSAPrivateKey := .ok ([1, 2], [49, 50])
    pubKeyToAddress := fun k => ⟨k.length⟩
    generateAndEncodeBLSSecretKey := .ok ([3, 4], [51, 52])
    blsSecretKeyToPubkeyBytes := fun k => .ok (k.map (· + 1))
    generateAndEncodeLibp2pKey := .ok ([5, 6], [53, 54])
    sign := fun _ message domain => .ok (domain ++ message)
    marshal := fun s => .ok s
    hexEncodeToString := fun b => b
    domainValidatorSet := [100] }

/-! ## consensus/polybft/contractsapi: the uptime helper -/

/-- Modelled from the spec: the generated type `UptimeData` (its declaration is
missing from the sources), with the two fields `helper.go` sets: one validator
address and its count of signed blocks. -/
structure UptimeData where
  validator : Address
  signedBlocks : Int
deriving DecidableEq, Repr

/-- Modelled from the spec: the generated type `Uptime` (its declaration is
missing from the sources), with the field `helper.go` touches, the sequence
`UptimeData`. -/
structure Uptime where
  uptimeData : List UptimeData
deriving DecidableEq, Repr

/-- The method `Uptime.AddValidatorUptime`: `count` is an `int64`, made a big
integer by `big.NewInt`. -/
def Uptime.AddValidatorUptime (u : Uptime) (address : Address) (count : Int) : Uptime :=
  { u with uptimeData := u.uptimeData ++ [⟨address, count⟩] }

/-- A sequence of calls of `AddValidatorUptime`, first call first. -/
def Uptime.addAll (u : Uptime) (calls : List (Address × Int)) : Uptime :=
  calls.foldl (fun acc c => acc.AddValidatorUptime c.1 c.2) u

/-- The number of entries of `UptimeData` for the validator `a`. -/
def Uptime.entriesOf (u : Uptime) (a : Address) : Nat :=
  (u.uptimeData.filter (fun d => decide (d.validator = a))).length

/-! ## consensus/polybft: the genesis validator of `polybft_config.go` -/

namespace Config

/-- The type `Validator`; a BLS private key is kept as bytes, `none` is nil. -/
structure Validator where
  address : Address
  blsPrivateKey : Option (List Nat)
  blsKey : String
  blsSignature : String
  balance : Option Int
  stake : Option Int
  multiAddr : String
deriving DecidableEq, Repr

/-- The type `validatorRaw`. -/
structure validatorRaw where
  address : Address
  blsKey : String
  blsSignature : String
  balance : Option String
  stake : Option String
  multiAddr : String
deriving DecidableEq, Repr

/-- Modelled from the spec: the type `ValidatorMetadata` as `ToValidatorMetadata`
builds it (its declaration is missing from the sources): "address, BLS public
key, voting power, active flag", the key being the unmarshalled `*bls.PublicKey`
and the voting power a `*big.Int`. -/
structure ValidatorMetadata where
  address : Address
  blsKey : List Nat
  votingPower : Int
  isActive : Bool
deriving DecidableEq, Repr

/-- Code of other packages `polybft_config.go` calls: `types.EncodeBigInt`,
`types.ParseUint256orHex` (value and error, both are assigned), `json.Marshal`
and `json.Unmarshal` at the type `validatorRaw`, `hex.DecodeString`,
`bls.UnmarshalPublicKey`, and the formatting of an address by `%s` and of a big
integer by `%d`. -/
structure ConfigDeps where
  encodeBigInt : Option Int → Option String
  parseUint256orHex : Option String → Option Int × Option String
  jsonMarshal : validatorRaw → Except String (List Nat)
  jsonUnmarshal : List Nat → Except String validatorRaw
  hexDecodeString : String → Except String (List Nat)
  unmarshalPublicKey : List Nat → Except String (List Nat)
  addressString : Address → String
  formatBigInt : Option Int → String

/-- What a Go function that may panic gives. -/
inductive GoResult (α : Type) where
  | ok (value : α)
  | error (e : String)
  | panic
deriving DecidableEq, Repr

/-- The `validatorRaw` that `MarshalJSON` builds (lines 114-116). -/
def Validator.raw (deps : ConfigDeps) (v : Validator) : validatorRaw :=
  { address := v.address, blsKey := v.blsKey, multiAddr := v.multiAddr,
    blsSignature := v.blsSignature,
    balance := deps.encodeBigInt v.balance, stake := deps.encodeBigInt v.stake }

/-- The method `Validator.MarshalJSON`. -/
def Validator.MarshalJSON (deps : ConfigDeps) (v : Validator) : Except String (List Nat) :=
  deps.jsonMarshal (v.raw deps)

/-- The method `Validator.UnmarshalJSON`: the receiver after the call, and the
error returned. -/
def Validator.UnmarshalJSON (deps : ConfigDeps) (v : Validator) (data : List Nat) :
    Validator × Option String :=
  match deps.jsonUnmarshal data with
  | .error err => (v, some err)
  | .ok raw =>
    let v1 : Validator :=
      { v with address := raw.address, blsKey := raw.blsKey,
               blsSignature := raw.blsSignature, multiAddr := raw.multiAddr }
    let b := deps.parseUint256orHex raw.balance
    let v2 : Validator := { v1 with balance := b.1 }
    match b.2 with
    | some err => (v2, some err)
    | none =>
      let st := deps.parseUint256orHex raw.stake
      let v3 : Validator := { v2 with stake := st.1 }
      match st.2 with
      | some err => (v3, some err)
      | none => (v3, none)

/-- The method `Validator.UnmarshalBLSPublicKey`. -/
def Validator.UnmarshalBLSPublicKey (deps : ConfigDeps) (v : Validator) :
    Except String (List Nat) :=
  match deps.hexDecodeString v.blsKey with
  | .error err => .error err
  | .ok decoded => deps.unmarshalPublicKey decoded

/-- The method `Validator.ToValidatorMetadata`; `new(big.Int).Set(v.Stake)`
panics on a nil stake. -/
def Validator.ToValidatorMetadata (deps : ConfigDeps) (v : Validator) :
    GoResult ValidatorMetadata :=
  match v.UnmarshalBLSPublicKey deps with
  | .error err => .error err
  | .ok blsKey =>
    match v.stake with
    | none => .panic
    | some stake =>
      .ok { address := v.address, blsKey := blsKey, votingPower := stake, isActive := true }

/-- The method `Validator.String`:
"Address=%s; Balance=%d; P2P Multi addr=%s; BLS Key=%s;". -/
def Validator.string (deps : ConfigDeps) (v : Validator) : String :=
  "Address=" ++ deps.addressString v.address ++ "; Balance=" ++ deps.formatBigInt v.balance
    ++ "; P2P Multi addr=" ++ v.multiAddr ++ "; BLS Key=" ++ v.blsKey ++ ";"

/-! ### A concrete setting of the genesis validator -/

/-- The value of a hexadecimal digit. -/
def hexVal (c : Char) : Option Nat :=
  if 48 ≤ c.toNat ∧ c.toNat ≤ 57 then some (c.toNat - 48)
  else if 97 ≤ c.toNat ∧ c.toNat ≤ 102 then some (c.toNat - 87)
  else if 65 ≤ c.toNat ∧ c.toNat ≤ 70 then some (c.toNat - 55)
  else none

/-- Bytes from pairs of hexadecimal digits. -/
def hexDecodeChars : List Char → Except String (List Nat)
  | [] => .ok []
  | [_] => .error "odd length hex string"
  | a :: b :: rest =>
    match hexVal a, hexVal b, hexDecodeChars rest with
    | some x, some y, .ok bytes => .ok ((16 * x + y) :: bytes)
    | _, _, _ => .error "invalid byte"

/-- The number hexadecimal digits write. -/
def hexNumber : List Char → Nat → Option Nat
  | [], acc => some acc
  | c :: rest, acc =>
    match hexVal c with
    | some x => hexNumber rest (16 * acc + x)
    | none => none

/-- A string as numbers: its length, then its characters. -/
def demoEncString (s : String) : List Nat :=
  s.length :: s.data.map Char.toNat

/-- Reads a string written by `demoEncString`. -/
def demoDecString : List Nat → Option (String × List Nat)
  | [] => none
  | n :: rest =>
    if rest.length < n then none
    else some (String.mk ((rest.take n).map Char.ofNat), rest.drop n)

/-- An optional string as numbers. -/
def demoEncOptString : Option String → List Nat
  | none => [0]
  | some s => 1 :: demoEncString s

/-- Reads an optional string written by `demoEncOptString`. -/
def demoDecOptString : List Nat → Option (Option String × List Nat)
  | 0 :: rest => some (none, rest)
  | 1 :: rest =>
    match demoDecString rest with
    | some (s, r) => some (some s, r)
    | none => none
  | _ => none

/-- Writes a big integer as "0x" and hexadecimal digits. -/
def demoEncodeBigInt : Option Int → Option String
  | some (Int.ofNat n) => some (String.mk ('0' :: 'x' :: Nat.toDigits 16 n))
  | some (Int.negSucc n) => some (String.mk ('0' :: 'x' :: '-' :: Nat.toDigits 16 (n + 1)))
  | none => some "0x<nil>"

/-- Reads "0x" and hexadecimal digits; nil gives nil. -/
def demoParseUint256orHex : Option String → Option Int × Option String
  | none => (none, none)
  | some str =>
    match str.data with
    | '0' :: 'x' :: digits =>
      match hexNumber digits 0 with
      | some n => (some (Int.ofNat n), none)
      | none => (none, some "could not parse")
    | _ => (none, some "could not parse")

/-- Writes a `validatorRaw` field by field. -/
def demoJsonMarshal (raw : validatorRaw) : Except String (List Nat) :=
  .ok (raw.address.val :: (demoEncString raw.blsKey ++ demoEncString raw.blsSignature
    ++ demoEncOptString raw.balance ++ demoEncOptString raw.stake
    ++ demoEncString raw.multiAddr))

/-- Reads a `validatorRaw` written by `demoJsonMarshal`. -/
def demoJsonUnmarshal : List Nat → Except String validatorRaw
  | [] => .error "unexpected end of JSON input"
  | a :: r0 =>
    match demoDecString r0 with
    | none => .error "bad blsKey"
    | some (blsKey, r1) =>
      match demoDecString r1 with
      | none => .error "bad blsSignature"
      | some (blsSignature, r2) =>
        match demoDecOptString r2 with
        | none => .error "bad balance"
        | some (balance, r3) =>
          match demoDecOptString r3 with
          | none => .error "bad stake"
          | some (stake, r4) =>
            match demoDecString r4 with
            | some (multiAddr, []) =>
              .ok ⟨⟨a⟩, blsKey, blsSignature, balance, stake, multiAddr⟩
            | _ => .error "bad multiAddr"

/-- Dependencies with hexadecimal big integers, a serialization of
`validatorRaw` field by field, and BLS public keys of two bytes. -/
def demoConfigDeps : ConfigDeps :=
  { encodeBigInt := demoEncodeBigInt
    parseUint256orHex := demoParseUint256orHex
    jsonMarshal := demoJsonMarshal
    jsonUnmarshal := demoJsonUnmarshal
    hexDecodeString := fun s => hexDecodeChars s.data
    unmarshalPublicKey := fun b => if b.length = 2 then .ok b else .error "bad key size"
    addressString := fun a => String.mk (Nat.toDigits 16 a.val)
    formatBigInt := fun b =>
      match b with
      | some (Int.ofNat n) => String.mk (Nat.toDigits 10 n)
      | some (Int.negSucc n) => String.mk ('-' :: Nat.toDigits 10 (n + 1))
      | none => "<nil>" }

/-- A genesis validator. -/
def demoValidator : Validator :=
  { address := ⟨258⟩, blsPrivateKey := some [7, 7], blsKey := "0a1B", blsSignature := "c0de",
    balance := some 255, stake := some 16, multiAddr := "/ip4" }

end Config

/-! ## server/builtin.go and command/default.go -/

/-- The constant `ConsensusName` of `polybft_config.go`. -/
def ConsensusName : String := "polybft"

/-- The type `ConsensusType`, a string. -/
abbrev ConsensusType := String

/-- The constant `DevConsensus`. -/
def DevConsensus : ConsensusType := "dev"

/-- The constant `IBFTConsensus`. -/
def IBFTConsensus : ConsensusType := "ibft"

/-- The constant `PolyBFTConsensus`. -/
def PolyBFTConsensus : ConsensusType := ConsensusName

/-- The constant `DummyConsensus`. -/
def DummyConsensus : ConsensusType := "dummy"

/-- The factories the map holds (`consensusDev.Factory`, `consensusIBFT.Factory`,
`consensusPolyBFT.Factory`, `consensusDummy.Factory`), by name. -/
inductive Factory where
  | consensusDev
  | consensusIBFT
  | consensusPolyBFT
  | consensusDummy
deriving DecidableEq, Repr

/-- The map `consensusBackends`, as the list of its entries. -/
def consensusBackends : List (ConsensusType × Factory) :=
  [(DevConsensus, .consensusDev),
   (IBFTConsensus, .consensusIBFT),
   (PolyBFTConsensus, .consensusPolyBFT),
   (DummyConsensus, .consensusDummy)]

/-- The function `ConsensusSupported`: `_, ok := consensusBackends[ConsensusType(value)]`. -/
def ConsensusSupported (value : String) : Bool :=
  (consensusBackends.lookup value).isSome

/-- The constant `command.DefaultConsensus`. -/
def DefaultConsensus : ConsensusType := PolyBFTConsensus

end Metad

namespace Metad

/-! ## The whitelist command -/

theorem scanLogs_no_match (parseLog : Log → ParseLogResult) (logs : List Log)
    (h : ∀ log ∈ logs, (parseLog log).doesMatch = false) :
    scanLogs parseLog logs = .ok none := by
  induction logs with
  | nil => rfl
  | cons log rest ih =>
    have h1 := h log (List.mem_cons_self _ _)
    have h2 := ih (fun l hl => h l (List.mem_cons_of_mem _ hl))
    simp [scanLogs, h1, h2]

theorem scanLogs_found (parseLog : Log → ParseLogResult) (logs : List Log) (v : Address)
    (h : scanLogs parseLog logs = .ok (some v)) :
    ∃ log ∈ logs, (parseLog log).doesMatch = true ∧ (parseLog log).err = none
      ∧ (parseLog log).validator = v := by
  induction logs with
  | nil => simp [scanLogs] at h
  | cons log rest ih =>
    unfold scanLogs at h
    by_cases hm : (parseLog log).doesMatch = true
    · simp only [hm, Bool.not_true, Bool.false_eq_true, if_false] at h
      cases he : (parseLog log).err with
      | some e => simp [he] at h
      | none =>
        simp only [he, Except.ok.injEq, Option.some.injEq] at h
        exact ⟨log, List.mem_cons_self _ _, hm, he, h⟩
    · simp only [hm, Bool.not_eq_true] at h
      have hm2 : (parseLog log).doesMatch = false := by simpa using hm
      simp only [hm2, Bool.not_false, if_true] at h
      obtain ⟨l, hl, hr⟩ := ih h
      exact ⟨l, List.mem_cons_of_mem _ hl, hr⟩

/-- C1: when the relayer hands back, without error, a receipt whose status is not
the failed one and none of whose logs (possibly no log at all) matches the
AddedToWhitelist event, the whitelist command returns the error "could not find
an appropriate log" and writes no command result. -/
theorem whitelist_missing_log_is_error (env : WhitelistEnv) (params : WhitelistParams)
    (owner : Address) (txRelayer : TxRelayer) (encoded : List Nat) (receipt : Receipt)
    (hacc : env.getAccount params.accountDir params.accountConfig = .ok owner)
    (hrel : env.newTxRelayer params.jsonRPC = .ok txRelayer)
    (henc : env.encodeAbi (.addToWhitelist [env.stringToAddress params.newValidatorAddress])
      = .ok encoded)
    (hres : txRelayer [] (whitelistTxn env owner encoded) = ⟨some receipt, none⟩)
    (hstatus : receipt.status ≠ env.receiptFailed)
    (hlogs : ∀ log ∈ receipt.logs, (env.parseLog log).doesMatch = false) :
    (whitelistRunCommand env params).err = some .logNotFound
      ∧ (whitelistRunCommand env params).commandResult = none := by
  have hscan := scanLogs_no_match env.parseLog receipt.logs hlogs
  simp [whitelistRunCommand, hacc, hrel, henc, hres, hstatus, hscan]

theorem whitelist_missing_log_is_error_witness :
    (whitelistRunCommand (demoWhitelistEnv ⟨some ⟨1, 12, [⟨⟨5⟩, [3], [8]⟩]⟩, none⟩)
        demoWhitelistParams).err = some .logNotFound
      ∧ (whitelistRunCommand (demoWhitelistEnv ⟨some ⟨1, 12, [⟨⟨5⟩, [3], [8]⟩]⟩, none⟩)
        demoWhitelistParams).commandResult = none :=
  whitelist_missing_log_is_error (demoWhitelistEnv ⟨some ⟨1, 12, [⟨⟨5⟩, [3], [8]⟩]⟩, none⟩)
    demoWhitelistParams ⟨99⟩ (fun _ _ => ⟨some ⟨1, 12, [⟨⟨5⟩, [3], [8]⟩]⟩, none⟩)
    [4, 5] ⟨1, 12, [⟨⟨5⟩, [3], [8]⟩]⟩ rfl rfl rfl rfl (by decide) (by decide)

/-- C8: when `SendTransaction` returns without error, a receipt with the failed
status makes the whitelist command return the "transaction failed on block"
error whatever its logs are, and the command succeeds only if the receipt has a
status other than failed and a log that matches AddedToWhitelist and parses. -/
theorem whitelist_failed_receipt_is_error (env : WhitelistEnv) (params : WhitelistParams)
    (owner : Address) (txRelayer : TxRelayer) (encoded : List Nat) (res : SendResult)
    (hacc : env.getAccount params.accountDir params.accountConfig = .ok owner)
    (hrel : env.newTxRelayer params.jsonRPC = .ok txRelayer)
    (henc : env.encodeAbi (.addToWhitelist [env.stringToAddress params.newValidatorAddress])
      = .ok encoded)
    (hres : txRelayer [] (whitelistTxn env owner encoded) = res)
    (herr : res.err = none) :
    (∀ receipt, res.receipt = some receipt → receipt.status = env.receiptFailed →
        (whitelistRunCommand env params).err = some (.txFailed receipt.blockNumber)
          ∧ (whitelistRunCommand env params).commandResult = none)
      ∧ ((whitelistRunCommand env params).err = none
          ∧ (whitelistRunCommand env params).panicked = false →
        ∃ receipt, res.receipt = some receipt ∧ receipt.status ≠ env.receiptFailed
          ∧ ∃ log ∈ receipt.logs, (env.parseLog log).doesMatch = true
              ∧ (env.parseLog log).err = none) := by
  refine ⟨?_, ?_⟩
  · intro receipt hr hs
    simp [whitelistRunCommand, hacc, hrel, henc, hres, herr, hr, hs]
  · intro h
    cases hr : res.receipt with
    | none => simp [whitelistRunCommand, hacc, hrel, henc, hres, herr, hr] at h
    | some receipt =>
      by_cases hs : receipt.status = env.receiptFailed
      · simp [whitelistRunCommand, hacc, hrel, henc, hres, herr, hr, hs] at h
      · refine ⟨receipt, rfl, hs, ?_⟩
        cases hsc : scanLogs env.parseLog receipt.logs with
        | error e => simp [whitelistRunCommand, hacc, hrel, henc, hres, herr, hr, hs, hsc] at h
        | ok o =>
          cases o with
          | none => simp [whitelistRunCommand, hacc, hrel, henc, hres, herr, hr, hs, hsc] at h
          | some v =>
            obtain ⟨log, hl, hm, he, _⟩ := scanLogs_found env.parseLog receipt.logs v hsc
            exact ⟨log, hl, hm, he⟩

theorem whitelist_failed_receipt_is_error_witness :
    (demoWhitelistEnv ⟨some ⟨0, 12, [⟨⟨5⟩, [7], [8]⟩]⟩, none⟩).getAccount "dir" ""
        = .ok ⟨99⟩
      ∧ (whitelistRunCommand (demoWhitelistEnv ⟨some ⟨0, 12, [⟨⟨5⟩, [7], [8]⟩]⟩, none⟩)
          demoWhitelistParams).err = some (.txFailed 12)
      ∧ (whitelistRunCommand (demoWhitelistEnv ⟨some ⟨0, 12, [⟨⟨5⟩, [7], [8]⟩]⟩, none⟩)
          demoWhitelistParams).commandResult = none :=
  ⟨rfl, (whitelist_failed_receipt_is_error
    (demoWhitelistEnv ⟨some ⟨0, 12, [⟨⟨5⟩, [7], [8]⟩]⟩, none⟩) demoWhitelistParams ⟨99⟩
    (fun _ _ => ⟨some ⟨0, 12, [⟨⟨5⟩, [7], [8]⟩]⟩, none⟩) [4, 5]
    ⟨some ⟨0, 12, [⟨⟨5⟩, [7], [8]⟩]⟩, none⟩ rfl rfl rfl rfl rfl).1
      ⟨0, 12, [⟨⟨5⟩, [7], [8]⟩]⟩ rfl rfl⟩

/-! ## The deposit command: order of the transactions -/

theorem legStep_trace (env : DepositEnv) (dp : DepositParams) (txRelayer : TxRelayer)
    (d : Address) (legs : List Leg) (st : LegsState) (i : Nat) :
    ∃ l, (legStep env dp txRelayer d legs st i).trace = st.trace ++ l
      ∧ ∀ e ∈ l, e.isDeposit = true := by
  unfold legStep
  split
  · exact ⟨[], by simp, by simp⟩
  · split
    · split
      · split <;> exact ⟨[], by simp [LegsState.goto], by simp⟩
      · split
        · exact ⟨[], by simp [LegsState.goto], by simp⟩
        · exact ⟨_, rfl, by simp [Event.isDeposit]⟩
      · split
        · exact ⟨[], by simp [LegsState.goto], by simp⟩
        · split
          · exact ⟨[], by simp, by simp⟩
          · split <;> exact ⟨[], by simp [LegsState.goto], by simp⟩
      · split
        · exact ⟨[], by simp [LegsState.goto], by simp⟩
        · split <;> exact ⟨[], by simp [LegsState.goto], by simp⟩
      · exact ⟨[], by simp, by simp⟩
    · exact ⟨[], by simp, by simp⟩

theorem runLegs_trace (env : DepositEnv) (dp : DepositParams) (txRelayer : TxRelayer)
    (d : Address) (legs : List Leg) (sched : List Nat) (st : LegsState) :
    ∃ l, (runLegs env dp txRelayer d legs st sched).trace = st.trace ++ l
      ∧ ∀ e ∈ l, e.isDeposit = true := by
  induction sched generalizing st with
  | nil => exact ⟨[], by simp [runLegs], by simp⟩
  | cons i rest ih =>
    obtain ⟨l1, h1, h1d⟩ := legStep_trace env dp txRelayer d legs st i
    obtain ⟨l2, h2, h2d⟩ := ih (legStep env dp txRelayer d legs st i)
    refine ⟨l1 ++ l2, ?_, ?_⟩
    · simp only [runLegs, List.foldl_cons] at h2 ⊢
      rw [h2, h1, List.append_assoc]
    · intro e he
      rcases List.mem_append.mp he with h | h
      · exact h1d e h
      · exact h2d e h

theorem depositLegs_trace (env : DepositEnv) (dp : DepositParams) (txRelayer : TxRelayer)
    (d : Address) (amounts : List Int) (receipt : Receipt) (trace : List Event)
    (outErr : Option DepositError) (sched : List Nat) :
    ∃ l, (depositLegs env dp txRelayer d amounts receipt trace outErr sched).trace = trace ++ l
      ∧ ∀ e ∈ l, e.isDeposit = true := by
  unfold depositLegs
  simp only
  split
  · exact runLegs_trace env dp txRelayer d _ sched _
  · obtain ⟨l, hl, hd⟩ := runLegs_trace env dp txRelayer d
      (spawnLegs amounts dp.receivers 0).1
      (sched ++ joinSchedule (spawnLegs amounts dp.receivers 0).1.length)
      { pcs := List.replicate (spawnLegs amounts dp.receivers 0).1.length .spawned,
        receipt := some receipt, ctxDone := false, err := none, trace := trace,
        panicked := false }
    refine ⟨l, ?_, hd⟩
    split
    · exact hl
    · split <;> exact hl

theorem Event.isDeposit_of_mint (e : Event) (h : e.kind = .mint) : e.isDeposit = false := by
  simp [Event.isDeposit, h]

theorem Event.isDeposit_of_approve (e : Event) (h : e.kind = .approve) :
    e.isDeposit = false := by
  simp [Event.isDeposit, h]

theorem Event.kind_of_isApprovalOk (failed : Nat) (e : Event)
    (h : e.isApprovalOk failed = true) : e.kind = .approve := by
  unfold Event.isApprovalOk at h
  split at h
  · assumption
  · simp at h

theorem Event.kind_of_isApprovalFailed (failed : Nat) (e : Event)
    (h : e.isApprovalFailed failed = true) : e.kind = .approve := by
  unfold Event.isApprovalFailed at h
  split at h
  · assumption
  · simp at h

theorem Event.not_failed_of_ok (failed : Nat) (e : Event)
    (h : e.isApprovalOk failed = true) : e.isApprovalFailed failed = false := by
  unfold Event.isApprovalOk at h
  split at h
  · next hk he hr =>
    simp only [bne_iff_ne, ne_eq] at h
    simp [Event.isApprovalFailed, hk, he, hr, h]
  · simp at h

/-- In a trace `T ++ a :: l` with no deposit in `T` and `a` not a deposit, every
deposit has `a` among the events before it. -/
theorem deposit_preceded (T l : List Event) (a : Event)
    (hT : ∀ e ∈ T, e.isDeposit = false) (ha : a.isDeposit = false)
    (pre post : List Event) (e : Event) (h : T ++ a :: l = pre ++ e :: post)
    (he : e.isDeposit = true) : a ∈ pre := by
  rcases List.append_eq_append_iff.mp h with ⟨c, hc, hc2⟩ | ⟨c, hc, hc2⟩
  · cases c with
    | nil =>
      simp only [List.nil_append, List.cons.injEq] at hc2
      rw [hc2.1] at ha
      simp [ha] at he
    | cons x c =>
      simp only [List.cons_append, List.cons.injEq] at hc2
      rw [hc, hc2.1]
      simp
  · cases c with
    | nil =>
      simp only [List.nil_append, List.cons.injEq] at hc2
      rw [← hc2.1] at ha
      simp [ha] at he
    | cons x c =>
      simp only [List.cons_append, List.cons.injEq] at hc2
      have hx : x ∈ T := by rw [hc]; simp
      have := hT x hx
      rw [← hc2.1] at this
      simp [this] at he

/-- The order property of a run: a deposit comes after a successful approval,
and a failed approval means no deposit and an error. -/
theorem depositApprove_order (env : DepositEnv) (dp : DepositParams) (txRelayer : TxRelayer)
    (d : Address) (amounts : List Int) (agg : Int) (T : List Event)
    (outErr : Option DepositError) (sched : List Nat) (hT : ∀ e ∈ T, e.kind = .mint) :
    (∀ pre e post,
        (depositApprove env dp txRelayer d amounts agg T outErr sched).trace = pre ++ e :: post →
        e.isDeposit = true → ∃ a ∈ pre, a.isApprovalOk env.receiptFailed = true)
      ∧ (∀ a ∈ (depositApprove env dp txRelayer d amounts agg T outErr sched).trace,
          a.isApprovalFailed env.receiptFailed = true →
          (∀ e ∈ (depositApprove env dp txRelayer d amounts agg T outErr sched).trace,
              e.isDeposit = false)
            ∧ (depositApprove env dp txRelayer d amounts agg T outErr sched).error ≠ none) := by
  have hTd : ∀ e ∈ T, e.isDeposit = false := fun e he => Event.isDeposit_of_mint e (hT e he)
  have hTf : ∀ e ∈ T, e.isApprovalFailed env.receiptFailed = false := by
    intro e he
    simp [Event.isApprovalFailed, hT e he]
  -- a trace without deposit satisfies the first part
  have nodep : ∀ tr : List Event, (∀ e ∈ tr, e.isDeposit = false) →
      ∀ pre e post, tr = pre ++ e :: post → e.isDeposit = true →
        ∃ a ∈ pre, a.isApprovalOk env.receiptFailed = true := by
    intro tr htr pre e post h he
    have : e ∈ tr := by rw [h]; simp
    simp [htr e this] at he
  unfold depositApprove
  split
  · -- the approval could not be encoded
    refine ⟨nodep T hTd, ?_⟩
    intro a ha hf
    simp [hTf a ha] at hf
  · next approveTxn _ =>
    simp only
    have hAd : ∀ res : SendResult, ∀ e ∈ T ++ [(⟨.approve, approveTxn, res⟩ : Event)],
        e.isDeposit = false := by
      intro res e he
      rcases List.mem_append.mp he with h | h
      · exact hTd e h
      · simp only [List.mem_singleton] at h
        simp [h, Event.isDeposit]
    split
    · exact ⟨nodep _ (hAd _), fun a _ _ => ⟨hAd _, by simp⟩⟩
    · next hres =>
      split
      · next hrec =>
        refine ⟨nodep _ (hAd _), ?_⟩
        intro a ha hf
        rcases List.mem_append.mp ha with h | h
        · simp [hTf a h] at hf
        · simp only [List.mem_singleton] at h
          simp [h, Event.isApprovalFailed, hres, hrec] at hf
      · next receipt hrec =>
        split
        · exact ⟨nodep _ (hAd _), fun a _ _ => ⟨hAd _, by simp⟩⟩
        · next hst =>
          obtain ⟨l, hl, hld⟩ := depositLegs_trace env dp txRelayer d amounts receipt
            (T ++ [⟨.approve, approveTxn, txRelayer (T.map Event.txn) approveTxn⟩]) outErr sched
          have hok : (⟨.approve, approveTxn, txRelayer (T.map Event.txn) approveTxn⟩ :
              Event).isApprovalOk env.receiptFailed = true := by
            simp [Event.isApprovalOk, hres, hrec, hst]
          rw [hl]
          refine ⟨?_, ?_⟩
          · intro pre e post h he
            refine ⟨_, ?_, hok⟩
            refine deposit_preceded T l _ hTd (by simp [Event.isDeposit]) pre post e ?_ he
            rw [← h]
            simp
          · intro a ha hf
            exfalso
            rcases List.mem_append.mp ha with h | h
            · rcases List.mem_append.mp h with h | h
              · simp [hTf a h] at hf
              · simp only [List.mem_singleton] at h
                rw [h, Event.not_failed_of_ok _ _ hok] at hf
                simp at hf
            · have hk := Event.kind_of_isApprovalFailed _ a hf
              have := hld a h
              simp [Event.isDeposit, hk] at this

theorem approvalFirst_of_mints (failed : Nat) (run : DepositRun)
    (h : ∀ e ∈ run.trace, e.kind = .mint) : ApprovalFirst failed run := by
  refine ⟨?_, ?_⟩
  · intro pre e post htr he
    have : e ∈ run.trace := by rw [htr]; simp
    simp [Event.isDeposit, h e this] at he
  · intro a ha hf
    simp [Event.isApprovalFailed, h a ha] at hf

theorem depositMint_order (env : DepositEnv) (dp : DepositParams) (txRelayer : TxRelayer)
    (d : Address) (amounts : List Int) (agg : Int)
    (outErr : Option DepositError) (sched : List Nat) :
    ApprovalFirst env.receiptFailed
      (depositMint env dp txRelayer d amounts agg outErr sched) := by
  unfold depositMint
  split
  · split
    · exact approvalFirst_of_mints _ _ (by simp)
    · simp only
      split
      · exact approvalFirst_of_mints _ _ (by simp)
      · split
        · exact approvalFirst_of_mints _ _ (by simp)
        · split
          · exact approvalFirst_of_mints _ _ (by simp)
          · exact depositApprove_order env dp txRelayer d amounts agg _ outErr sched (by simp)
  · exact depositApprove_order env dp txRelayer d amounts agg [] outErr sched (by simp)

theorem depositRunCommand_order (env : DepositEnv) (dp : DepositParams) (sched : List Nat) :
    ApprovalFirst env.receiptFailed (depositRunCommand env dp sched) := by
  unfold depositRunCommand
  simp only
  split
  · exact approvalFirst_of_mints _ _ (by simp)
  · split
    · exact approvalFirst_of_mints _ _ (by simp)
    · split
      · exact approvalFirst_of_mints _ _ (by simp)
      · exact depositMint_order env dp _ _ _ _ _ sched

/-- C2: in every run of the deposit command, whatever the relayer answers and
however the deposit goroutines interleave, each depositTo transaction is
submitted after an approval that was sent without error and whose receipt does
not have the failed status; and when the approval fails to send or has a failed
receipt, no deposit transaction is submitted and an error is reported. -/
theorem deposit_only_after_successful_approval (env : DepositEnv) (dp : DepositParams)
    (sched : List Nat) :
    (∀ pre e post, (depositRunCommand env dp sched).trace = pre ++ e :: post →
        e.isDeposit = true → ∃ a ∈ pre, a.isApprovalOk env.receiptFailed = true)
      ∧ (∀ a ∈ (depositRunCommand env dp sched).trace,
          a.isApprovalFailed env.receiptFailed = true →
          (∀ e ∈ (depositRunCommand env dp sched).trace, e.isDeposit = false)
            ∧ (depositRunCommand env dp sched).error ≠ none) :=
  depositRunCommand_order env dp sched

/-! ## The deposit command: what the transactions carry -/

theorem parseAmounts_ok (parse : String → Except String Int) (raws : List String)
    (vals : List Int) (h : raws.map parse = vals.map Except.ok) (acc : List Int) (agg : Int) :
    parseAmounts parse raws acc agg = .ok (acc ++ vals, agg + vals.sum) := by
  induction raws generalizing vals acc agg with
  | nil =>
    cases vals with
    | nil => simp [parseAmounts]
    | cons v vs => simp at h
  | cons r rs ih =>
    cases vals with
    | nil => simp at h
    | cons v vs =>
      simp only [List.map_cons, List.cons.injEq] at h
      simp only [parseAmounts, h.1]
      rw [ih vs h.2]
      simp [add_assoc]

theorem parseAmounts_error (parse : String → Except String Int) (raws : List String)
    (h : ∃ s ∈ raws, ∃ e, parse s = .error e) (acc : List Int) (agg : Int) :
    ∃ e, parseAmounts parse raws acc agg = .error e := by
  induction raws generalizing acc agg with
  | nil => simp at h
  | cons r rs ih =>
    unfold parseAmounts
    cases hp : parse r with
    | error e => exact ⟨e, rfl⟩
    | ok v =>
      obtain ⟨s, hs, e, he⟩ := h
      rcases List.mem_cons.mp hs with h1 | h1
      · rw [h1, hp] at he
        cases he
      · exact ih ⟨s, h1, e, he⟩ _ _

/-- The trace of the approval phase: the trace so far, then at most the approval
with the aggregate amount for the predicate, then deposits only. -/
theorem depositApprove_shape (env : DepositEnv) (dp : DepositParams) (txRelayer : TxRelayer)
    (d : Address) (amounts : List Int) (agg : Int) (T : List Event)
    (outErr : Option DepositError) (sched : List Nat) :
    ∃ A L, (depositApprove env dp txRelayer d amounts agg T outErr sched).trace = T ++ A ++ L
      ∧ (A = [] ∨ ∃ input res,
          env.encodeAbi (.approve (env.stringToAddress dp.rootPredicateAddr) agg) = .ok input
          ∧ A = [⟨.approve, approveTxnOf (env.stringToAddress dp.rootTokenAddr) input, res⟩])
      ∧ (∀ e ∈ L, e.isDeposit = true) := by
  unfold depositApprove createApproveERC20PredicateTxn
  cases henc : env.encodeAbi (.approve (env.stringToAddress dp.rootPredicateAddr) agg) with
  | error e => exact ⟨[], [], by simp, Or.inl rfl, by simp⟩
  | ok input =>
    simp only
    split
    · exact ⟨_, [], (List.append_nil _).symm, Or.inr ⟨input, _, rfl, rfl⟩, by simp⟩
    · split
      · exact ⟨_, [], (List.append_nil _).symm, Or.inr ⟨input, _, rfl, rfl⟩, by simp⟩
      · split
        · exact ⟨_, [], (List.append_nil _).symm, Or.inr ⟨input, _, rfl, rfl⟩, by simp⟩
        · next receipt _ _ =>
          obtain ⟨l, hl, hld⟩ := depositLegs_trace env dp txRelayer d amounts receipt
            (T ++ [⟨.approve, approveTxnOf (env.stringToAddress dp.rootTokenAddr) input,
              txRelayer (T.map Event.txn)
                (approveTxnOf (env.stringToAddress dp.rootTokenAddr) input)⟩])
            outErr sched
          exact ⟨_, l, hl, Or.inr ⟨input, _, rfl, rfl⟩, hld⟩

/-- The trace of a run from the mint on: at most the mint of the aggregate amount
to the depositor, then at most the approval, then deposits only. -/
theorem depositMint_shape (env : DepositEnv) (dp : DepositParams) (txRelayer : TxRelayer)
    (d : Address) (amounts : List Int) (agg : Int)
    (outErr : Option DepositError) (sched : List Nat) :
    ∃ M A L, (depositMint env dp txRelayer d amounts agg outErr sched).trace = M ++ A ++ L
      ∧ (M = [] ∨ (dp.testMode = true ∧ ∃ input res,
          env.encodeAbi (.mint d agg) = .ok input
          ∧ M = [⟨.mint, mintTxnOf env dp d input, res⟩]))
      ∧ (A = [] ∨ ∃ input res,
          env.encodeAbi (.approve (env.stringToAddress dp.rootPredicateAddr) agg) = .ok input
          ∧ A = [⟨.approve, approveTxnOf (env.stringToAddress dp.rootTokenAddr) input, res⟩])
      ∧ (∀ e ∈ L, e.isDeposit = true) := by
  unfold depositMint
  by_cases htm : dp.testMode = true
  · rw [if_pos htm]
    unfold createMintTxn
    cases henc : env.encodeAbi (.mint d agg) with
    | error e => exact ⟨[], [], [], by simp, Or.inl rfl, Or.inl rfl, by simp⟩
    | ok input =>
      simp only
      split
      · exact ⟨_, [], [], rfl, Or.inr ⟨htm, input, _, rfl, rfl⟩, Or.inl rfl, by simp⟩
      · split
        · exact ⟨_, [], [], rfl, Or.inr ⟨htm, input, _, rfl, rfl⟩, Or.inl rfl, by simp⟩
        · split
          · exact ⟨_, [], [], rfl, Or.inr ⟨htm, input, _, rfl, rfl⟩, Or.inl rfl, by simp⟩
          · obtain ⟨A, L, h, hA, hL⟩ := depositApprove_shape env dp txRelayer d amounts agg
              [⟨.mint, mintTxnOf env dp d input, txRelayer [] (mintTxnOf env dp d input)⟩]
              outErr sched
            exact ⟨_, A, L, h, Or.inr ⟨htm, input, _, rfl, rfl⟩, hA, hL⟩
  · rw [if_neg htm]
    obtain ⟨A, L, h, hA, hL⟩ := depositApprove_shape env dp txRelayer d amounts agg []
      outErr sched
    exact ⟨[], A, L, by simpa using h, Or.inl rfl, hA, hL⟩

theorem depositMint_carries (env : DepositEnv) (dp : DepositParams) (txRelayer : TxRelayer)
    (d : Address) (amounts : List Int) (agg : Int)
    (outErr : Option DepositError) (sched : List Nat) :
    (∀ e ∈ (depositMint env dp txRelayer d amounts agg outErr sched).trace,
        e.isApprove = true →
        e.txn.dest = some (env.stringToAddress dp.rootTokenAddr)
          ∧ env.encodeAbi (.approve (env.stringToAddress dp.rootPredicateAddr) agg)
              = .ok e.txn.input)
      ∧ (∀ e ∈ (depositMint env dp txRelayer d amounts agg outErr sched).trace,
          e.isMint = true →
          dp.testMode = true ∧ e.txn.sender = d
            ∧ e.txn.dest = some (env.stringToAddress dp.rootTokenAddr)
            ∧ env.encodeAbi (.mint d agg) = .ok e.txn.input)
      ∧ ((depositMint env dp txRelayer d amounts agg outErr sched).trace.filter
          Event.isApprove).length ≤ 1 := by
  obtain ⟨M, A, L, htr, hM, hA, hL⟩ := depositMint_shape env dp txRelayer d amounts agg
    outErr sched
  rw [htr]
  have hMk : ∀ e ∈ M, e.kind = .mint ∧ dp.testMode = true ∧ e.txn.sender = d
      ∧ e.txn.dest = some (env.stringToAddress dp.rootTokenAddr)
      ∧ env.encodeAbi (.mint d agg) = .ok e.txn.input := by
    intro e he
    rcases hM with h | ⟨htm, input, res, henc, h⟩
    · simp [h] at he
    · rw [h, List.mem_singleton] at he
      subst he
      exact ⟨rfl, htm, rfl, rfl, henc⟩
  have hAk : ∀ e ∈ A, e.kind = .approve
      ∧ e.txn.dest = some (env.stringToAddress dp.rootTokenAddr)
      ∧ env.encodeAbi (.approve (env.stringToAddress dp.rootPredicateAddr) agg)
          = .ok e.txn.input := by
    intro e he
    rcases hA with h | ⟨input, res, henc, h⟩
    · simp [h] at he
    · rw [h, List.mem_singleton] at he
      subst he
      exact ⟨rfl, rfl, henc⟩
  have hLk : ∀ e ∈ L, ∃ i, e.kind = .deposit i := by
    intro e he
    have := hL e he
    unfold Event.isDeposit at this
    split at this
    · next i hk => exact ⟨i, hk⟩
    · simp at this
  refine ⟨?_, ?_, ?_⟩
  · intro e he hap
    rcases List.mem_append.mp he with h | h
    · rcases List.mem_append.mp h with h | h
      · simp [Event.isApprove, (hMk e h).1] at hap
      · exact (hAk e h).2
    · obtain ⟨i, hi⟩ := hLk e h
      simp [Event.isApprove, hi] at hap
  · intro e he hmi
    rcases List.mem_append.mp he with h | h
    · rcases List.mem_append.mp h with h | h
      · exact (hMk e h).2
      · simp [Event.isMint, (hAk e h).1] at hmi
    · obtain ⟨i, hi⟩ := hLk e h
      simp [Event.isMint, hi] at hmi
  · have h1 : M.filter Event.isApprove = [] := by
      rw [List.filter_eq_nil_iff]
      intro e he
      simp [Event.isApprove, (hMk e he).1]
    have h3 : L.filter Event.isApprove = [] := by
      rw [List.filter_eq_nil_iff]
      intro e he
      obtain ⟨i, hi⟩ := hLk e he
      simp [Event.isApprove, hi]
    have h2 : (A.filter Event.isApprove).length ≤ 1 := by
      refine le_trans (List.length_filter_le _ _) ?_
      rcases hA with h | ⟨input, res, _, h⟩ <;> simp [h]
    simpa [List.filter_append, h1, h3] using h2

/-- What the approvals and the mints of a run carry, when all the amounts
parse: the sum of the parsed amounts. -/
theorem depositRunCommand_carries (env : DepositEnv) (dp : DepositParams)
    (sched : List Nat) (vals : List Int)
    (hparse : dp.amounts.map env.parseUint256orHex = vals.map Except.ok) :
    (∀ e ∈ (depositRunCommand env dp sched).trace, e.isApprove = true →
        e.txn.dest = some (env.stringToAddress dp.rootTokenAddr)
          ∧ env.encodeAbi (.approve (env.stringToAddress dp.rootPredicateAddr) vals.sum)
              = .ok e.txn.input)
      ∧ (∀ e ∈ (depositRunCommand env dp sched).trace, e.isMint = true →
          dp.testMode = true ∧ ∃ key, (env.getRootchainPrivateKey dp.senderKey).1 = some key
            ∧ env.encodeAbi (.mint key.address vals.sum) = .ok e.txn.input)
      ∧ ((depositRunCommand env dp sched).trace.filter Event.isApprove).length ≤ 1
      ∧ (dp.amounts = [] → ∀ e ∈ (depositRunCommand env dp sched).trace, e.isApprove = true →
          env.encodeAbi (.approve (env.stringToAddress dp.rootPredicateAddr) 0)
            = .ok e.txn.input) := by
  have hempty : dp.amounts = [] → vals.sum = 0 := by
    intro h
    rw [h] at hparse
    cases vals with
    | nil => rfl
    | cons v vs => simp at hparse
  have hp := parseAmounts_ok env.parseUint256orHex dp.amounts vals hparse [] 0
  simp only [List.nil_append, zero_add] at hp
  unfold depositRunCommand
  simp only
  cases hkey : (env.getRootchainPrivateKey dp.senderKey).1 with
  | none => simp
  | some key =>
    simp only
    cases hrel : env.newTxRelayer dp.jsonRPCAddress with
    | error e => simp
    | ok txRelayer =>
      simp only [hp]
      obtain ⟨h1, h2, h3⟩ := depositMint_carries env dp txRelayer key.address vals vals.sum
        (Option.map DepositError.depositorKey (env.getRootchainPrivateKey dp.senderKey).2) sched
      refine ⟨h1, ?_, h3, ?_⟩
      · intro e he hmi
        obtain ⟨ha, _, _, hd⟩ := h2 e he hmi
        exact ⟨ha, key, rfl, hd⟩
      · intro hnil e he hap
        rw [← hempty hnil]
        exact (h1 e he hap).2

/-- In a trace made of mints, then one approval, then deposits, the approvals
are that approval and the mints are the first part. -/
theorem trace_filters (T l : List Event) (A : Event) (hT : ∀ e ∈ T, e.kind = .mint)
    (hA : A.kind = .approve) (hl : ∀ e ∈ l, e.isDeposit = true) :
    (T ++ [A] ++ l).filter Event.isApprove = [A]
      ∧ (T ++ [A] ++ l).filter Event.isMint = T := by
  have hlk : ∀ e ∈ l, ∃ i, e.kind = .deposit i := by
    intro e he
    have := hl e he
    unfold Event.isDeposit at this
    split at this
    · next i hk => exact ⟨i, hk⟩
    · simp at this
  have h1 : T.filter Event.isApprove = [] := by
    rw [List.filter_eq_nil_iff]
    intro e he
    simp [Event.isApprove, hT e he]
  have h2 : l.filter Event.isApprove = [] := by
    rw [List.filter_eq_nil_iff]
    intro e he
    obtain ⟨i, hi⟩ := hlk e he
    simp [Event.isApprove, hi]
  have h3 : T.filter Event.isMint = T := by
    rw [List.filter_eq_self]
    intro e he
    simp [Event.isMint, hT e he]
  have h4 : l.filter Event.isMint = [] := by
    rw [List.filter_eq_nil_iff]
    intro e he
    obtain ⟨i, hi⟩ := hlk e he
    simp [Event.isMint, hi]
  have h5 : [A].filter Event.isApprove = [A] := by simp [Event.isApprove, hA]
  have h6 : [A].filter Event.isMint = [] := by simp [Event.isMint, hA]
  simp only [List.filter_append, h1, h2, h3, h4, h5, h6, List.nil_append, List.append_nil,
    and_self]

/-- When the approval call encodes, the approval phase submits exactly one
approval, the transaction of `createApproveERC20PredicateTxn` for the aggregate
amount, and no mint. -/
theorem depositApprove_submits (env : DepositEnv) (dp : DepositParams) (txRelayer : TxRelayer)
    (d : Address) (amounts : List Int) (agg : Int) (T : List Event)
    (outErr : Option DepositError) (sched : List Nat) (input : List Nat)
    (hT : ∀ e ∈ T, e.kind = .mint)
    (happ : env.encodeAbi (.approve (env.stringToAddress dp.rootPredicateAddr) agg)
      = .ok input) :
    (depositApprove env dp txRelayer d amounts agg T outErr sched).trace.filter Event.isApprove
        = [⟨.approve, approveTxnOf (env.stringToAddress dp.rootTokenAddr) input,
            txRelayer (T.map Event.txn)
              (approveTxnOf (env.stringToAddress dp.rootTokenAddr) input)⟩]
      ∧ (depositApprove env dp txRelayer d amounts agg T outErr sched).trace.filter Event.isMint
        = T := by
  have h0 := trace_filters T []
    ⟨.approve, approveTxnOf (env.stringToAddress dp.rootTokenAddr) input,
      txRelayer (T.map Event.txn) (approveTxnOf (env.stringToAddress dp.rootTokenAddr) input)⟩
    hT rfl (by simp)
  rw [List.append_nil] at h0
  unfold depositApprove createApproveERC20PredicateTxn
  simp only [happ]
  split
  · exact h0
  · split
    · exact h0
    · split
      · exact h0
      · next receipt _ _ =>
        obtain ⟨l, hl, hld⟩ := depositLegs_trace env dp txRelayer d amounts receipt
          (T ++ [⟨.approve, approveTxnOf (env.stringToAddress dp.rootTokenAddr) input,
            txRelayer (T.map Event.txn)
              (approveTxnOf (env.stringToAddress dp.rootTokenAddr) input)⟩])
          outErr sched
        rw [hl]
        exact trace_filters T l _ hT rfl hld

/-- C3: when all the amount strings parse, every approval the command submits
goes to the root token and carries the ABI encoding of approve(root predicate,
exact integer sum of the parsed amounts), the sum being taken over the unbounded
integers (0 for no amount); there is at most one approval; every mint (test
mode only) carries the encoding of mint(depositor, the same sum). And the
transactions are submitted: with the key and the relayer obtained and the
approval call encoding, outside test mode the run submits exactly one approval,
the first call of the relayer; in test mode, when the mint call encodes, it
submits exactly one mint, the first call of the relayer, and, when that mint is
sent without error and mined with a status that is not failed, exactly one
approval, the second call of the relayer. -/
theorem deposit_approval_carries_exact_sum (env : DepositEnv) (dp : DepositParams)
    (sched : List Nat) (vals : List Int)
    (hparse : dp.amounts.map env.parseUint256orHex = vals.map Except.ok) :
    (∀ e ∈ (depositRunCommand env dp sched).trace, e.isApprove = true →
        e.txn.dest = some (env.stringToAddress dp.rootTokenAddr)
          ∧ env.encodeAbi (.approve (env.stringToAddress dp.rootPredicateAddr) vals.sum)
              = .ok e.txn.input)
      ∧ (∀ e ∈ (depositRunCommand env dp sched).trace, e.isMint = true →
          dp.testMode = true ∧ ∃ key, (env.getRootchainPrivateKey dp.senderKey).1 = some key
            ∧ env.encodeAbi (.mint key.address vals.sum) = .ok e.txn.input)
      ∧ ((depositRunCommand env dp sched).trace.filter Event.isApprove).length ≤ 1
      ∧ (dp.amounts = [] → ∀ e ∈ (depositRunCommand env dp sched).trace, e.isApprove = true →
          env.encodeAbi (.approve (env.stringToAddress dp.rootPredicateAddr) 0)
            = .ok e.txn.input)
      ∧ (∀ (key : Key) (txRelayer : TxRelayer) (input : List Nat),
          (env.getRootchainPrivateKey dp.senderKey).1 = some key →
          env.newTxRelayer dp.jsonRPCAddress = .ok txRelayer →
          env.encodeAbi (.approve (env.stringToAddress dp.rootPredicateAddr) vals.sum)
            = .ok input →
          (dp.testMode = false →
              (depositRunCommand env dp sched).trace.filter Event.isApprove
                = [⟨.approve, approveTxnOf (env.stringToAddress dp.rootTokenAddr) input,
                    txRelayer [] (approveTxnOf (env.stringToAddress dp.rootTokenAddr) input)⟩])
            ∧ (∀ minput : List Nat, dp.testMode = true →
                env.encodeAbi (.mint key.address vals.sum) = .ok minput →
                (depositRunCommand env dp sched).trace.filter Event.isMint
                    = [⟨.mint, mintTxnOf env dp key.address minput,
                        txRelayer [] (mintTxnOf env dp key.address minput)⟩]
                  ∧ ((txRelayer [] (mintTxnOf env dp key.address minput)).err = none →
                      ∀ r, (txRelayer [] (mintTxnOf env dp key.address minput)).receipt
                          = some r →
                        r.status ≠ env.receiptFailed →
                        (depositRunCommand env dp sched).trace.filter Event.isApprove
                          = [⟨.approve,
                              approveTxnOf (env.stringToAddress dp.rootTokenAddr) input,
                              txRelayer [mintTxnOf env dp key.address minput]
                                (approveTxnOf (env.stringToAddress dp.rootTokenAddr)
                                  input)⟩]))) := by
  obtain ⟨c1, c2, c3, c4⟩ := depositRunCommand_carries env dp sched vals hparse
  refine ⟨c1, c2, c3, c4, ?_⟩
  intro key txRelayer input hkey hrel happ
  have hp := parseAmounts_ok env.parseUint256orHex dp.amounts vals hparse [] 0
  simp only [List.nil_append, zero_add] at hp
  have hrun : depositRunCommand env dp sched
      = depositMint env dp txRelayer key.address vals vals.sum
          (Option.map DepositError.depositorKey (env.getRootchainPrivateKey dp.senderKey).2)
          sched := by
    unfold depositRunCommand
    simp only [hkey, hrel, hp]
  rw [hrun]
  refine ⟨?_, ?_⟩
  · intro htm
    unfold depositMint
    rw [if_neg (by simp [htm])]
    exact (depositApprove_submits env dp txRelayer key.address vals vals.sum [] _ sched input
      (by simp) happ).1
  · intro minput htm hmint
    unfold depositMint
    rw [if_pos htm]
    unfold createMintTxn
    simp only [hmint]
    cases herr : (txRelayer [] (mintTxnOf env dp key.address minput)).err with
    | some e =>
      refine ⟨by simp [Event.isMint], ?_⟩
      intro h
      cases h
    | none =>
      cases hrec : (txRelayer [] (mintTxnOf env dp key.address minput)).receipt with
      | none =>
        refine ⟨by simp [Event.isMint], ?_⟩
        intro _ r hr
        cases hr
      | some receipt =>
        simp only
        by_cases hst : receipt.status = env.receiptFailed
        · rw [if_pos hst]
          refine ⟨by simp [Event.isMint], ?_⟩
          intro _ r hr hne
          rw [Option.some.injEq] at hr
          exact absurd (hr ▸ hst) hne
        · rw [if_neg hst]
          have hsub := depositApprove_submits env dp txRelayer key.address vals vals.sum
            [⟨.mint, mintTxnOf env dp key.address minput,
              txRelayer [] (mintTxnOf env dp key.address minput)⟩]
            (Option.map DepositError.depositorKey
              (env.getRootchainPrivateKey dp.senderKey).2) sched input (by simp) happ
          exact ⟨hsub.2, fun _ _ _ _ => hsub.1⟩

theorem deposit_approval_carries_exact_sum_witness :
    ((demoDepositParams true).amounts.map demoParse = [10, 20, 30].map Except.ok
        ∧ (demoDepositParams false).amounts.map demoParse = [10, 20, 30].map Except.ok)
      ∧ ((depositRunCommand (demoDepositEnv (demoRelayer 2 ⟨some ⟨0, 6, []⟩, none⟩))
          (demoDepositParams false) [0, 1, 2]).trace.filter Event.isApprove).map Event.txn
        = [{ dest := some ⟨5⟩, input := [2, 9, 60] }]
      ∧ ((depositRunCommand (demoDepositEnv (demoRelayer 2 ⟨some ⟨0, 6, []⟩, none⟩))
          (demoDepositParams true) [0, 1, 2]).trace.filter Event.isMint).map Event.txn
        = [{ sender := ⟨77⟩, dest := some ⟨5⟩, input := [1, 77, 60] }]
      ∧ ((depositRunCommand (demoDepositEnv (demoRelayer 2 ⟨some ⟨0, 6, []⟩, none⟩))
          (demoDepositParams true) [0, 1, 2]).trace.filter Event.isApprove).map Event.txn
        = [{ dest := some ⟨5⟩, input := [2, 9, 60] }] :=
  ⟨⟨rfl, rfl⟩,
   congrArg (List.map Event.txn)
    (((deposit_approval_carries_exact_sum
      (demoDepositEnv (demoRelayer 2 ⟨some ⟨0, 6, []⟩, none⟩))
      (demoDepositParams false) [0, 1, 2] [10, 20, 30] rfl).2.2.2.2
        ⟨⟨77⟩⟩ (demoRelayer 2 ⟨some ⟨0, 6, []⟩, none⟩) [2, 9, 60] rfl rfl rfl).1 rfl),
   congrArg (List.map Event.txn)
    ((((deposit_approval_carries_exact_sum
      (demoDepositEnv (demoRelayer 2 ⟨some ⟨0, 6, []⟩, none⟩))
      (demoDepositParams true) [0, 1, 2] [10, 20, 30] rfl).2.2.2.2
        ⟨⟨77⟩⟩ (demoRelayer 2 ⟨some ⟨0, 6, []⟩, none⟩) [2, 9, 60] rfl rfl rfl).2
          [1, 77, 60] rfl rfl).1),
   congrArg (List.map Event.txn)
    ((((deposit_approval_carries_exact_sum
      (demoDepositEnv (demoRelayer 2 ⟨some ⟨0, 6, []⟩, none⟩))
      (demoDepositParams true) [0, 1, 2] [10, 20, 30] rfl).2.2.2.2
        ⟨⟨77⟩⟩ (demoRelayer 2 ⟨some ⟨0, 6, []⟩, none⟩) [2, 9, 60] rfl rfl rfl).2
          [1, 77, 60] rfl rfl).2 rfl ⟨1, 4, []⟩ rfl (by decide))⟩

/-! ## The deposit command: amounts that do not parse, and the mint -/

/-- C7: when one of the amount strings does not parse, no transaction at all is
submitted (no mint, no approval, no deposit) and no command result is set;
provided the depositor key was obtained, an error is reported: that of the
relayer set-up, or "failed to decode provided amount". -/
theorem deposit_unparsable_amount_sends_nothing (env : DepositEnv) (dp : DepositParams)
    (sched : List Nat)
    (hbad : ∃ s ∈ dp.amounts, ∃ e, env.parseUint256orHex s = .error e) :
    (depositRunCommand env dp sched).trace = []
      ∧ (depositRunCommand env dp sched).result = none
      ∧ (∀ key, (env.getRootchainPrivateKey dp.senderKey).1 = some key →
          (depositRunCommand env dp sched).panicked = false
            ∧ ∃ e, (depositRunCommand env dp sched).error = some (.txRelayer e)
                ∨ (depositRunCommand env dp sched).error = some (.decodeAmount e)) := by
  obtain ⟨e, he⟩ := parseAmounts_error env.parseUint256orHex dp.amounts hbad [] 0
  unfold depositRunCommand
  simp only
  cases hkey : (env.getRootchainPrivateKey dp.senderKey).1 with
  | none => simp
  | some key =>
    simp only
    cases hrel : env.newTxRelayer dp.jsonRPCAddress with
    | error e2 => simp
    | ok txRelayer => simp [he]

theorem deposit_unparsable_amount_sends_nothing_witness :
    (∃ s ∈ ["10", "1x", "30"], ∃ e, demoParse s = .error e)
      ∧ (depositRunCommand (demoDepositEnv (demoRelayer 2 ⟨some ⟨0, 6, []⟩, none⟩))
          { demoDepositParams true with amounts := ["10", "1x", "30"] } [0, 1]).trace = [] :=
  ⟨⟨"1x", by simp, "could not parse", rfl⟩,
   (deposit_unparsable_amount_sends_nothing
      (demoDepositEnv (demoRelayer 2 ⟨some ⟨0, 6, []⟩, none⟩))
      { demoDepositParams true with amounts := ["10", "1x", "30"] } [0, 1]
      ⟨"1x", by simp, "could not parse", rfl⟩).1⟩

theorem depositApprove_no_new_mint (env : DepositEnv) (dp : DepositParams)
    (txRelayer : TxRelayer) (d : Address) (amounts : List Int) (agg : Int) (T : List Event)
    (outErr : Option DepositError) (sched : List Nat) :
    ∃ R, (depositApprove env dp txRelayer d amounts agg T outErr sched).trace = T ++ R
      ∧ ∀ e ∈ R, e.isMint = false := by
  obtain ⟨A, L, h, hA, hL⟩ := depositApprove_shape env dp txRelayer d amounts agg T outErr sched
  refine ⟨A ++ L, by rw [h, List.append_assoc], ?_⟩
  intro e he
  rcases List.mem_append.mp he with h1 | h1
  · rcases hA with h2 | ⟨input, res, _, h2⟩
    · simp [h2] at h1
    · rw [h2, List.mem_singleton] at h1
      simp [h1, Event.isMint]
  · have := hL e h1
    unfold Event.isDeposit at this
    split at this
    · next i hk => simp [Event.isMint, hk]
    · simp at this

/-- C6: with the depositor key and the relayer obtained, no mint is submitted
when an amount does not parse; and when all amounts parse and the mint call
encodes, a mint is submitted if and only if test mode is set, it is then the
first transaction and the only mint, it goes from the depositor to the root
token with the encoding of mint(depositor, sum of the amounts), and if its send
returns an error or its receipt has the failed status it is the only transaction
of the run (no approval, no deposit) and an error is reported. -/
theorem deposit_mint_only_in_test_mode (env : DepositEnv) (dp : DepositParams)
    (sched : List Nat) (key : Key) (txRelayer : TxRelayer)
    (hkey : (env.getRootchainPrivateKey dp.senderKey).1 = some key)
    (hrel : env.newTxRelayer dp.jsonRPCAddress = .ok txRelayer) :
    ((∃ s ∈ dp.amounts, ∃ e, env.parseUint256orHex s = .error e) →
        ∀ e ∈ (depositRunCommand env dp sched).trace, e.isMint = false)
      ∧ (∀ (vals : List Int) (input : List Nat),
          dp.amounts.map env.parseUint256orHex = vals.map Except.ok →
          env.encodeAbi (.mint key.address vals.sum) = .ok input →
          ((∃ e ∈ (depositRunCommand env dp sched).trace, e.isMint = true)
              ↔ dp.testMode = true)
            ∧ (dp.testMode = true →
                ∃ mintTxn : Transaction,
                  mintTxn = { sender := key.address,
                              dest := some (env.stringToAddress dp.rootTokenAddr),
                              input := input }
                  ∧ (depositRunCommand env dp sched).trace.head?
                      = some ⟨.mint, mintTxn, txRelayer [] mintTxn⟩
                  ∧ (∀ e ∈ (depositRunCommand env dp sched).trace.tail, e.isMint = false)
                  ∧ (((txRelayer [] mintTxn).err ≠ none
                        ∨ ∃ r, (txRelayer [] mintTxn).receipt = some r
                            ∧ r.status = env.receiptFailed) →
                      (depositRunCommand env dp sched).trace
                          = [⟨.mint, mintTxn, txRelayer [] mintTxn⟩]
                        ∧ (depositRunCommand env dp sched).error ≠ none))) := by
  refine ⟨?_, ?_⟩
  · intro hbad e he
    rw [(deposit_unparsable_amount_sends_nothing env dp sched hbad).1] at he
    simp at he
  · intro vals input hparse henc
    have hp := parseAmounts_ok env.parseUint256orHex dp.amounts vals hparse [] 0
    simp only [List.nil_append, zero_add] at hp
    have hrun : depositRunCommand env dp sched
        = depositMint env dp txRelayer key.address vals vals.sum
            (Option.map DepositError.depositorKey (env.getRootchainPrivateKey dp.senderKey).2)
            sched := by
      unfold depositRunCommand
      simp only [hkey, hrel, hp]
    rw [hrun]
    unfold depositMint
    by_cases htm : dp.testMode = true
    · rw [if_pos htm]
      unfold createMintTxn
      simp only [henc]
      have hM : (mintTxnOf env dp key.address input)
          = { sender := key.address, dest := some (env.stringToAddress dp.rootTokenAddr),
              input := input } := rfl
      rw [← hM]
      cases herr : (txRelayer [] (mintTxnOf env dp key.address input)).err with
      | some e =>
        exact ⟨⟨fun _ => htm, fun _ => ⟨_, List.mem_singleton.mpr rfl, rfl⟩⟩,
          fun _ => ⟨_, rfl, rfl, by simp, fun _ => ⟨rfl, by simp⟩⟩⟩
      | none =>
        cases hrec : (txRelayer [] (mintTxnOf env dp key.address input)).receipt with
        | none =>
          simp only
          refine ⟨⟨fun _ => htm, fun _ => ⟨_, List.mem_singleton.mpr rfl, rfl⟩⟩,
            fun _ => ⟨_, rfl, rfl, by simp, ?_⟩⟩
          intro h
          rcases h with h | ⟨r, h, _⟩
          · exact absurd herr h
          · rw [hrec] at h
            cases h
        | some receipt =>
          simp only
          by_cases hst : receipt.status = env.receiptFailed
          · rw [if_pos hst]
            exact ⟨⟨fun _ => htm, fun _ => ⟨_, List.mem_singleton.mpr rfl, rfl⟩⟩,
              fun _ => ⟨_, rfl, rfl, by simp, fun _ => ⟨rfl, by simp⟩⟩⟩
          · rw [if_neg hst]
            obtain ⟨R, hR, hRm⟩ := depositApprove_no_new_mint env dp txRelayer key.address
              vals vals.sum
              [⟨.mint, mintTxnOf env dp key.address input,
                txRelayer [] (mintTxnOf env dp key.address input)⟩]
              (Option.map DepositError.depositorKey
                (env.getRootchainPrivateKey dp.senderKey).2) sched
            rw [hR]
            refine ⟨⟨fun _ => htm, fun _ => ⟨_, List.mem_append_left _
              (List.mem_singleton.mpr rfl), rfl⟩⟩, fun _ => ⟨_, rfl, rfl, ?_, ?_⟩⟩
            · intro e he
              exact hRm e (by simpa using he)
            · intro h
              exfalso
              rcases h with h | ⟨r, h, hr⟩
              · exact absurd herr h
              · rw [hrec, Option.some.injEq] at h
                exact hst (h ▸ hr)
    · rw [if_neg htm]
      obtain ⟨R, hR, hRm⟩ := depositApprove_no_new_mint env dp txRelayer key.address
        vals vals.sum [] (Option.map DepositError.depositorKey
          (env.getRootchainPrivateKey dp.senderKey).2) sched
      rw [hR]
      refine ⟨⟨?_, fun h => absurd h htm⟩, fun h => absurd h htm⟩
      rintro ⟨e, he, hm⟩
      rw [hRm e (by simpa using he)] at hm
      cases hm

theorem deposit_mint_only_in_test_mode_witness :
    ((demoDepositEnv (demoRelayer 2 ⟨some ⟨0, 6, []⟩, none⟩)).getRootchainPrivateKey "").1
        = some ⟨⟨77⟩⟩
      ∧ ((∃ e ∈ (depositRunCommand (demoDepositEnv (demoRelayer 2 ⟨some ⟨0, 6, []⟩, none⟩))
            (demoDepositParams true) [0, 1, 2]).trace, e.isMint = true)
          ↔ (demoDepositParams true).testMode = true) :=
  ⟨rfl, ((deposit_mint_only_in_test_mode
    (demoDepositEnv (demoRelayer 2 ⟨some ⟨0, 6, []⟩, none⟩)) (demoDepositParams true)
    [0, 1, 2] ⟨⟨77⟩⟩ (demoRelayer 2 ⟨some ⟨0, 6, []⟩, none⟩) rfl rfl).2
      [10, 20, 30] [1, 77, 60] rfl rfl).1⟩

/-! ## The deposit command: the goroutines -/

/-- A step of leg `i` either leaves places and trace as they are, or is a move of
the goroutine of leg `i`. -/
theorem legStep_move (env : DepositEnv) (dp : DepositParams) (txRelayer : TxRelayer)
    (d : Address) (legs : List Leg) (st : LegsState) (i : Nat) :
    ((legStep env dp txRelayer d legs st i).pcs = st.pcs
        ∧ (legStep env dp txRelayer d legs st i).trace = st.trace)
      ∨ ∃ leg pc pc2 evs, legs[i]? = some leg ∧ st.pcs[i]? = some pc
          ∧ (legStep env dp txRelayer d legs st i).pcs = st.pcs.set i pc2
          ∧ (legStep env dp txRelayer d legs st i).trace = st.trace ++ evs
          ∧ LegMove env dp d i leg pc pc2 evs := by
  unfold legStep
  split
  · exact Or.inl ⟨rfl, rfl⟩
  · split
    · next leg pc hleg hpc =>
      split
      · split
        · exact Or.inr ⟨leg, _, _, [], hleg, hpc, rfl, by simp [LegsState.goto],
            Or.inl ⟨rfl, Or.inr rfl, rfl⟩⟩
        · exact Or.inr ⟨leg, _, _, [], hleg, hpc, rfl, by simp [LegsState.goto],
            Or.inl ⟨rfl, Or.inl rfl, rfl⟩⟩
      · unfold createDepositTxn
        cases henc : env.encodeAbi (.depositTo (env.stringToAddress dp.rootTokenAddr)
            (env.stringToAddress leg.receiver) leg.amount) with
        | error e =>
          exact Or.inr ⟨leg, _, _, [], hleg, hpc, rfl, by simp [LegsState.goto],
            Or.inr (Or.inl ⟨rfl, e, henc, rfl, rfl⟩)⟩
        | ok input =>
          exact Or.inr ⟨leg, _, _, _, hleg, hpc, rfl, rfl,
            Or.inr (Or.inr (Or.inl ⟨rfl, input, _, henc, rfl, rfl⟩))⟩
      · next err =>
        split
        · exact Or.inr ⟨leg, _, _, [], hleg, hpc, rfl, by simp [LegsState.goto],
            Or.inr (Or.inr (Or.inr (Or.inl ⟨⟨_, rfl⟩, ⟨_, rfl⟩, rfl, rfl⟩)))⟩
        · split
          · exact Or.inl ⟨rfl, rfl⟩
          · split
            · exact Or.inr ⟨leg, _, _, [], hleg, hpc, rfl, by simp [LegsState.goto],
                Or.inr (Or.inr (Or.inr (Or.inl ⟨⟨_, rfl⟩, ⟨_, rfl⟩, rfl, rfl⟩)))⟩
            · exact Or.inr ⟨leg, _, _, [], hleg, hpc, rfl, by simp [LegsState.goto],
                Or.inr (Or.inr (Or.inr (Or.inl ⟨⟨_, rfl⟩, ⟨_, rfl⟩, rfl, rfl⟩)))⟩
      · next r =>
        split
        · exact Or.inr ⟨leg, _, _, [], hleg, hpc, rfl, by simp [LegsState.goto],
            Or.inr (Or.inr (Or.inr (Or.inr ⟨_, rfl, rfl, rfl⟩)))⟩
        · split
          · exact Or.inr ⟨leg, _, _, [], hleg, hpc, rfl, by simp,
              Or.inr (Or.inr (Or.inr (Or.inr ⟨_, rfl, rfl, rfl⟩)))⟩
          · exact Or.inr ⟨leg, _, _, [], hleg, hpc, rfl, by simp [LegsState.goto],
              Or.inr (Or.inr (Or.inr (Or.inr ⟨_, rfl, rfl, rfl⟩)))⟩
      · exact Or.inl ⟨rfl, rfl⟩
    · exact Or.inl ⟨rfl, rfl⟩

theorem LegMove.filter_other {env : DepositEnv} {dp : DepositParams} {d : Address}
    {i : Nat} {leg : Leg} {pc pc2 : LegPc} {evs : List Event}
    (h : LegMove env dp d i leg pc pc2 evs) (j : Nat) (hj : j ≠ i) :
    evs.filter (Event.isLeg j) = [] := by
  rcases h with ⟨_, _, h⟩ | ⟨_, _, _, _, h⟩ | ⟨_, input, res, _, _, h⟩ | ⟨_, _, _, h⟩
    | ⟨_, _, _, h⟩
  · simp [h]
  · simp [h]
  · rw [h]
    simp [Event.isLeg, Ne.symm hj]
  · simp [h]
  · simp [h]

theorem LegMove.inv {env : DepositEnv} {dp : DepositParams} {d : Address}
    {i : Nat} {leg : Leg} {pc pc2 : LegPc} {evs : List Event}
    (h : LegMove env dp d i leg pc pc2 evs) (trace : List Event)
    (hinv : LegInv env dp d i leg pc trace) :
    LegInv env dp d i leg pc2 (trace ++ evs) := by
  obtain ⟨h1, h2, h3⟩ := hinv
  rcases h with ⟨hpc, hpc2, he⟩ | ⟨hpc, e, henc, hpc2, he⟩ | ⟨hpc, input, res, henc, hpc2, he⟩
    | ⟨⟨err, hpc⟩, ⟨r, hpc2⟩, hs, he⟩ | ⟨r, hpc, hpc2, he⟩
  · subst hpc he
    have h0 := h2 rfl
    rcases hpc2 with hpc2 | hpc2 <;> subst hpc2 <;>
      refine ⟨by simp [LegPc.hasSent], fun _ => by simpa using h0, by simp⟩
  · subst hpc he hpc2
    have h0 := h2 rfl
    refine ⟨by simp [LegPc.hasSent], fun _ => by simpa using h0, ?_⟩
    intro e2 he2
    simp only [LegPc.returned.injEq, Option.some.injEq, LegError.createTxInput.injEq,
      reduceCtorEq, or_false] at he2
    rw [← he2]
    exact henc
  · subst hpc he hpc2
    have h0 := h2 rfl
    refine ⟨fun _ => ⟨input, res, henc, ?_⟩, by simp [LegPc.hasSent], by simp⟩
    simp [List.filter_append, h0, Event.isLeg]
  · subst hpc he
    obtain ⟨input, res, henc, hf⟩ := h1 rfl
    refine ⟨fun _ => ⟨input, res, henc, by simpa using hf⟩, by simp [hs], ?_⟩
    intro e2 he2
    rcases he2 with he2 | he2
    · rw [he2] at hs
      simp [LegPc.hasSent] at hs
    · rw [he2] at hs
      simp [LegPc.hasSent] at hs
  · subst hpc he hpc2
    have hsame : (LegPc.done r).hasSent = (LegPc.returned r).hasSent := by
      cases r with
      | none => rfl
      | some e => cases e <;> rfl
    refine ⟨?_, ?_, ?_⟩
    · intro hs
      rw [hsame] at hs
      simpa using h1 hs
    · intro hs
      rw [hsame] at hs
      simpa using h2 hs
    · intro e2 he2
      rcases he2 with he2 | he2
      · cases he2
      · simp only [LegPc.done.injEq] at he2
        exact h3 e2 (Or.inl (by rw [he2]))

theorem legsInv_step (env : DepositEnv) (dp : DepositParams) (txRelayer : TxRelayer)
    (d : Address) (legs : List Leg) (st : LegsState) (i : Nat)
    (hinv : LegsInv env dp d legs st) :
    LegsInv env dp d legs (legStep env dp txRelayer d legs st i) := by
  rcases legStep_move env dp txRelayer d legs st i with ⟨hp, ht⟩
    | ⟨leg, pc, pc2, evs, hleg, hpc, hp, ht, hmove⟩
  · unfold LegsInv
    rw [hp, ht]
    exact hinv
  · obtain ⟨hlen, hlegs, hnone⟩ := hinv
    have hi : i < st.pcs.length := by
      by_contra hcon
      rw [List.getElem?_eq_none (by omega)] at hpc
      cases hpc
    unfold LegsInv
    rw [hp, ht]
    refine ⟨by simpa using hlen, ?_, ?_⟩
    · intro j leg2 pcj hleg2 hpcj
      by_cases hji : j = i
      · subst hji
        rw [List.getElem?_set_self hi, Option.some.injEq] at hpcj
        rw [hleg, Option.some.injEq] at hleg2
        subst hpcj hleg2
        exact hmove.inv st.trace (hlegs j leg pc hleg hpc)
      · rw [List.getElem?_set_ne (Ne.symm hji)] at hpcj
        obtain ⟨h1, h2, h3⟩ := hlegs j leg2 pcj hleg2 hpcj
        have hf := hmove.filter_other j hji
        refine ⟨?_, ?_, h3⟩
        · intro hs
          obtain ⟨input, res, henc, hfl⟩ := h1 hs
          exact ⟨input, res, henc, by simp [List.filter_append, hfl, hf]⟩
        · intro hs
          simp [List.filter_append, h2 hs, hf]
    · intro j hj
      have hji : j ≠ i := by
        intro h
        rw [h, hleg] at hj
        cases hj
      simp [List.filter_append, hnone j hj, hmove.filter_other j hji]

theorem legsInv_run (env : DepositEnv) (dp : DepositParams) (txRelayer : TxRelayer)
    (d : Address) (legs : List Leg) (sched : List Nat) (st : LegsState)
    (hinv : LegsInv env dp d legs st) :
    LegsInv env dp d legs (runLegs env dp txRelayer d legs st sched) := by
  induction sched generalizing st with
  | nil => exact hinv
  | cons i rest ih =>
    exact ih (legStep env dp txRelayer d legs st i)
      (legsInv_step env dp txRelayer d legs st i hinv)

theorem legStep_panicked (env : DepositEnv) (dp : DepositParams) (txRelayer : TxRelayer)
    (d : Address) (legs : List Leg) (st : LegsState) (i : Nat) (h : st.panicked = true) :
    legStep env dp txRelayer d legs st i = st := by
  unfold legStep
  rw [if_pos h]

theorem runLegs_panicked (env : DepositEnv) (dp : DepositParams) (txRelayer : TxRelayer)
    (d : Address) (legs : List Leg) (sched : List Nat) (st : LegsState)
    (h : st.panicked = true) :
    runLegs env dp txRelayer d legs st sched = st := by
  induction sched with
  | nil => rfl
  | cons i rest ih =>
    simp only [runLegs, List.foldl_cons] at ih ⊢
    rw [legStep_panicked env dp txRelayer d legs st i h]
    exact ih

theorem runLegs_append (env : DepositEnv) (dp : DepositParams) (txRelayer : TxRelayer)
    (d : Address) (legs : List Leg) (s1 s2 : List Nat) (st : LegsState) :
    runLegs env dp txRelayer d legs st (s1 ++ s2)
      = runLegs env dp txRelayer d legs (runLegs env dp txRelayer d legs st s1) s2 := by
  simp [runLegs, List.foldl_append]

theorem legStep_other (env : DepositEnv) (dp : DepositParams) (txRelayer : TxRelayer)
    (d : Address) (legs : List Leg) (st : LegsState) (i j : Nat) (hij : j ≠ i) :
    (legStep env dp txRelayer d legs st i).pcs[j]? = st.pcs[j]? := by
  rcases legStep_move env dp txRelayer d legs st i with ⟨hp, _⟩
    | ⟨_, _, pc2, _, _, _, hp, _, _⟩
  · rw [hp]
  · rw [hp, List.getElem?_set_ne (Ne.symm hij)]

theorem legStep_length (env : DepositEnv) (dp : DepositParams) (txRelayer : TxRelayer)
    (d : Address) (legs : List Leg) (st : LegsState) (i : Nat) :
    (legStep env dp txRelayer d legs st i).pcs.length = st.pcs.length := by
  rcases legStep_move env dp txRelayer d legs st i with ⟨hp, _⟩
    | ⟨_, _, pc2, _, _, _, hp, _, _⟩
  · rw [hp]
  · rw [hp, List.length_set]

/-- A step of leg `i` that does not end in a panic moves the goroutine on, until
it is done. -/
theorem legStep_progress (env : DepositEnv) (dp : DepositParams) (txRelayer : TxRelayer)
    (d : Address) (legs : List Leg) (st : LegsState) (i : Nat) (leg : Leg) (pc : LegPc)
    (hleg : legs[i]? = some leg) (hpc : st.pcs[i]? = some pc)
    (hnp : (legStep env dp txRelayer d legs st i).panicked = false) :
    ∃ pc2, (legStep env dp txRelayer d legs st i).pcs[i]? = some pc2
      ∧ (pc.rank + 1 ≤ pc2.rank ∨ pc2.rank = 4) := by
  have hi : i < st.pcs.length := by
    by_contra hcon
    rw [List.getElem?_eq_none (by omega)] at hpc
    cases hpc
  have hst : st.panicked = false := by
    by_contra hcon
    simp only [Bool.not_eq_false] at hcon
    rw [legStep_panicked env dp txRelayer d legs st i hcon, hcon] at hnp
    cases hnp
  revert hnp
  unfold legStep
  simp only [hst, Bool.false_eq_true, if_false, hleg, hpc]
  cases pc with
  | spawned =>
    simp only
    split <;> intro _ <;>
      exact ⟨_, List.getElem?_set_self hi, by simp [LegPc.rank]⟩
  | checked =>
    simp only
    split <;> intro _ <;>
      exact ⟨_, List.getElem?_set_self hi, by simp [LegPc.rank]⟩
  | sent err =>
    simp only
    split
    · intro _
      exact ⟨_, List.getElem?_set_self hi, by simp [LegPc.rank]⟩
    · split
      · intro h
        simp at h
      · split <;> intro _ <;>
          exact ⟨_, List.getElem?_set_self hi, by simp [LegPc.rank]⟩
  | returned r =>
    simp only
    split
    · intro _
      exact ⟨_, List.getElem?_set_self hi, by simp [LegPc.rank]⟩
    · split <;> intro _ <;>
        exact ⟨_, List.getElem?_set_self hi, by simp [LegPc.rank]⟩
  | done r =>
    simp only
    intro _
    exact ⟨_, hpc, by simp [LegPc.rank]⟩

theorem rank_four (pc : LegPc) (h : 4 ≤ pc.rank) : ∃ r, pc = .done r := by
  cases pc with
  | done r => exact ⟨r, rfl⟩
  | spawned => simp [LegPc.rank] at h
  | checked => simp [LegPc.rank] at h
  | sent e => simp [LegPc.rank] at h
  | returned r => simp [LegPc.rank] at h

theorem rank_le_four (pc : LegPc) : pc.rank ≤ 4 := by
  cases pc <;> simp [LegPc.rank]

/-- Four steps of leg `i` bring its goroutine to its end, unless the process panics. -/
theorem legStep_four (env : DepositEnv) (dp : DepositParams) (txRelayer : TxRelayer)
    (d : Address) (legs : List Leg) (st : LegsState) (i : Nat)
    (hlen : st.pcs.length = legs.length) (hi : i < legs.length)
    (hnp : (runLegs env dp txRelayer d legs st [i, i, i, i]).panicked = false) :
    ∃ r, (runLegs env dp txRelayer d legs st [i, i, i, i]).pcs[i]? = some (.done r) := by
  obtain ⟨leg, hleg⟩ : ∃ leg, legs[i]? = some leg := ⟨legs[i], List.getElem?_eq_getElem hi⟩
  obtain ⟨pc0, hpc0⟩ : ∃ pc, st.pcs[i]? = some pc :=
    ⟨st.pcs[i], List.getElem?_eq_getElem (by omega)⟩
  simp only [runLegs, List.foldl_cons, List.foldl_nil] at hnp ⊢
  set s1 := legStep env dp txRelayer d legs st i with hs1
  set s2 := legStep env dp txRelayer d legs s1 i with hs2
  set s3 := legStep env dp txRelayer d legs s2 i with hs3
  have np3 : s3.panicked = false := by
    by_contra hcon
    simp only [Bool.not_eq_false] at hcon
    rw [legStep_panicked env dp txRelayer d legs s3 i hcon, hcon] at hnp
    cases hnp
  have np2 : s2.panicked = false := by
    by_contra hcon
    simp only [Bool.not_eq_false] at hcon
    rw [hs3, legStep_panicked env dp txRelayer d legs s2 i hcon, hcon] at np3
    cases np3
  have np1 : s1.panicked = false := by
    by_contra hcon
    simp only [Bool.not_eq_false] at hcon
    rw [hs2, legStep_panicked env dp txRelayer d legs s1 i hcon, hcon] at np2
    cases np2
  obtain ⟨pc1, hpc1, hr1⟩ := legStep_progress env dp txRelayer d legs st i leg pc0 hleg hpc0 np1
  obtain ⟨pc2, hpc2, hr2⟩ := legStep_progress env dp txRelayer d legs s1 i leg pc1 hleg hpc1 np2
  obtain ⟨pc3, hpc3, hr3⟩ := legStep_progress env dp txRelayer d legs s2 i leg pc2 hleg hpc2 np3
  obtain ⟨pc4, hpc4, hr4⟩ := legStep_progress env dp txRelayer d legs s3 i leg pc3 hleg hpc3 hnp
  have h4 : 4 ≤ pc4.rank := by
    have := rank_le_four pc1
    have := rank_le_four pc2
    have := rank_le_four pc3
    omega
  obtain ⟨r, hr⟩ := rank_four pc4 h4
  exact ⟨r, by rw [hpc4, hr]⟩

theorem runLegs_length (env : DepositEnv) (dp : DepositParams) (txRelayer : TxRelayer)
    (d : Address) (legs : List Leg) (sched : List Nat) (st : LegsState) :
    (runLegs env dp txRelayer d legs st sched).pcs.length = st.pcs.length := by
  induction sched generalizing st with
  | nil => rfl
  | cons i rest ih =>
    simp only [runLegs, List.foldl_cons] at ih ⊢
    rw [ih, legStep_length]

theorem runLegs_other (env : DepositEnv) (dp : DepositParams) (txRelayer : TxRelayer)
    (d : Address) (legs : List Leg) (sched : List Nat) (st : LegsState) (j : Nat)
    (hj : j ∉ sched) :
    (runLegs env dp txRelayer d legs st sched).pcs[j]? = st.pcs[j]? := by
  induction sched generalizing st with
  | nil => rfl
  | cons i rest ih =>
    simp only [List.mem_cons, not_or] at hj
    simp only [runLegs, List.foldl_cons] at ih ⊢
    rw [ih _ hj.2, legStep_other env dp txRelayer d legs st i j hj.1]

/-- After the joining steps every goroutine among the first `k` is done, unless
the process panicked. -/
theorem joinSchedule_done (env : DepositEnv) (dp : DepositParams) (txRelayer : TxRelayer)
    (d : Address) (legs : List Leg) (k : Nat) (hk : k ≤ legs.length) (st : LegsState)
    (hlen : st.pcs.length = legs.length)
    (hnp : (runLegs env dp txRelayer d legs st (joinSchedule k)).panicked = false) :
    ∀ i, i < k →
      ∃ r, (runLegs env dp txRelayer d legs st (joinSchedule k)).pcs[i]? = some (.done r) := by
  induction k with
  | zero => intro i hi; omega
  | succ k ih =>
    intro i hi
    simp only [joinSchedule] at hnp ⊢
    rw [runLegs_append] at hnp ⊢
    set s1 := runLegs env dp txRelayer d legs st (joinSchedule k) with hs1
    have np1 : s1.panicked = false := by
      by_contra hcon
      simp only [Bool.not_eq_false] at hcon
      rw [runLegs_panicked env dp txRelayer d legs _ s1 hcon, hcon] at hnp
      cases hnp
    have hlen1 : s1.pcs.length = legs.length := by
      rw [hs1, runLegs_length, hlen]
    by_cases hik : i = k
    · subst hik
      exact legStep_four env dp txRelayer d legs s1 i hlen1 (by omega) hnp
    · have hlt : i < k := by omega
      obtain ⟨r, hr⟩ := ih (by omega) np1 i hlt
      refine ⟨r, ?_⟩
      rw [runLegs_other env dp txRelayer d legs [k, k, k, k] s1 i (by simp [hik])]
      exact hr

theorem spawnLegs_eq (amounts : List Int) (receivers : List String) (i : Nat)
    (h : receivers.length = (amounts.drop i).length) :
    spawnLegs amounts receivers i = (List.zipWith Leg.mk receivers (amounts.drop i), false) := by
  induction receivers generalizing i with
  | nil => simp [spawnLegs]
  | cons r rs ih =>
    have hi : i < amounts.length := by
      simp only [List.length_cons, List.length_drop] at h
      omega
    have hd : amounts.drop i = amounts[i] :: amounts.drop (i + 1) :=
      List.drop_eq_getElem_cons hi
    have h2 : rs.length = (amounts.drop (i + 1)).length := by
      simp only [List.length_cons, List.length_drop] at h ⊢
      omega
    simp only [spawnLegs, List.getElem?_eq_getElem hi, ih (i + 1) h2]
    rw [hd, List.zipWith_cons_cons]

theorem legsInv_init (env : DepositEnv) (dp : DepositParams) (d : Address) (legs : List Leg)
    (receipt : Option Receipt) (T : List Event) (hT : ∀ e ∈ T, e.isDeposit = false) :
    LegsInv env dp d legs
      { pcs := List.replicate legs.length .spawned, receipt := receipt, ctxDone := false,
        err := none, trace := T, panicked := false } := by
  have hf : ∀ i, T.filter (Event.isLeg i) = [] := by
    intro i
    rw [List.filter_eq_nil_iff]
    intro e he
    have := hT e he
    unfold Event.isDeposit at this
    split at this
    · simp at this
    · next hk =>
      simp only [Event.isLeg, decide_eq_true_eq]
      exact fun h => hk i h
  refine ⟨by simp, ?_, fun i _ => hf i⟩
  intro i leg pc _ hpc
  have hpc2 : pc = .spawned := by
    rw [List.getElem?_replicate] at hpc
    split at hpc
    · exact (Option.some.inj hpc).symm
    · cases hpc
  subst hpc2
  exact ⟨by simp [LegPc.hasSent], fun _ => hf i, by simp⟩

/-- A run of the approval phase with a successful approval in its trace is a run
of the goroutines, started on a trace without deposit. -/
theorem depositApprove_reaches_legs (env : DepositEnv) (dp : DepositParams)
    (txRelayer : TxRelayer) (d : Address) (amounts : List Int) (agg : Int) (T : List Event)
    (outErr : Option DepositError) (sched : List Nat) (hT : ∀ e ∈ T, e.kind = .mint)
    (happ : ∃ a ∈ (depositApprove env dp txRelayer d amounts agg T outErr sched).trace,
      a.isApprovalOk env.receiptFailed = true) :
    ∃ receipt T2, (∀ e ∈ T2, e.isDeposit = false)
      ∧ depositApprove env dp txRelayer d amounts agg T outErr sched
          = depositLegs env dp txRelayer d amounts receipt T2 outErr sched := by
  have hTn : ∀ a ∈ T, a.isApprovalOk env.receiptFailed = true → False := by
    intro a ha hok
    have := Event.kind_of_isApprovalOk _ a hok
    rw [hT a ha] at this
    cases this
  revert happ
  unfold depositApprove
  split
  · rintro ⟨a, ha, hok⟩
    exact (hTn a ha hok).elim
  · next approveTxn _ =>
    simp only
    split
    · next e hres =>
      rintro ⟨a, ha, hok⟩
      exfalso
      rcases List.mem_append.mp ha with h | h
      · exact hTn a h hok
      · rw [List.mem_singleton] at h
        simp [h, Event.isApprovalOk, hres] at hok
    · next hres =>
      split
      · next hrec =>
        rintro ⟨a, ha, hok⟩
        exfalso
        rcases List.mem_append.mp ha with h | h
        · exact hTn a h hok
        · rw [List.mem_singleton] at h
          simp [h, Event.isApprovalOk, hres, hrec] at hok
      · next receipt hrec =>
        split
        · next hst =>
          rintro ⟨a, ha, hok⟩
          exfalso
          rcases List.mem_append.mp ha with h | h
          · exact hTn a h hok
          · rw [List.mem_singleton] at h
            simp [h, Event.isApprovalOk, hres, hrec, hst] at hok
        · intro _
          refine ⟨receipt, _, ?_, rfl⟩
          intro e he
          rcases List.mem_append.mp he with h | h
          · exact Event.isDeposit_of_mint e (hT e h)
          · rw [List.mem_singleton] at h
            simp [h, Event.isDeposit]

theorem depositMint_reaches_legs (env : DepositEnv) (dp : DepositParams)
    (txRelayer : TxRelayer) (d : Address) (amounts : List Int) (agg : Int)
    (outErr : Option DepositError) (sched : List Nat)
    (happ : ∃ a ∈ (depositMint env dp txRelayer d amounts agg outErr sched).trace,
      a.isApprovalOk env.receiptFailed = true) :
    ∃ receipt T2, (∀ e ∈ T2, e.isDeposit = false)
      ∧ depositMint env dp txRelayer d amounts agg outErr sched
          = depositLegs env dp txRelayer d amounts receipt T2 outErr sched := by
  have hno : ∀ tr : List Event, (∀ e ∈ tr, e.kind = .mint) →
      (∃ a ∈ tr, a.isApprovalOk env.receiptFailed = true) → False := by
    rintro tr htr ⟨a, ha, hok⟩
    have := Event.kind_of_isApprovalOk _ a hok
    rw [htr a ha] at this
    cases this
  revert happ
  unfold depositMint
  split
  · split
    · intro h
      exact (hno _ (by simp) h).elim
    · simp only
      split
      · intro h
        exact (hno _ (by simp) h).elim
      · split
        · intro h
          exact (hno _ (by simp) h).elim
        · split
          · intro h
            exact (hno _ (by simp) h).elim
          · intro h
            exact depositApprove_reaches_legs env dp txRelayer d amounts agg _ outErr sched
              (by simp) h
  · intro h
    exact depositApprove_reaches_legs env dp txRelayer d amounts agg [] outErr sched
      (by simp) h

/-- The run of the goroutines, when no index goes out of range: its legs, and a
final state that satisfies the invariant and in which every goroutine is done
unless the process panicked. -/
theorem depositLegs_final (env : DepositEnv) (dp : DepositParams) (txRelayer : TxRelayer)
    (d : Address) (amounts : List Int) (receipt : Receipt) (T : List Event)
    (outErr : Option DepositError) (sched : List Nat) (legs : List Leg)
    (hspawn : spawnLegs amounts dp.receivers 0 = (legs, false))
    (hT : ∀ e ∈ T, e.isDeposit = false) :
    (depositLegs env dp txRelayer d amounts receipt T outErr sched).legs = legs
      ∧ ∃ st, LegsInv env dp d legs st
          ∧ (depositLegs env dp txRelayer d amounts receipt T outErr sched).trace = st.trace
          ∧ (depositLegs env dp txRelayer d amounts receipt T outErr sched).pcs = st.pcs
          ∧ (depositLegs env dp txRelayer d amounts receipt T outErr sched).panicked
              = st.panicked
          ∧ (st.panicked = false → ∀ i, i < legs.length → ∃ r, st.pcs[i]? = some (.done r)) := by
  have hinv0 := legsInv_init env dp d legs (some receipt) T hT
  have hinv := legsInv_run env dp txRelayer d legs (sched ++ joinSchedule legs.length) _ hinv0
  have hdone : (runLegs env dp txRelayer d legs
        { pcs := List.replicate legs.length .spawned, receipt := some receipt,
          ctxDone := false, err := none, trace := T, panicked := false }
        (sched ++ joinSchedule legs.length)).panicked = false →
      ∀ i, i < legs.length → ∃ r, (runLegs env dp txRelayer d legs
        { pcs := List.replicate legs.length .spawned, receipt := some receipt,
          ctxDone := false, err := none, trace := T, panicked := false }
        (sched ++ joinSchedule legs.length)).pcs[i]? = some (.done r) := by
    rw [runLegs_append]
    intro hnp
    exact joinSchedule_done env dp txRelayer d legs legs.length (le_refl _) _
      (by rw [runLegs_length]; simp) hnp
  unfold depositLegs
  simp only [hspawn, Bool.false_eq_true, if_false]
  split
  · next hp => exact ⟨rfl, _, hinv, rfl, rfl, hp.symm, hdone⟩
  · next hp =>
    simp only [Bool.not_eq_true] at hp
    split <;> exact ⟨rfl, _, hinv, rfl, rfl, hp.symm, hdone⟩

/-- What holds of the legs in every run, whatever the relayer and the
interleaving: with the key and the relayer obtained, all amounts parsed, as many
receivers as amounts and a successful approval, zipping the receivers with the
parsed amounts never indexes out of range and gives the legs started, one per
receiver; every transaction a leg submits goes from the depositor to the root
predicate with the ABI encoding of depositTo(root token, receiver of the leg,
amount of the leg); a leg submits at most one; a leg that ended otherwise than
by the cancellation of the context, and whose call encodes, submitted exactly
one; a cancelled leg submitted none; and unless the process panics every leg
ends. -/
theorem deposit_legs_one_transaction_each (env : DepositEnv) (dp : DepositParams)
    (sched : List Nat) (key : Key) (txRelayer : TxRelayer) (vals : List Int)
    (hkey : (env.getRootchainPrivateKey dp.senderKey).1 = some key)
    (hrel : env.newTxRelayer dp.jsonRPCAddress = .ok txRelayer)
    (hparse : dp.amounts.map env.parseUint256orHex = vals.map Except.ok)
    (hlen : dp.receivers.length = dp.amounts.length)
    (happ : ∃ a ∈ (depositRunCommand env dp sched).trace,
      a.isApprovalOk env.receiptFailed = true) :
    spawnLegs vals dp.receivers 0 = (List.zipWith Leg.mk dp.receivers vals, false)
      ∧ (depositRunCommand env dp sched).legs = List.zipWith Leg.mk dp.receivers vals
      ∧ (depositRunCommand env dp sched).legs.length = dp.receivers.length
      ∧ (∀ e ∈ (depositRunCommand env dp sched).trace, ∀ i, e.isLeg i = true →
          ∃ leg input, (depositRunCommand env dp sched).legs[i]? = some leg
            ∧ env.encodeAbi (.depositTo (env.stringToAddress dp.rootTokenAddr)
                (env.stringToAddress leg.receiver) leg.amount) = .ok input
            ∧ e.txn = { sender := key.address,
                        dest := some (env.stringToAddress dp.rootPredicateAddr),
                        input := input })
      ∧ (∀ i leg, (depositRunCommand env dp sched).legs[i]? = some leg →
          ((depositRunCommand env dp sched).trace.filter (Event.isLeg i)).length ≤ 1
            ∧ (∀ r input, (depositRunCommand env dp sched).pcs[i]? = some (.done r) →
                r ≠ some .ctxCanceled →
                env.encodeAbi (.depositTo (env.stringToAddress dp.rootTokenAddr)
                  (env.stringToAddress leg.receiver) leg.amount) = .ok input →
                ∃ res, (depositRunCommand env dp sched).trace.filter (Event.isLeg i)
                  = [⟨.deposit i,
                      { sender := key.address,
                        dest := some (env.stringToAddress dp.rootPredicateAddr),
                        input := input }, res⟩])
            ∧ ((depositRunCommand env dp sched).pcs[i]? = some (.done (some .ctxCanceled)) →
                (depositRunCommand env dp sched).trace.filter (Event.isLeg i) = [])
            ∧ ((depositRunCommand env dp sched).panicked = false →
                ∃ r, (depositRunCommand env dp sched).pcs[i]? = some (.done r))) := by
  have hp := parseAmounts_ok env.parseUint256orHex dp.amounts vals hparse [] 0
  simp only [List.nil_append, zero_add] at hp
  have hrun : depositRunCommand env dp sched
      = depositMint env dp txRelayer key.address vals vals.sum
          (Option.map DepositError.depositorKey (env.getRootchainPrivateKey dp.senderKey).2)
          sched := by
    unfold depositRunCommand
    simp only [hkey, hrel, hp]
  rw [hrun] at happ ⊢
  obtain ⟨receipt, T, hT, hlegs⟩ := depositMint_reaches_legs env dp txRelayer key.address
    vals vals.sum _ sched happ
  rw [hlegs]
  have hvl : vals.length = dp.amounts.length := by
    have := congrArg List.length hparse
    simpa using this.symm
  have hspawn : spawnLegs vals dp.receivers 0
      = (List.zipWith Leg.mk dp.receivers vals, false) := by
    have := spawnLegs_eq vals dp.receivers 0 (by simp [hlen, hvl])
    simpa using this
  obtain ⟨hl, st, ⟨hplen, hinv, hnone⟩, htr, hpcs, hpan, hdone⟩ :=
    depositLegs_final env dp txRelayer key.address vals receipt T _ sched _ hspawn hT
  rw [hl, htr, hpcs, hpan]
  have hzl : (List.zipWith Leg.mk dp.receivers vals).length = dp.receivers.length := by
    simp [hlen, hvl]
  refine ⟨hspawn, rfl, hzl, ?_, ?_⟩
  · intro e he i hei
    have hmem : e ∈ st.trace.filter (Event.isLeg i) := List.mem_filter.mpr ⟨he, hei⟩
    cases hleg : (List.zipWith Leg.mk dp.receivers vals)[i]? with
    | none =>
      rw [hnone i hleg] at hmem
      simp at hmem
    | some leg =>
      have hi : i < st.pcs.length := by
        rw [hplen]
        by_contra hcon
        rw [List.getElem?_eq_none (by omega)] at hleg
        cases hleg
      obtain ⟨h1, h2, _⟩ := hinv i leg st.pcs[i] hleg (List.getElem?_eq_getElem hi)
      cases hs : st.pcs[i].hasSent with
      | false =>
        rw [h2 hs] at hmem
        simp at hmem
      | true =>
        obtain ⟨input, res, henc, hf⟩ := h1 hs
        rw [hf, List.mem_singleton] at hmem
        exact ⟨leg, input, rfl, henc, by rw [hmem]; rfl⟩
  · intro i leg hleg
    have hil : i < (List.zipWith Leg.mk dp.receivers vals).length := by
      by_contra hcon
      rw [List.getElem?_eq_none (by omega)] at hleg
      cases hleg
    have hi : i < st.pcs.length := by rw [hplen]; exact hil
    obtain ⟨h1, h2, h3⟩ := hinv i leg st.pcs[i] hleg (List.getElem?_eq_getElem hi)
    refine ⟨?_, ?_, ?_, fun hnp => hdone hnp i hil⟩
    · cases hs : st.pcs[i].hasSent with
      | false => simp [h2 hs]
      | true =>
        obtain ⟨input, res, _, hf⟩ := h1 hs
        simp [hf]
    · intro r input hpc hr henc
      rw [List.getElem?_eq_getElem hi, Option.some.injEq] at hpc
      have hs : st.pcs[i].hasSent = true := by
        rw [hpc]
        cases r with
        | none => rfl
        | some e =>
          cases e with
          | ctxCanceled => exact absurd rfl hr
          | createTxInput e2 =>
            have := h3 e2 (Or.inr hpc)
            rw [Leg.call, henc] at this
            cases this
          | sendFailed a b c => rfl
          | receiptFailed a b => rfl
      obtain ⟨input2, res, henc2, hf⟩ := h1 hs
      rw [Leg.call, henc, Except.ok.injEq] at henc2
      subst henc2
      exact ⟨res, hf⟩
    · intro hpc
      rw [List.getElem?_eq_getElem hi, Option.some.injEq] at hpc
      exact h2 (by rw [hpc]; rfl)

theorem deposit_legs_one_transaction_each_witness :
    (demoDepositParams false).receivers.length = (demoDepositParams false).amounts.length
      ∧ (depositRunCommand (demoDepositEnv (demoRelayer 2 ⟨some ⟨0, 6, []⟩, none⟩))
          (demoDepositParams false) [0, 1, 2, 0, 1, 2]).legs
        = List.zipWith Leg.mk (demoDepositParams false).receivers [10, 20, 30] :=
  ⟨rfl, (deposit_legs_one_transaction_each
    (demoDepositEnv (demoRelayer 2 ⟨some ⟨0, 6, []⟩, none⟩)) (demoDepositParams false)
    [0, 1, 2, 0, 1, 2] ⟨⟨77⟩⟩ (demoRelayer 2 ⟨some ⟨0, 6, []⟩, none⟩) [10, 20, 30]
    rfl rfl rfl rfl (by decide)).2.1⟩

/-- C4 (the code departs from it): receivers `[A, BB, CCC]`, amounts
`[10, 20, 30]`, only the deposit of BB is answered by a receipt with the failed
status. In the interleaving where BB and CCC both send before BB reads the shared
`receipt`, all three deposits are submitted, BB got the failed receipt, and the
command reports no error and sets its result. In the interleaving where A and
BB both send before A reads it, the error the command reports names A and the
amount 10. -/
theorem deposit_failed_leg_misreported :
    ((depositRunCommand (demoDepositEnv (demoRelayer 2 ⟨some ⟨0, 6, []⟩, none⟩))
          (demoDepositParams false) [1, 1, 2, 2, 1]).trace.map
        (fun e => (e.kind, e.result.receipt.map Receipt.status))
        = [(.approve, some 1), (.deposit 1, some 0), (.deposit 2, some 1), (.deposit 0, some 1)]
      ∧ (depositRunCommand (demoDepositEnv (demoRelayer 2 ⟨some ⟨0, 6, []⟩, none⟩))
          (demoDepositParams false) [1, 1, 2, 2, 1]).error = none
      ∧ (depositRunCommand (demoDepositEnv (demoRelayer 2 ⟨some ⟨0, 6, []⟩, none⟩))
          (demoDepositParams false) [1, 1, 2, 2, 1]).result
        = some ⟨⟨77⟩, ["A", "BB", "CCC"], ["10", "20", "30"]⟩
      ∧ (depositRunCommand (demoDepositEnv (demoRelayer 2 ⟨some ⟨0, 6, []⟩, none⟩))
          (demoDepositParams false) [1, 1, 2, 2, 1]).panicked = false)
    ∧ ((depositRunCommand (demoDepositEnv (demoRelayer 2 ⟨some ⟨0, 6, []⟩, none⟩))
          (demoDepositParams false) [0, 0, 1, 1, 0, 0]).trace.map
        (fun e => (e.kind, e.result.receipt.map Receipt.status))
        = [(.approve, some 1), (.deposit 0, some 1), (.deposit 1, some 0)]
      ∧ (depositRunCommand (demoDepositEnv (demoRelayer 2 ⟨some ⟨0, 6, []⟩, none⟩))
          (demoDepositParams false) [0, 0, 1, 1, 0, 0]).error
        = some (.deposits (.receiptFailed "A" 10))) := by
  decide

/-! ## The header hash -/

theorem decNat_encNat (n : Nat) (rest : List Nat) : decNat (encNat n ++ rest) = some (n, rest) := by
  induction n using Nat.strong_induction_on with
  | _ n ih =>
    unfold encNat
    by_cases h : n < 128
    · simp [h, decNat]
    · have h1 : ¬ (128 + n % 128 < 128) := by omega
      have h2 : 128 + n % 128 < 256 := by omega
      have h3 : 128 + n % 128 - 128 + 128 * (n / 128) = n := by omega
      simp only [h, if_false, List.cons_append, decNat, h1, h2, if_true,
        ih (n / 128) (by omega), h3]

theorem encNat_length_pos (n : Nat) : 1 ≤ (encNat n).length := by
  unfold encNat
  split <;> simp

theorem decBytes_encBytes (b rest : List Nat) :
    decBytes (encBytes b ++ rest) = some (b, rest) := by
  simp [decBytes, encBytes, List.append_assoc, decNat_encNat]

theorem encBytes_length_pos (b : List Nat) : 1 ≤ (encBytes b).length := by
  have := encNat_length_pos b.length
  simp only [encBytes, List.length_append]
  omega

theorem decSignature_encSignature (s : Signature) (rest : List Nat) :
    decSignature (encSignature s ++ rest) = some (s, rest) := by
  simp [decSignature, encSignature, List.append_assoc, decBytes_encBytes]

theorem decValidator_encValidator (v : ValidatorMetadata) (rest : List Nat) :
    decValidator (encValidator v ++ rest) = some (v, rest) := by
  obtain ⟨⟨a⟩, k, p, act⟩ := v
  cases act <;>
    simp [decValidator, encValidator, List.append_assoc, decNat_encNat, decBytes_encBytes]

theorem decValidators_encValidators (vs : List ValidatorMetadata) (rest : List Nat) :
    decValidators vs.length (encValidators vs ++ rest) = some (vs, rest) := by
  induction vs with
  | nil => simp [decValidators, encValidators]
  | cons v vs ih =>
    simp [decValidators, encValidators, List.append_assoc, decValidator_encValidator, ih]

theorem decDelta_encDelta (d : ValidatorSetDelta) (rest : List Nat) :
    decDelta (encDelta d ++ rest) = some (d, rest) := by
  simp [decDelta, encDelta, List.append_assoc, decNat_encNat, decValidators_encValidators,
    decBytes_encBytes]

theorem decCheckpoint_encCheckpoint (c : CheckpointData) (rest : List Nat) :
    decCheckpoint (encCheckpoint c ++ rest) = some (c, rest) := by
  simp [decCheckpoint, encCheckpoint, List.append_assoc, decNat_encNat, decBytes_encBytes]

/-- The round trip of the codec: decoding an encoded `Extra` gives it back. -/
theorem decodeExtra_encodeExtra (x : Extra) : decodeExtra (encodeExtra x) = some x := by
  have h := decSignature_encSignature x.committed []
  rw [List.append_nil] at h
  simp [decodeExtra, encodeExtra, List.append_assoc, decDelta_encDelta,
    decSignature_encSignature, decCheckpoint_encCheckpoint, h]

/-- No encoding of an `Extra` is shorter than `ExtraMinSize`. -/
theorem encodeExtra_length (x : Extra) : ExtraMinSize ≤ (encodeExtra x).length := by
  have h1 := encNat_length_pos x.validators.added.length
  have h2 := encBytes_length_pos x.validators.removed
  have h3 := encBytes_length_pos x.parent.aggregatedSignature
  have h4 := encBytes_length_pos x.parent.bitmap
  have h5 := encNat_length_pos x.checkpoint.epochNumber
  have h6 := encNat_length_pos x.checkpoint.blockStart
  have h7 := encNat_length_pos x.checkpoint.blockEnd
  have h8 := encBytes_length_pos x.checkpoint.eventRoot
  have h9 := encBytes_length_pos x.committed.aggregatedSignature
  have h10 := encBytes_length_pos x.committed.bitmap
  simp only [encodeExtra, encDelta, encSignature, encCheckpoint, List.length_append,
    ExtraMinSize]
  omega

/-- The minimum size is reached by the `Extra` whose fields are all empty or zero. -/
theorem encodeExtra_min_attained :
    (encodeExtra ⟨⟨[], []⟩, ⟨[], []⟩, ⟨0, 0, 0, []⟩, ⟨[], []⟩⟩).length = ExtraMinSize := by
  simp [encodeExtra, encDelta, encSignature, encCheckpoint, encBytes, encValidators, encNat,
    ExtraMinSize]

/-- C9: for every header, every digest and every `Extra`, the hash of the header
whose extra data encode the `Extra` with an empty `Committed` signature equals
the hash of the header whose extra data encode the same `Extra` with any
`Committed` signature; both are the digest of the header with `Committed`
stripped, not the sentinel. -/
theorem header_hash_ignores_committed (digest : Header → Hash) (h : Header) (x : Extra)
    (s : Signature) :
    HeaderHash digest { h with extraData := encodeExtra { x with committed := Signature.empty } }
        = HeaderHash digest { h with extraData := encodeExtra { x with committed := s } }
      ∧ HeaderHash digest { h with extraData := encodeExtra { x with committed := s } }
        = digest { h with extraData := encodeExtra { x with committed := Signature.empty } } := by
  have key : ∀ y : Extra, HeaderHash digest { h with extraData := encodeExtra y }
      = digest { h with extraData := encodeExtra { y with committed := Signature.empty } } := by
    intro y
    have hlen : ¬ ((encodeExtra y).length < ExtraMinSize) := by
      have := encodeExtra_length y
      omega
    simp only [HeaderHash, hlen, if_false, decodeExtra_encodeExtra]
  exact ⟨by rw [key, key], by rw [key]⟩

/-- C10: a header whose extra data are shorter than the minimum valid structure
size hashes to the all-zero hash, whatever the digest; the hash is a total
function, so nothing is raised. -/
theorem header_hash_short_extra_is_zero (digest : Header → Hash) (h : Header)
    (hshort : h.extraData.length < ExtraMinSize) :
    HeaderHash digest h = ZeroHash := by
  simp [HeaderHash, hshort]

theorem header_hash_short_extra_is_zero_witness :
    (testHeader [1, 2, 3, 4, 100, 200, 255]).extraData.length < ExtraMinSize
      ∧ HeaderHash (fun h => ⟨h.extraData⟩) (testHeader [1, 2, 3, 4, 100, 200, 255])
        = ZeroHash :=
  ⟨by decide, header_hash_short_extra_is_zero (fun h => ⟨h.extraData⟩)
    (testHeader [1, 2, 3, 4, 100, 200, 255]) (by decide)⟩

/-! ## The secrets helpers -/

theorem toBytesBE_length (len n : Nat) : (toBytesBE len n).length = len := by
  induction len generalizing n with
  | zero => rfl
  | succ k ih => simp [toBytesBE, ih]

theorem fromBytesBE_append_one (l : List Nat) (b : Nat) :
    fromBytesBE (l ++ [b]) = fromBytesBE l * 256 + b := by
  simp [fromBytesBE, List.foldl_append]

theorem fromBytesBE_toBytesBE (len n : Nat) :
    fromBytesBE (toBytesBE len n) = n % 256 ^ len := by
  induction len generalizing n with
  | zero => simp [toBytesBE, fromBytesBE, Nat.mod_one]
  | succ k ih =>
    rw [toBytesBE, fromBytesBE_append_one, ih, Nat.pow_succ, Nat.mul_comm (256 ^ k) 256,
      Nat.mod_mul, Nat.mul_comm, Nat.add_comm]

theorem toBytesBE_inj (len n m : Nat) (hn : n < 256 ^ len) (hm : m < 256 ^ len)
    (h : toBytesBE len n = toBytesBE len m) : n = m := by
  have := congrArg fromBytesBE h
  rwa [fromBytesBE_toBytesBE, fromBytesBE_toBytesBE, Nat.mod_eq_of_lt hn,
    Nat.mod_eq_of_lt hm] at this

theorem MakeKOSKSignature_eq (sign : List Nat → List Nat → List Nat → Except String (List Nat))
    (key : List Nat) (a : Address) (c : Int) (domain : List Nat)
    (h0 : 0 ≤ c) (h1 : c < 2 ^ 256) :
    MakeKOSKSignature sign key a c domain
      = (sign key (toBytesBE 20 a.val ++ toBytesBE 32 c.toNat) domain,
          [⟨toBytesBE 20 a.val ++ toBytesBE 32 c.toNat, domain⟩]) := by
  have hmod : c % 2 ^ 256 = c := Int.emod_eq_of_lt h0 h1
  have hdrop : (List.replicate 12 0 ++ toBytesBE 20 a.val ++ toBytesBE 32 c.toNat).drop 12
      = toBytesBE 20 a.val ++ toBytesBE 32 c.toNat := by
    rw [List.append_assoc]
    exact List.drop_left' (by simp)
  simp only [MakeKOSKSignature, abiEncodeAddressUint256, hmod, hdrop]

/-- C11: for a chain ID from 0 to below 2^256, `MakeKOSKSignature` calls `Sign`
once, under the domain it was given, on the message made of the 20 bytes of the
address followed by the 32 bytes of the big-endian chain ID, 52 bytes in all,
and returns what `Sign` returns; two such messages of 20-byte addresses are
equal only if addresses and chain IDs are; and every call of `Sign` that
`InitValidatorBLSSignature` makes is under `bls.DomainValidatorSet`, on the
message of the account address and the chain ID when the secret is not there. -/
theorem kosk_signs_address_and_chain_id
    (sign : List Nat → List Nat → List Nat → Except String (List Nat))
    (key domain : List Nat) (a1 a2 : Address) (c1 c2 : Int)
    (ha1 : a1.val < 2 ^ 160) (ha2 : a2.val < 2 ^ 160)
    (hc1 : 0 ≤ c1) (hc1u : c1 < 2 ^ 256) (hc2 : 0 ≤ c2) (hc2u : c2 < 2 ^ 256) :
    MakeKOSKSignature sign key a1 c1 domain
        = (sign key (toBytesBE 20 a1.val ++ toBytesBE 32 c1.toNat) domain,
            [⟨toBytesBE 20 a1.val ++ toBytesBE 32 c1.toNat, domain⟩])
      ∧ (toBytesBE 20 a1.val ++ toBytesBE 32 c1.toNat).length = 52
      ∧ (toBytesBE 20 a1.val ++ toBytesBE 32 c1.toNat
            = toBytesBE 20 a2.val ++ toBytesBE 32 c2.toNat → a1 = a2 ∧ c1 = c2)
      ∧ (∀ (σ : Type) (deps : SecretsDeps) (sm : SecretsManager σ) (st : σ) (account : Account),
          (∀ call ∈ (InitValidatorBLSSignature deps sm st account c1).signCalls,
              call.domain = deps.domainValidatorSet)
            ∧ (sm.hasSecret st deps.validatorBLSSignature = false →
                (InitValidatorBLSSignature deps sm st account c1).signCalls
                  = [⟨toBytesBE 20 account.ecdsa.address.val ++ toBytesBE 32 c1.toNat,
                      deps.domainValidatorSet⟩])) := by
  refine ⟨MakeKOSKSignature_eq sign key a1 c1 domain hc1 hc1u, ?_, ?_, ?_⟩
  · simp [toBytesBE_length]
  · intro h
    obtain ⟨h1, h2⟩ := List.append_inj h (by simp [toBytesBE_length])
    have e1 : a1.val = a2.val :=
      toBytesBE_inj 20 _ _ (by norm_num at ha1 ⊢; exact ha1) (by norm_num at ha2 ⊢; exact ha2) h1
    have b1 : c1.toNat < 256 ^ 32 := by
      have hu := hc1u
      norm_num at hu ⊢
      omega
    have b2 : c2.toNat < 256 ^ 32 := by
      have hu := hc2u
      norm_num at hu ⊢
      omega
    have e2 : c1.toNat = c2.toNat := toBytesBE_inj 32 _ _ b1 b2 h2
    refine ⟨?_, ?_⟩
    · cases a1
      cases a2
      simp only [Address.mk.injEq]
      exact e1
    · rw [← Int.toNat_of_nonneg hc1, ← Int.toNat_of_nonneg hc2, e2]
  · intro σ deps sm st account
    have hk := MakeKOSKSignature_eq deps.sign account.bls account.ecdsa.address c1
      deps.domainValidatorSet hc1 hc1u
    unfold InitValidatorBLSSignature
    by_cases hs : sm.hasSecret st deps.validatorBLSSignature = true
    · simp [hs]
    · simp only [hs, Bool.false_eq_true, if_false, hk]
      refine ⟨?_, fun _ => ?_⟩
      · intro call hcall
        split at hcall
        · simp only [List.mem_singleton] at hcall
          rw [hcall]
        · split at hcall
          · simp only [List.mem_singleton] at hcall
            rw [hcall]
          · split at hcall <;>
            · simp only [List.mem_singleton] at hcall
              rw [hcall]
      · split
        · rfl
        · split
          · rfl
          · split <;> rfl

theorem kosk_signs_address_and_chain_id_witness :
    ((258 : Nat) < 2 ^ 160 ∧ (0 : Int) ≤ 2124 ∧ (2124 : Int) < 2 ^ 256)
      ∧ (toBytesBE 20 258 ++ toBytesBE 32 (2124 : Int).toNat).length = 52 :=
  ⟨⟨by norm_num, by norm_num, by norm_num⟩,
   (kosk_signs_address_and_chain_id demoSecretsDeps.sign [3, 4] [100] ⟨258⟩ ⟨259⟩ 2124 2125
      (by norm_num) (by norm_num) (by norm_num) (by norm_num) (by norm_num)
      (by norm_num)).2.1⟩

/-- C12: each of the four `Init...` helpers, called on a secrets manager that
already has the secret of its name, returns the "already initialized" error
with the zero or nil value, makes no call of `SetSecret` (nor of `Sign`), and
leaves the store as it was, so every secret reads as before. -/
theorem init_refuses_existing_secret {σ : Type} (deps : SecretsDeps)
    (sm : SecretsManager σ) (st : σ) (account : Account) (chainID : Int) :
    (sm.hasSecret st deps.validatorKey = true →
        (InitECDSAValidatorKey deps sm st).err = some (.alreadyInitialized deps.validatorKey)
          ∧ (InitECDSAValidatorKey deps sm st).value = ZeroAddress
          ∧ (InitECDSAValidatorKey deps sm st).setCalls = []
          ∧ (InitECDSAValidatorKey deps sm st).state = st)
      ∧ (sm.hasSecret st deps.validatorBLSKey = true →
          (InitBLSValidatorKey deps sm st).err
              = some (.alreadyInitialized deps.validatorBLSKey)
            ∧ (InitBLSValidatorKey deps sm st).value = none
            ∧ (InitBLSValidatorKey deps sm st).setCalls = []
            ∧ (InitBLSValidatorKey deps sm st).state = st)
      ∧ (sm.hasSecret st deps.networkKey = true →
          (InitNetworkingPrivateKey deps sm st).err
              = some (.alreadyInitialized deps.networkKey)
            ∧ (InitNetworkingPrivateKey deps sm st).value = none
            ∧ (InitNetworkingPrivateKey deps sm st).setCalls = []
            ∧ (InitNetworkingPrivateKey deps sm st).state = st)
      ∧ (sm.hasSecret st deps.validatorBLSSignature = true →
          (InitValidatorBLSSignature deps sm st account chainID).err
              = some (.alreadyInitialized deps.validatorBLSSignature)
            ∧ (InitValidatorBLSSignature deps sm st account chainID).value = none
            ∧ (InitValidatorBLSSignature deps sm st account chainID).setCalls = []
            ∧ (InitValidatorBLSSignature deps sm st account chainID).signCalls = []
            ∧ (InitValidatorBLSSignature deps sm st account chainID).state = st) := by
  refine ⟨?_, ?_, ?_, ?_⟩
  · intro h
    simp [InitECDSAValidatorKey, h]
  · intro h
    simp [InitBLSValidatorKey, h]
  · intro h
    simp [InitNetworkingPrivateKey, h]
  · intro h
    simp [InitValidatorBLSSignature, h]

theorem init_refuses_existing_secret_witness :
    demoSecretsManager.hasSecret [("validator-key", [9]), ("network-key", [8])]
        demoSecretsDeps.validatorKey = true
      ∧ (InitECDSAValidatorKey demoSecretsDeps demoSecretsManager
          [("validator-key", [9]), ("network-key", [8])]).state
        = [("validator-key", [9]), ("network-key", [8])]
      ∧ (InitNetworkingPrivateKey demoSecretsDeps demoSecretsManager
          [("validator-key", [9]), ("network-key", [8])]).setCalls = [] :=
  ⟨by decide,
   ((init_refuses_existing_secret demoSecretsDeps demoSecretsManager
      [("validator-key", [9]), ("network-key", [8])] ⟨[3, 4], ⟨⟨258⟩⟩⟩ 2124).1
        (by decide)).2.2.2,
   ((init_refuses_existing_secret demoSecretsDeps demoSecretsManager
      [("validator-key", [9]), ("network-key", [8])] ⟨[3, 4], ⟨⟨258⟩⟩⟩ 2124).2.2.1
        (by decide)).2.2.1⟩

/-! ## The uptime helper -/

theorem Uptime.addAll_data (calls : List (Address × Int)) (u : Uptime) :
    (u.addAll calls).uptimeData = u.uptimeData ++ calls.map (fun c => ⟨c.1, c.2⟩) := by
  induction calls generalizing u with
  | nil => simp [Uptime.addAll]
  | cons c rest ih =>
    have h := ih (u.AddValidatorUptime c.1 c.2)
    simp only [Uptime.addAll, List.foldl_cons] at h ⊢
    rw [h]
    simp [Uptime.AddValidatorUptime]

/-- C13 fails as stated: two calls of `AddValidatorUptime` with the same address
on the empty `Uptime` leave two entries for that address. -/
theorem uptime_same_address_twice :
    ((Uptime.mk []).addAll [(⟨1⟩, 5), (⟨1⟩, 7)]).uptimeData = [⟨⟨1⟩, 5⟩, ⟨⟨1⟩, 7⟩]
      ∧ ¬ (((Uptime.mk []).addAll [(⟨1⟩, 5), (⟨1⟩, 7)]).entriesOf ⟨1⟩ ≤ 1) := by
  decide

/-- C13 as amended: after any sequence of `AddValidatorUptime` calls on the
empty `Uptime`, with or without repeated addresses, `UptimeData` holds one entry
per call, in the order of the calls, and an address has as many entries as
calls were made with it; so every address has at most one entry when, and only
when, no two calls name the same address. -/
theorem uptime_one_entry_per_call (calls : List (Address × Int)) :
    ((Uptime.mk []).addAll calls).uptimeData = calls.map (fun c => ⟨c.1, c.2⟩)
      ∧ ((Uptime.mk []).addAll calls).uptimeData.length = calls.length
      ∧ (∀ a, ((Uptime.mk []).addAll calls).entriesOf a = (calls.map Prod.fst).count a)
      ∧ ((∀ a, ((Uptime.mk []).addAll calls).entriesOf a ≤ 1)
          ↔ (calls.map Prod.fst).Nodup) := by
  have hdata : ((Uptime.mk []).addAll calls).uptimeData = calls.map (fun c => ⟨c.1, c.2⟩) := by
    rw [Uptime.addAll_data]
    rfl
  have hcount : ∀ a, ((Uptime.mk []).addAll calls).entriesOf a
      = (calls.map Prod.fst).count a := by
    intro a
    unfold Uptime.entriesOf
    rw [hdata]
    clear hdata
    induction calls with
    | nil => rfl
    | cons c rest ih =>
      simp only [List.map_cons, List.filter_cons, List.count_cons]
      by_cases hc : c.1 = a
      · simp [hc, ih]
      · simp [hc, ih]
  refine ⟨hdata, by rw [hdata, List.length_map], hcount, ?_⟩
  rw [List.nodup_iff_count_le_one]
  constructor
  · intro h a
    rw [← hcount a]
    exact h a
  · intro h a
    rw [hcount a]
    exact h a

theorem uptime_one_entry_per_call_witness :
    ((Uptime.mk []).addAll [(⟨1⟩, 5), (⟨1⟩, 7), (⟨2⟩, 9)]).uptimeData
        = [⟨⟨1⟩, 5⟩, ⟨⟨1⟩, 7⟩, ⟨⟨2⟩, 9⟩]
      ∧ ((Uptime.mk []).addAll [(⟨1⟩, 5), (⟨1⟩, 7), (⟨2⟩, 9)]).entriesOf ⟨1⟩ = 2
      ∧ ([((⟨1⟩ : Address), (5 : Int)), (⟨2⟩, 7)].map Prod.fst).Nodup
      ∧ ∀ a, ((Uptime.mk []).addAll [(⟨1⟩, 5), (⟨2⟩, 7)]).entriesOf a ≤ 1 :=
  ⟨(uptime_one_entry_per_call [(⟨1⟩, 5), (⟨1⟩, 7), (⟨2⟩, 9)]).1,
   (uptime_one_entry_per_call [(⟨1⟩, 5), (⟨1⟩, 7), (⟨2⟩, 9)]).2.2.1 ⟨1⟩,
   by decide,
   (uptime_one_entry_per_call [(⟨1⟩, 5), (⟨2⟩, 7)]).2.2.2.2 (by decide)⟩

/-- C16: `AddValidatorUptime(address, count)` gives the `UptimeData` it was
called on followed by the one entry with `Validator = address` and
`SignedBlocks = count`: the length grows by one, the entries that were there are
the first ones of the result, unchanged and in place, and the last entry is the
new one. -/
theorem addValidatorUptime_appends (u : Uptime) (address : Address) (count : Int) :
    (u.AddValidatorUptime address count).uptimeData = u.uptimeData ++ [⟨address, count⟩]
      ∧ (u.AddValidatorUptime address count).uptimeData.length = u.uptimeData.length + 1
      ∧ (u.AddValidatorUptime address count).uptimeData.take u.uptimeData.length
          = u.uptimeData
      ∧ (∀ i, (u.AddValidatorUptime address count).uptimeData[i]?
          = if i < u.uptimeData.length then u.uptimeData[i]?
            else if i = u.uptimeData.length then some ⟨address, count⟩ else none) := by
  refine ⟨rfl, by simp [Uptime.AddValidatorUptime], by simp [Uptime.AddValidatorUptime], ?_⟩
  intro i
  simp only [Uptime.AddValidatorUptime]
  by_cases h1 : i < u.uptimeData.length
  · simp [h1, List.getElem?_append_left h1]
  · by_cases h2 : i = u.uptimeData.length
    · subst h2
      simp
    · have h3 : u.uptimeData.length + 1 ≤ i := by omega
      simp only [h1, h2, if_false]
      exact List.getElem?_eq_none (by simp; omega)

/-! ## The genesis validator -/

/-- C14: for a validator whose `BlsKey` hex-decodes to bytes that unmarshal to a
BLS public key and whose `Stake` is set, `ToValidatorMetadata` returns the
metadata with the address of the validator, that key, a voting power equal to
the stake and `IsActive` true; and it returns an error exactly when the key
fails to hex-decode, or decodes and fails to unmarshal. -/
theorem toValidatorMetadata_ok (deps : Config.ConfigDeps) (v : Config.Validator)
    (decoded key : List Nat) (stake : Int)
    (hhex : deps.hexDecodeString v.blsKey = .ok decoded)
    (hkey : deps.unmarshalPublicKey decoded = .ok key)
    (hstake : v.stake = some stake) :
    v.ToValidatorMetadata deps
        = .ok { address := v.address, blsKey := key, votingPower := stake, isActive := true }
      ∧ (∀ w : Config.Validator, (∃ e, w.ToValidatorMetadata deps = .error e)
          ↔ ((∃ e, deps.hexDecodeString w.blsKey = .error e)
              ∨ ∃ d e, deps.hexDecodeString w.blsKey = .ok d
                  ∧ deps.unmarshalPublicKey d = .error e)) := by
  refine ⟨?_, ?_⟩
  · simp [Config.Validator.ToValidatorMetadata, Config.Validator.UnmarshalBLSPublicKey,
      hhex, hkey, hstake]
  · intro w
    unfold Config.Validator.ToValidatorMetadata Config.Validator.UnmarshalBLSPublicKey
    cases h1 : deps.hexDecodeString w.blsKey with
    | error e => simp
    | ok d =>
      cases h2 : deps.unmarshalPublicKey d with
      | error e => simp [h2]
      | ok k =>
        cases h3 : w.stake with
        | none => simp [h2]
        | some st => simp [h2]

theorem toValidatorMetadata_ok_witness :
    Config.demoConfigDeps.hexDecodeString Config.demoValidator.blsKey = .ok [10, 27]
      ∧ Config.demoValidator.ToValidatorMetadata Config.demoConfigDeps
        = .ok { address := ⟨258⟩, blsKey := [10, 27], votingPower := 16, isActive := true } :=
  ⟨rfl, (toValidatorMetadata_ok Config.demoConfigDeps Config.demoValidator [10, 27] [10, 27]
    16 rfl rfl rfl).1⟩

theorem hexVal_digitChar (d : Nat) (h : d < 16) : Config.hexVal (Nat.digitChar d) = some d := by
  interval_cases d <;> decide

theorem hexNumber_toDigitsCore (fuel n : Nat) (ds : List Char) (h : n < fuel) :
    Config.hexNumber (Nat.toDigitsCore 16 fuel n ds) 0 = Config.hexNumber ds n := by
  induction fuel generalizing n ds with
  | zero => omega
  | succ f ih =>
    have hd := hexVal_digitChar (n % 16) (Nat.mod_lt _ (by norm_num))
    unfold Nat.toDigitsCore
    by_cases h0 : n / 16 = 0
    · have hn : n % 16 = n := Nat.mod_eq_of_lt (by omega)
      rw [hn] at hd
      simp only [h0, if_true, hn, Config.hexNumber, hd]
      simp
    · have hlt : n / 16 < f := by omega
      simp only [h0, if_false]
      rw [ih (n / 16) _ hlt]
      simp only [Config.hexNumber, hd]
      congr 1
      omega

/-- The hexadecimal parser of the concrete setting reads back what its encoder
writes for a non-negative integer. -/
theorem demoConfigDeps_number_law (n : Int) (h : 0 ≤ n) :
    Config.demoConfigDeps.parseUint256orHex (Config.demoConfigDeps.encodeBigInt (some n))
      = (some n, none) := by
  show Config.demoParseUint256orHex (Config.demoEncodeBigInt (some n)) = (some n, none)
  cases n with
  | ofNat m =>
    have := hexNumber_toDigitsCore (m + 1) m [] (by omega)
    simp only [Config.hexNumber] at this
    simp only [Config.demoEncodeBigInt, Config.demoParseUint256orHex, Nat.toDigits, this]
  | negSucc m => exact absurd h (by simp [Int.negSucc_lt_zero])

theorem demoDecString_demoEncString (s : String) (rest : List Nat) :
    Config.demoDecString (Config.demoEncString s ++ rest) = some (s, rest) := by
  obtain ⟨l⟩ := s
  have hlen : (String.mk l).length = (l.map Char.toNat).length := by
    rw [List.length_map]
    rfl
  have hmap : (l.map Char.toNat).map Char.ofNat = l := by
    rw [List.map_map]
    conv_rhs => rw [← List.map_id l]
    apply List.map_congr_left
    intro c _
    simp
  simp only [Config.demoEncString, Config.demoDecString, List.cons_append, hlen]
  rw [if_neg (by rw [List.length_append]; omega), List.take_left, List.drop_left, hmap]

theorem demoDecOptString_demoEncOptString (o : Option String) (rest : List Nat) :
    Config.demoDecOptString (Config.demoEncOptString o ++ rest) = some (o, rest) := by
  cases o with
  | none => simp [Config.demoEncOptString, Config.demoDecOptString]
  | some s =>
    simp [Config.demoEncOptString, Config.demoDecOptString, demoDecString_demoEncString]

/-- The serialization of the concrete setting reads back what it writes. -/
theorem demoConfigDeps_json_law (raw : Config.validatorRaw) (d : List Nat)
    (h : Config.demoConfigDeps.jsonMarshal raw = .ok d) :
    Config.demoConfigDeps.jsonUnmarshal d = .ok raw := by
  show Config.demoJsonUnmarshal d = .ok raw
  change Config.demoJsonMarshal raw = .ok d at h
  simp only [Config.demoJsonMarshal, Except.ok.injEq] at h
  subst h
  have h5 := demoDecString_demoEncString raw.multiAddr []
  rw [List.append_nil] at h5
  simp only [Config.demoJsonUnmarshal, List.append_assoc, demoDecString_demoEncString,
    demoDecOptString_demoEncOptString, h5]

/-- C19: when `json.Unmarshal` reads back every `validatorRaw` that `json.Marshal`
wrote, and `ParseUint256orHex` reads back, without error, every non-negative
integer from what `EncodeBigInt` wrote for it, then for every validator `v` with
non-nil, non-negative balance and stake, `UnmarshalJSON` on the output of
`v.MarshalJSON()` returns no error and leaves the receiver with the `Address`,
`BlsKey`, `BlsSignature`, `MultiAddr`, `Balance` and `Stake` of `v`, its BLS
private key untouched. -/
theorem validator_json_round_trip (deps : Config.ConfigDeps) (v v0 : Config.Validator)
    (data : List Nat) (balance stake : Int)
    (hjson : ∀ raw d, deps.jsonMarshal raw = .ok d → deps.jsonUnmarshal d = .ok raw)
    (hnum : ∀ n : Int, 0 ≤ n →
      deps.parseUint256orHex (deps.encodeBigInt (some n)) = (some n, none))
    (hbal : v.balance = some balance) (hbal0 : 0 ≤ balance)
    (hstk : v.stake = some stake) (hstk0 : 0 ≤ stake)
    (hmarshal : v.MarshalJSON deps = .ok data) :
    (v0.UnmarshalJSON deps data).2 = none
      ∧ (v0.UnmarshalJSON deps data).1.address = v.address
      ∧ (v0.UnmarshalJSON deps data).1.blsKey = v.blsKey
      ∧ (v0.UnmarshalJSON deps data).1.blsSignature = v.blsSignature
      ∧ (v0.UnmarshalJSON deps data).1.multiAddr = v.multiAddr
      ∧ (v0.UnmarshalJSON deps data).1.balance = v.balance
      ∧ (v0.UnmarshalJSON deps data).1.stake = v.stake
      ∧ (v0.UnmarshalJSON deps data).1.blsPrivateKey = v0.blsPrivateKey := by
  have hj := hjson (v.raw deps) data hmarshal
  have hpb := hnum balance hbal0
  have hps := hnum stake hstk0
  simp [Config.Validator.UnmarshalJSON, hj, Config.Validator.raw, hbal, hstk, hpb, hps]

theorem validator_json_round_trip_witness :
    Config.demoValidator.MarshalJSON Config.demoConfigDeps
        = .ok [258, 4, 48, 97, 49, 66, 4, 99, 48, 100, 101, 1, 4, 48, 120, 102, 102, 1, 4, 48,
            120, 49, 48, 4, 47, 105, 112, 52]
      ∧ ((⟨⟨0⟩, some [1], "", "", none, none, ""⟩ : Config.Validator).UnmarshalJSON
          Config.demoConfigDeps
          [258, 4, 48, 97, 49, 66, 4, 99, 48, 100, 101, 1, 4, 48, 120, 102, 102, 1, 4, 48,
            120, 49, 48, 4, 47, 105, 112, 52]).1.stake
        = some 16 :=
  ⟨by rfl, (validator_json_round_trip Config.demoConfigDeps Config.demoValidator
    ⟨⟨0⟩, some [1], "", "", none, none, ""⟩
    [258, 4, 48, 97, 49, 66, 4, 99, 48, 100, 101, 1, 4, 48, 120, 102, 102, 1, 4, 48,
      120, 49, 48, 4, 47, 105, 112, 52]
    255 16 demoConfigDeps_json_law demoConfigDeps_number_law rfl (by decide) rfl (by decide)
    (by rfl)).2.2.2.2.2.2.1⟩

/-- C20: two validators that agree on every field but `BlsPrivateKey` have the
same `MarshalJSON` output (bytes or error) and the same `String` text, whatever
the JSON encoder and the formatting of addresses and integers. -/
theorem validator_output_ignores_private_key (deps : Config.ConfigDeps)
    (v w : Config.Validator)
    (haddr : v.address = w.address) (hkey : v.blsKey = w.blsKey)
    (hsig : v.blsSignature = w.blsSignature) (hbal : v.balance = w.balance)
    (hstk : v.stake = w.stake) (hmulti : v.multiAddr = w.multiAddr) :
    v.MarshalJSON deps = w.MarshalJSON deps ∧ v.string deps = w.string deps := by
  simp [Config.Validator.MarshalJSON, Config.Validator.raw, Config.Validator.string,
    haddr, hkey, hsig, hbal, hstk, hmulti]

theorem validator_output_ignores_private_key_witness :
    Config.demoValidator.blsPrivateKey ≠ none
      ∧ Config.demoValidator.string Config.demoConfigDeps
        = ({ Config.demoValidator with blsPrivateKey := none } : Config.Validator).string
            Config.demoConfigDeps :=
  ⟨by decide, (validator_output_ignores_private_key Config.demoConfigDeps Config.demoValidator
    { Config.demoValidator with blsPrivateKey := none } rfl rfl rfl rfl rfl rfl).2⟩

/-! ## The two commands again -/

/-- C5 (the code departs from it): receivers `[A, BB, CCC]`, amounts
`[10, 20, 30]`, as many receivers as amounts, the approval mined with success,
the three legs started for the pairs (A, 10), (BB, 20), (CCC, 30). The deposit
of BB is answered by a send error and a nil receipt. In the interleaving where A
sends, BB sends, and A then tests `receipt.Status`, A reads the nil receipt that
BB wrote to the shared variable and the process panics: no leg has returned, so
the context was never cancelled, and the leg of CCC, started and not cancelled,
has submitted no transaction. -/
theorem deposit_leg_lost_to_panic :
    (demoDepositParams false).receivers.length = (demoDepositParams false).amounts.length
      ∧ (depositRunCommand (demoDepositEnv (demoRelayer 2 ⟨none, some "timeout"⟩))
          (demoDepositParams false) [0, 0, 1, 1, 0]).trace.map
          (fun e => (e.kind, e.isApprovalOk 0))
        = [(.approve, true), (.deposit 0, false), (.deposit 1, false)]
      ∧ (depositRunCommand (demoDepositEnv (demoRelayer 2 ⟨none, some "timeout"⟩))
          (demoDepositParams false) [0, 0, 1, 1, 0]).legs
        = [⟨"A", 10⟩, ⟨"BB", 20⟩, ⟨"CCC", 30⟩]
      ∧ (depositRunCommand (demoDepositEnv (demoRelayer 2 ⟨none, some "timeout"⟩))
          (demoDepositParams false) [0, 0, 1, 1, 0]).panicked = true
      ∧ (depositRunCommand (demoDepositEnv (demoRelayer 2 ⟨none, some "timeout"⟩))
          (demoDepositParams false) [0, 0, 1, 1, 0]).pcs
        = [.sent none, .sent (some "timeout"), .spawned]
      ∧ (depositRunCommand (demoDepositEnv (demoRelayer 2 ⟨none, some "timeout"⟩))
          (demoDepositParams false) [0, 0, 1, 1, 0]).trace.filter (Event.isLeg 2) = []
      ∧ (depositRunCommand (demoDepositEnv (demoRelayer 2 ⟨none, some "timeout"⟩))
          (demoDepositParams false) [0, 0, 1, 1, 0]).result = none := by
  decide

/-- C15 (the code departs from it): receivers `[A, BB, CCC]`, amounts
`[10, 20, 30]`. With only the deposit of BB answered by a failed receipt: in the
interleaving where BB and CCC both send before BB reads the shared `receipt`,
the leg of BB, whose own receipt has the failed status, returns no error; in the
interleaving where A and BB both send before A reads it, the leg of A, whose own
receipt is a success, returns an error. With the deposit of BB answered by a
send error and a nil receipt, and A reading after it, the process panics. -/
theorem deposit_leg_reads_foreign_receipt :
    (((depositRunCommand (demoDepositEnv (demoRelayer 2 ⟨some ⟨0, 6, []⟩, none⟩))
          (demoDepositParams false) [1, 1, 2, 2, 1]).trace.filter (Event.isLeg 1)).map
        (fun e => e.result) = [⟨some ⟨0, 6, []⟩, none⟩]
      ∧ (depositRunCommand (demoDepositEnv (demoRelayer 2 ⟨some ⟨0, 6, []⟩, none⟩))
          (demoDepositParams false) [1, 1, 2, 2, 1]).pcs[1]? = some (.done none))
    ∧ (((depositRunCommand (demoDepositEnv (demoRelayer 2 ⟨some ⟨0, 6, []⟩, none⟩))
          (demoDepositParams false) [0, 0, 1, 1, 0, 0]).trace.filter (Event.isLeg 0)).map
        (fun e => e.result) = [⟨some ⟨1, 5, []⟩, none⟩]
      ∧ (depositRunCommand (demoDepositEnv (demoRelayer 2 ⟨some ⟨0, 6, []⟩, none⟩))
          (demoDepositParams false) [0, 0, 1, 1, 0, 0]).pcs[0]?
        = some (.done (some (.receiptFailed "A" 10))))
    ∧ (((depositRunCommand (demoDepositEnv (demoRelayer 2 ⟨none, some "timeout"⟩))
          (demoDepositParams false) [0, 0, 1, 1, 0]).trace.filter (Event.isLeg 0)).map
        (fun e => e.result) = [⟨some ⟨1, 5, []⟩, none⟩]
      ∧ (depositRunCommand (demoDepositEnv (demoRelayer 2 ⟨none, some "timeout"⟩))
          (demoDepositParams false) [0, 0, 1, 1, 0]).panicked = true) := by
  decide

/-- C17 (the code departs from it): when `GetRootchainPrivateKey` returns a nil
key and an error, the command sets the error and, for want of a `return`, goes
on to call `Address()` on the nil key and panics; no transaction was submitted
yet and no result is set. -/
theorem deposit_key_failure_goes_on :
    (depositRunCommand (demoDepositEnvNoKey (demoRelayer 2 ⟨some ⟨0, 6, []⟩, none⟩))
        (demoDepositParams false) []).panicked = true
      ∧ (depositRunCommand (demoDepositEnvNoKey (demoRelayer 2 ⟨some ⟨0, 6, []⟩, none⟩))
          (demoDepositParams false) []).error
        = some (.depositorKey "failed to decode private key string")
      ∧ (depositRunCommand (demoDepositEnvNoKey (demoRelayer 2 ⟨some ⟨0, 6, []⟩, none⟩))
          (demoDepositParams false) []).trace = []
      ∧ (depositRunCommand (demoDepositEnvNoKey (demoRelayer 2 ⟨some ⟨0, 6, []⟩, none⟩))
          (demoDepositParams false) []).result = none := by
  decide

theorem scanLogs_first (parseLog : Log → ParseLogResult) (pre post : List Log) (log : Log)
    (hpre : ∀ l ∈ pre, (parseLog l).doesMatch = false)
    (hm : (parseLog log).doesMatch = true) :
    scanLogs parseLog (pre ++ log :: post)
      = match (parseLog log).err with
        | some e => .error e
        | none => .ok (some (parseLog log).validator) := by
  induction pre with
  | nil => simp [scanLogs, hm]
  | cons l rest ih =>
    have h1 := hpre l (List.mem_cons_self _ _)
    have h2 := ih (fun x hx => hpre x (List.mem_cons_of_mem _ hx))
    simp [scanLogs, h1, h2]

theorem scanLogs_found_first (parseLog : Log → ParseLogResult) (logs : List Log) (v : Address)
    (h : scanLogs parseLog logs = .ok (some v)) :
    ∃ pre log post, logs = pre ++ log :: post
      ∧ (∀ l ∈ pre, (parseLog l).doesMatch = false)
      ∧ (parseLog log).doesMatch = true ∧ (parseLog log).err = none
      ∧ (parseLog log).validator = v := by
  induction logs with
  | nil => simp [scanLogs] at h
  | cons log rest ih =>
    unfold scanLogs at h
    by_cases hm : (parseLog log).doesMatch = true
    · simp only [hm, Bool.not_true, Bool.false_eq_true, if_false] at h
      cases he : (parseLog log).err with
      | some e => simp [he] at h
      | none =>
        simp only [he, Except.ok.injEq, Option.some.injEq] at h
        exact ⟨[], log, rest, rfl, by simp, hm, he, h⟩
    · have hm2 : (parseLog log).doesMatch = false := by simpa using hm
      simp only [hm2, Bool.not_false, if_true] at h
      obtain ⟨pre, l, post, hl, hpre, hr⟩ := ih h
      refine ⟨log :: pre, l, post, by rw [hl]; rfl, ?_, hr⟩
      intro x hx
      rcases List.mem_cons.mp hx with hx | hx
      · rw [hx]; exact hm2
      · exact hpre x hx

/-- C18: with a receipt that is not failed, let `log` be the first log, in
receipt order, that matches AddedToWhitelist. If it parses, the command succeeds
and reports its `Validator`, whatever the parse errors of the logs before it and
whatever the logs after it; if its parsing returns an error, the command fails
with that error. And a command that succeeds reports the `Validator` of such a
first matching log. -/
theorem whitelist_reports_first_matching_log (env : WhitelistEnv) (params : WhitelistParams)
    (owner : Address) (txRelayer : TxRelayer) (encoded : List Nat) (receipt : Receipt)
    (hacc : env.getAccount params.accountDir params.accountConfig = .ok owner)
    (hrel : env.newTxRelayer params.jsonRPC = .ok txRelayer)
    (henc : env.encodeAbi (.addToWhitelist [env.stringToAddress params.newValidatorAddress])
      = .ok encoded)
    (hres : txRelayer [] (whitelistTxn env owner encoded) = ⟨some receipt, none⟩)
    (hstatus : receipt.status ≠ env.receiptFailed) :
    (∀ pre log post, receipt.logs = pre ++ log :: post →
        (∀ l ∈ pre, (env.parseLog l).doesMatch = false) →
        (env.parseLog log).doesMatch = true →
        ((env.parseLog log).err = none →
            (whitelistRunCommand env params).commandResult
                = some ⟨(env.parseLog log).validator⟩
              ∧ (whitelistRunCommand env params).err = none)
          ∧ (∀ e, (env.parseLog log).err = some e →
              (whitelistRunCommand env params).err = some (.parseLog e)
                ∧ (whitelistRunCommand env params).commandResult = none))
      ∧ (∀ r, (whitelistRunCommand env params).commandResult = some r →
          ∃ pre log post, receipt.logs = pre ++ log :: post
            ∧ (∀ l ∈ pre, (env.parseLog l).doesMatch = false)
            ∧ (env.parseLog log).doesMatch = true ∧ (env.parseLog log).err = none
            ∧ r = ⟨(env.parseLog log).validator⟩) := by
  refine ⟨?_, ?_⟩
  · intro pre log post hlogs hpre hm
    have hscan := scanLogs_first env.parseLog pre post log hpre hm
    rw [← hlogs] at hscan
    refine ⟨?_, ?_⟩
    · intro he
      rw [he] at hscan
      simp [whitelistRunCommand, hacc, hrel, henc, hres, hstatus, hscan]
    · intro e he
      rw [he] at hscan
      simp [whitelistRunCommand, hacc, hrel, henc, hres, hstatus, hscan]
  · intro r hr
    cases hsc : scanLogs env.parseLog receipt.logs with
    | error e => simp [whitelistRunCommand, hacc, hrel, henc, hres, hstatus, hsc] at hr
    | ok o =>
      cases o with
      | none => simp [whitelistRunCommand, hacc, hrel, henc, hres, hstatus, hsc] at hr
      | some v =>
        simp only [whitelistRunCommand, hacc, hrel, henc, hres, hstatus, hsc, if_false,
          Option.some.injEq] at hr
        obtain ⟨pre, log, post, hl, hpre, hm, he, hv⟩ :=
          scanLogs_found_first env.parseLog receipt.logs v hsc
        exact ⟨pre, log, post, hl, hpre, hm, he, by rw [← hr, hv]⟩

theorem whitelist_reports_first_matching_log_witness :
    (demoParseLogStrict ⟨⟨5⟩, [3], [8]⟩).err = some "wrong topic"
      ∧ (whitelistRunCommand
          (demoWhitelistEnvStrict
            ⟨some ⟨1, 12, [⟨⟨5⟩, [3], [8]⟩, ⟨⟨5⟩, [7], [42]⟩, ⟨⟨5⟩, [7], []⟩]⟩, none⟩)
          demoWhitelistParams).commandResult = some ⟨⟨42⟩⟩ :=
  ⟨rfl, (((whitelist_reports_first_matching_log
    (demoWhitelistEnvStrict
      ⟨some ⟨1, 12, [⟨⟨5⟩, [3], [8]⟩, ⟨⟨5⟩, [7], [42]⟩, ⟨⟨5⟩, [7], []⟩]⟩, none⟩)
    demoWhitelistParams ⟨99⟩
    (fun _ _ => ⟨some ⟨1, 12, [⟨⟨5⟩, [3], [8]⟩, ⟨⟨5⟩, [7], [42]⟩, ⟨⟨5⟩, [7], []⟩]⟩, none⟩)
    [4, 5] ⟨1, 12, [⟨⟨5⟩, [3], [8]⟩, ⟨⟨5⟩, [7], [42]⟩, ⟨⟨5⟩, [7], []⟩]⟩
    rfl rfl rfl rfl (by decide)).1
      [⟨⟨5⟩, [3], [8]⟩] ⟨⟨5⟩, [7], [42]⟩ [⟨⟨5⟩, [7], []⟩] rfl (by decide) rfl).1 rfl).1⟩

/-! ## The consensus backends -/

/-- C21: `ConsensusSupported(value)` is true if and only if `value` is exactly
"dev", "ibft", "polybft" or "dummy" (another case or surrounding blanks are not
supported), the keys of the map are distinct, and `command.DefaultConsensus`,
which is "polybft", is supported. -/
theorem consensusSupported_iff (value : String) :
    (ConsensusSupported value = true
        ↔ value = "dev" ∨ value = "ibft" ∨ value = "polybft" ∨ value = "dummy")
      ∧ (consensusBackends.map Prod.fst).Nodup
      ∧ DefaultConsensus = "polybft"
      ∧ ConsensusSupported DefaultConsensus = true
      ∧ ConsensusSupported "PolyBFT" = false
      ∧ ConsensusSupported " polybft" = false
      ∧ ConsensusSupported "" = false := by
  refine ⟨?_, by decide, rfl, by decide, by decide, by decide, by decide⟩
  unfold ConsensusSupported consensusBackends DevConsensus IBFTConsensus PolyBFTConsensus
    DummyConsensus ConsensusName
  by_cases h1 : value = "dev"
  · subst h1; decide
  · by_cases h2 : value = "ibft"
    · subst h2; decide
    · by_cases h3 : value = "polybft"
      · subst h3; decide
      · by_cases h4 : value = "dummy"
        · subst h4; decide
        · have b1 : (value == "dev") = false := by simpa using h1
          have b2 : (value == "ibft") = false := by simpa using h2
          have b3 : (value == "polybft") = false := by simpa using h3
          have b4 : (value == "dummy") = false := by simpa using h4
          simp [List.lookup, b1, b2, b3, b4, h1, h2, h3, h4]

end Metad
